import Mathlib

/-!
# Bowling score keeper (`Assign5/Bowling.cpp`)

A shallow embedding of the scoring code of the bowling simulator and the
properties of its specification.

* `char` arrays are lists of `Char` and `int` arrays are lists of `Int`, read
  with `getD` and written with `set`; the scores of a game stay within 0..300,
  so in the game `int` is taken as `Int`.
* For the properties of `update_score` on every player and every pins value
  `update_score_int` has the same statements on `int`s of 32 bits in two's
  complement; the two agree wherever no sum leaves the range of `int`, and
  `play_frames_int`, the game on such `int`s, is `play_frames`
  (`play_frames_int_eq`).
* `rand()` is a sequence of non-negative numbers. `bowl_frame` and `fill_balls`
  receive the values of the calls made from the point where they start.
* Console input and output are left out. Instead `bowl_frame` and `fill_balls`
  return, next to the bowler, one log entry for every call of `update_score`:
  its frame, ball number and pins, and the bowler as `print_scoreboard` shows
  them right after.
-/

namespace Bowling

/-- The constant `FINAL_FRAME`. -/
def FINAL_FRAME : Nat := 9

/-- The zero character that fills a fresh `char` array. -/
def NUL : Char := Char.ofNat 0

/-- The class `Player`: `name[64]`, `bowls[21]`, `frame_s[10]`, `total_s`. -/
structure Player where
  name : String
  bowls : List Char
  frame_s : List Int
  total_s : Int
deriving DecidableEq

/-- A `Player` as `new Player[num_p]` creates it, once the name is read. -/
def Player.fresh (name : String) : Player :=
  { name := name, bowls := List.replicate 21 NUL, frame_s := List.replicate 10 0, total_s := 0 }

/-- The pair of statements `frame_s[i] += pins; total_s += pins;`. -/
def Player.credit (p : Player) (i : Nat) (pins : Int) : Player :=
  { p with frame_s := p.frame_s.set i (p.frame_s.getD i 0 + pins), total_s := p.total_s + pins }

/-- The assignment `bowls[i] = c`. -/
def Player.mark (p : Player) (i : Nat) (c : Char) : Player :=
  { p with bowls := p.bowls.set i c }

/-- The function `update_score`. -/
def update_score (frame : Nat) (bowler : Player) (pins_knocked_down : Int)
    (ball_number : Nat) : Player :=
  let b := bowler.credit frame pins_knocked_down
  if frame = 0 then b
  else if ball_number = 1 then
    let b1 := if b.frame_s.getD (frame - 1) 0 = 10 then b.credit (frame - 1) pins_knocked_down else b
    if frame > 1 ∧ b1.bowls.getD (2 * (frame - 1)) NUL = 'X'
        ∧ b1.bowls.getD (2 * (frame - 2)) NUL = 'X' then
      b1.credit (frame - 2) pins_knocked_down
    else b1
  else if ball_number = 2 ∧ b.bowls.getD (2 * (frame - 1)) NUL = 'X' then
    b.credit (frame - 1) pins_knocked_down
  else b

/-- The function `bowl`, given the value `r` that `rand()` returns: the
character stored in `*scorecard` and the number of pins returned. -/
def bowl (r : Nat) (pins_left : Nat) (new_frame : Bool) : Char × Nat :=
  let pins_knocked_down := r % (pins_left + 1)
  if pins_knocked_down = pins_left then
    if new_frame then ('X', pins_knocked_down) else ('/', pins_knocked_down)
  else if pins_knocked_down = 0 then ('-', pins_knocked_down)
  else (Char.ofNat (pins_knocked_down + '0'.toNat), pins_knocked_down)

/-- One entry of the log: a call `update_score(frame, bowler, pins, ball_number)`
and the bowler as the scoreboard printed after it shows them. -/
structure Ball where
  frame : Nat
  ball_number : Nat
  pins : Int
  board : Player
deriving DecidableEq

/-- The function `fill_balls`: the bowler afterwards and the balls bowled. -/
def fill_balls (bowler : Player) (strike : Bool) (rnd : Nat → Nat) : Player × List Ball :=
  let pins_left := 10
  if strike then
    let r1 := bowl (rnd 0) pins_left true
    let b1 := update_score FINAL_FRAME (bowler.mark (2 * FINAL_FRAME + 1) r1.1) r1.2 2
    let pins_left := pins_left - r1.2
    let r2 := if pins_left ≠ 0 then bowl (rnd 1) pins_left false else bowl (rnd 1) 10 true
    let b2 := update_score FINAL_FRAME (b1.mark (2 * FINAL_FRAME + 2) r2.1) r2.2 3
    (b2, [⟨FINAL_FRAME, 2, r1.2, b1⟩, ⟨FINAL_FRAME, 3, r2.2, b2⟩])
  else
    let r1 := bowl (rnd 0) pins_left true
    let b1 := update_score FINAL_FRAME (bowler.mark (2 * FINAL_FRAME + 2) r1.1) r1.2 3
    (b1, [⟨FINAL_FRAME, 3, r1.2, b1⟩])

/-- The function `bowl_frame` for one bowler: the bowler afterwards and the
balls bowled in the frame, in order. -/
def bowl_frame (frame : Nat) (bowler : Player) (rnd : Nat → Nat) : Player × List Ball :=
  let pins_left := 10
  let r1 := bowl (rnd 0) pins_left true
  let b1 := update_score frame (bowler.mark (2 * frame) r1.1) r1.2 1
  let pins_left := pins_left - r1.2
  let s :=
    if pins_left ≠ 0 then
      let r2 := bowl (rnd 1) pins_left false
      let b2 := update_score frame (b1.mark (2 * frame + 1) r2.1) r2.2 2
      (b2, [Ball.mk frame 1 r1.2 b1, Ball.mk frame 2 r2.2 b2])
    else (b1, [Ball.mk frame 1 r1.2 b1])
  if frame = FINAL_FRAME ∧ s.1.frame_s.getD frame 0 = 10 then
    let strike := decide (s.1.bowls.getD (2 * frame) NUL = 'X')
    let f := fill_balls s.1 strike (fun k => rnd (k + s.2.length))
    (f.1, s.2 ++ f.2)
  else s

/-- One turn of the inner loop of `lets_go_bowling`: the call
`bowl_frame(frame, &p[bowler], num_p, p)`. The state is the array of players
and the number of calls of `rand()` made so far; `rand k` is the value the
`k`-th call returns. -/
def bowler_turn (frame : Nat) (rand : Nat → Nat) (s : List Player × Nat) (bowler : Nat) :
    List Player × Nat :=
  match s.1[bowler]? with
  | some b =>
    let t := bowl_frame frame b (fun k => rand (s.2 + k))
    (s.1.set bowler t.1, s.2 + t.2.length)
  | none => s

/-- The function `lets_go_bowling` up to the call of `declare_winner`: for
every frame from 0 to `FINAL_FRAME`, every bowler from 0 to `num_p - 1` bowls
the frame. -/
def lets_go_bowling (num_p : Nat) (p : List Player) (rand : Nat → Nat) : List Player × Nat :=
  (List.range (FINAL_FRAME + 1)).foldl
    (fun s frame => (List.range num_p).foldl (bowler_turn frame rand) s) (p, 0)

/-- The frames `0 .. n-1` of one bowler, as `lets_go_bowling` has them bowled:
`rnd frame k` is the `k`-th value `rand()` returns during that bowler's turn in
`frame` (the turns of the other bowlers in between use other values and write
only to their own `Player`). The result is the bowler and the log of the balls. -/
def play_frames (n : Nat) (bowler : Player) (rnd : Nat → Nat → Nat) : Player × List Ball :=
  (List.range n).foldl
    (fun s frame => let t := bowl_frame frame s.1 (rnd frame); (t.1, s.2 ++ t.2))
    (bowler, [])

/-- The bowler at the end of a game played from a fresh `Player`. -/
def final_player (name : String) (rnd : Nat → Nat → Nat) : Player :=
  (play_frames (FINAL_FRAME + 1) (Player.fresh name) rnd).1

/-- The balls of a game played from a fresh `Player`, in the order bowled. -/
def game_log (name : String) (rnd : Nat → Nat → Nat) : List Ball :=
  (play_frames (FINAL_FRAME + 1) (Player.fresh name) rnd).2

/-- The pins of the balls bowled in frame `i`, in the order they were bowled. -/
def frame_balls (log : List Ball) (i : Nat) : List Int :=
  (log.filter (fun e => e.frame = i)).map Ball.pins

/-- The pins of the balls bowled in the frames after frame `i`, in order. -/
def balls_after (log : List Ball) (i : Nat) : List Int :=
  (log.filter (fun e => i < e.frame)).map Ball.pins

/-- The number of later balls a frame is credited with in ten-pin scoring: two
after a strike and one after a spare in the frames before the last, none
otherwise. -/
def bonus_balls (log : List Ball) (i : Nat) : Nat :=
  if i < FINAL_FRAME ∧ (frame_balls log i).sum = 10 then
    if (frame_balls log i).head? = some 10 then 2 else 1
  else 0

/-- The score of frame `i` in ten-pin scoring, given the balls bowled so far:
the pins of its own balls and those of its bonus balls already bowled. -/
def expected_score (log : List Ball) (i : Nat) : Int :=
  (frame_balls log i).sum + ((balls_after log i).take (bonus_balls log i)).sum

/-- The sum `frame_s[0] + frame_s[1] + ... + frame_s[9]`. -/
def sum_frames (p : Player) : Int :=
  ((List.range 10).map (fun i => p.frame_s.getD i 0)).sum

/-- The shape of the balls of a finished frame: before the last frame one
strike or two balls of at most ten pins together; in the last frame two balls
below ten together, a spare and one fill ball, or a strike and two fill balls
(the second at the pins the first left, or at a new rack after a strike). -/
def frame_shape (i : Nat) (fb : List Int) : Prop :=
  if i < FINAL_FRAME then
    fb = [10] ∨ ∃ a b, fb = [a, b] ∧ 0 ≤ a ∧ a < 10 ∧ 0 ≤ b ∧ a + b ≤ 10
  else
    (∃ a b, fb = [a, b] ∧ 0 ≤ a ∧ 0 ≤ b ∧ a + b < 10)
    ∨ (∃ a b c, fb = [a, b, c] ∧ 0 ≤ a ∧ a < 10 ∧ 0 ≤ b ∧ a + b = 10 ∧ 0 ≤ c ∧ c ≤ 10)
    ∨ (∃ b c, fb = [10, b, c] ∧ 0 ≤ b ∧ b ≤ 10 ∧ 0 ≤ c ∧ c ≤ 10 ∧ (b < 10 → b + c ≤ 10))

/-- The scoreboard agrees with ten-pin scoring of the balls bowled so far. -/
def scores_agree (log : List Ball) (p : Player) : Prop :=
  ∀ i, i < 10 → p.frame_s.getD i 0 = expected_score log i

/-- The test under which `update_score` credits the pins to the frame before. -/
def credits_prev (frame : Nat) (p : Player) (ball_number : Nat) : Prop :=
  frame ≠ 0 ∧ ((ball_number = 1 ∧ p.frame_s.getD (frame - 1) 0 = 10)
    ∨ (ball_number ≠ 1 ∧ ball_number = 2 ∧ p.bowls.getD (2 * (frame - 1)) NUL = 'X'))

/-- The test under which `update_score` credits the pins two frames back. -/
def credits_prev2 (frame : Nat) (p : Player) (ball_number : Nat) : Prop :=
  ball_number = 1 ∧ frame > 1 ∧ p.bowls.getD (2 * (frame - 1)) NUL = 'X'
    ∧ p.bowls.getD (2 * (frame - 2)) NUL = 'X'

instance (frame : Nat) (p : Player) (n : Nat) : Decidable (credits_prev frame p n) := by
  unfold credits_prev; infer_instance

instance (frame : Nat) (p : Player) (n : Nat) : Decidable (credits_prev2 frame p n) := by
  unfold credits_prev2; infer_instance
/-- The state between two frames of one bowler: `f` frames are finished, `log`
holds their balls and `p` is the bowler. -/
structure FrameInv (f : Nat) (log : List Ball) (p : Player) : Prop where
  len_s : p.frame_s.length = 10
  len_b : p.bowls.length = 21
  agree : scores_agree log p
  total : p.total_s = sum_frames p
  before : ∀ e, e ∈ log → e.frame < f
  shape : ∀ i, i < f → frame_shape i (frame_balls log i)
  marks : ∀ i, i < f → (p.bowls.getD (2 * i) NUL = 'X' ↔ (frame_balls log i).head? = some 10)
  two : ∀ i, i + 2 < f → 2 ≤ (balls_after log i).length
  sorted : log.Pairwise (fun a b => a.frame ≤ b.frame)
  hist : ∀ pre e suf, log = pre ++ e :: suf →
    scores_agree (pre ++ [e]) e.board ∧ e.board.total_s = sum_frames e.board

/-- The state inside frame `f`: `log0` and `p0` are the log and the bowler when
the frame began, `l` holds the balls of the frame so far, `p` is the bowler. -/
structure BallInv (f : Nat) (log0 : List Ball) (p0 : Player) (l : List Ball) (p : Player) :
    Prop where
  len_s : p.frame_s.length = 10
  len_b : p.bowls.length = 21
  agree : scores_agree (log0 ++ l) p
  total : p.total_s = sum_frames p
  here : ∀ e, e ∈ l → e.frame = f
  low : ∀ j, j < 2 * f → p.bowls.getD j NUL = p0.bowls.getD j NUL
  hist : ∀ pre e suf, log0 ++ l = pre ++ e :: suf →
    scores_agree (pre ++ [e]) e.board ∧ e.board.total_s = sum_frames e.board

/-- What `declare_winner` prints: that the game was a tie, or the name of the
winner. -/
inductive Verdict where
  | tie : Verdict
  | won (name : String) : Verdict
deriving DecidableEq

/-- The local variables `winner`, `max_score` and `tie` of `declare_winner`. -/
structure WinnerState where
  winner : String
  max_score : Int
  tie : Bool
deriving DecidableEq

/-- The body of the loop of `declare_winner` for the player `p_list[i]`. -/
def declare_winner_step (s : WinnerState) (pl : Player) : WinnerState :=
  if pl.total_s = s.max_score then { s with tie := true }
  else if pl.total_s > s.max_score then
    { winner := pl.name, max_score := pl.total_s, tie := false }
  else s

/-- The function `declare_winner`; `winner0` stands for what the array `winner`
holds before anything is copied into it. -/
def declare_winner (num_p : Nat) (p_list : List Player) (winner0 : String) : Verdict :=
  let s := (p_list.take num_p).foldl declare_winner_step
    { winner := winner0, max_score := -1, tie := false }
  if s.tie then Verdict.tie else Verdict.won s.winner

/-- The state of the loop of `declare_winner` after the players `l`. -/
structure WinnerInv (l : List Player) (s : WinnerState) : Prop where
  empty : l = [] → s.max_score = -1
  low : -1 ≤ s.max_score
  bound : ∀ q, q ∈ l → q.total_s ≤ s.max_score
  best : l ≠ [] → ∃ q, q ∈ l ∧ q.total_s = s.max_score ∧ s.winner = q.name
  tied : s.tie = true ↔ 2 ≤ l.countP (fun q => decide (q.total_s = s.max_score))

/-- One use of an element of `bowls` or `frame_s`, with the index as the code
computes it from `frame`; a `+=` and a store through `scorecard` are writes. -/
inductive Access where
  | read_bowls (i : Int) : Access
  | write_bowls (i : Int) : Access
  | read_frame_s (i : Int) : Access
  | write_frame_s (i : Int) : Access
deriving DecidableEq

/-- The index of the access is inside the array: `bowls[21]`, `frame_s[10]`. -/
def Access.in_range : Access → Prop
  | Access.read_bowls i => 0 ≤ i ∧ i ≤ 20
  | Access.write_bowls i => 0 ≤ i ∧ i ≤ 20
  | Access.read_frame_s i => 0 ≤ i ∧ i ≤ 9
  | Access.write_frame_s i => 0 ≤ i ∧ i ≤ 9

/-- The function `update_score` once more, with the list of the array elements
it uses, in order. The tests joined by `&&` are evaluated from the left and
stop at the first that fails. -/
def update_score_traced (frame : Nat) (bowler : Player) (pins_knocked_down : Int)
    (ball_number : Nat) : Player × List Access :=
  let b := bowler.credit frame pins_knocked_down
  let t := [Access.write_frame_s (frame : Int)]
  if frame = 0 then (b, t)
  else if ball_number = 1 then
    let s1 :=
      if b.frame_s.getD (frame - 1) 0 = 10 then
        (b.credit (frame - 1) pins_knocked_down,
          t ++ [Access.read_frame_s ((frame : Int) - 1), Access.write_frame_s ((frame : Int) - 1)])
      else (b, t ++ [Access.read_frame_s ((frame : Int) - 1)])
    if frame > 1 then
      if s1.1.bowls.getD (2 * (frame - 1)) NUL = 'X' then
        if s1.1.bowls.getD (2 * (frame - 2)) NUL = 'X' then
          (s1.1.credit (frame - 2) pins_knocked_down,
            s1.2 ++ [Access.read_bowls (2 * ((frame : Int) - 1)),
              Access.read_bowls (2 * ((frame : Int) - 2)),
              Access.write_frame_s ((frame : Int) - 2)])
        else
          (s1.1, s1.2 ++ [Access.read_bowls (2 * ((frame : Int) - 1)),
            Access.read_bowls (2 * ((frame : Int) - 2))])
      else (s1.1, s1.2 ++ [Access.read_bowls (2 * ((frame : Int) - 1))])
    else s1
  else if ball_number = 2 then
    if b.bowls.getD (2 * (frame - 1)) NUL = 'X' then
      (b.credit (frame - 1) pins_knocked_down,
        t ++ [Access.read_bowls (2 * ((frame : Int) - 1)),
          Access.write_frame_s ((frame : Int) - 1)])
    else (b, t ++ [Access.read_bowls (2 * ((frame : Int) - 1))])
  else (b, t)

/-- The function `fill_balls` once more, with the list of the array elements it
and the calls of `bowl` and `update_score` in it use. -/
def fill_balls_traced (bowler : Player) (strike : Bool) (rnd : Nat → Nat) :
    Player × List Access :=
  let pins_left := 10
  if strike then
    let r1 := bowl (rnd 0) pins_left true
    let u1 := update_score_traced FINAL_FRAME (bowler.mark (2 * FINAL_FRAME + 1) r1.1) r1.2 2
    let pins_left := pins_left - r1.2
    let r2 := if pins_left ≠ 0 then bowl (rnd 1) pins_left false else bowl (rnd 1) 10 true
    let u2 := update_score_traced FINAL_FRAME (u1.1.mark (2 * FINAL_FRAME + 2) r2.1) r2.2 3
    (u2.1, [Access.write_bowls (2 * (FINAL_FRAME : Int) + 1)] ++ u1.2
      ++ [Access.write_bowls (2 * (FINAL_FRAME : Int) + 2)] ++ u2.2)
  else
    let r1 := bowl (rnd 0) pins_left true
    let u1 := update_score_traced FINAL_FRAME (bowler.mark (2 * FINAL_FRAME + 2) r1.1) r1.2 3
    (u1.1, [Access.write_bowls (2 * (FINAL_FRAME : Int) + 2)] ++ u1.2)

/-- The function `bowl_frame` once more, with the list of the array elements it
and the calls of `bowl`, `update_score` and `fill_balls` in it use. -/
def bowl_frame_traced (frame : Nat) (bowler : Player) (rnd : Nat → Nat) :
    Player × List Access :=
  let pins_left := 10
  let r1 := bowl (rnd 0) pins_left true
  let u1 := update_score_traced frame (bowler.mark (2 * frame) r1.1) r1.2 1
  let t1 := [Access.write_bowls (2 * (frame : Int))] ++ u1.2
  let pins_left := pins_left - r1.2
  let s : Player × List Access × Nat :=
    if pins_left ≠ 0 then
      let r2 := bowl (rnd 1) pins_left false
      let u2 := update_score_traced frame (u1.1.mark (2 * frame + 1) r2.1) r2.2 2
      (u2.1, t1 ++ [Access.write_bowls (2 * (frame : Int) + 1)] ++ u2.2, 2)
    else (u1.1, t1, 1)
  if frame = FINAL_FRAME then
    if s.1.frame_s.getD frame 0 = 10 then
      let strike := decide (s.1.bowls.getD (2 * frame) NUL = 'X')
      let f := fill_balls_traced s.1 strike (fun k => rnd (k + s.2.2))
      (f.1, s.2.1 ++ [Access.read_frame_s (frame : Int), Access.read_bowls (2 * (frame : Int))]
        ++ f.2)
    else (s.1, s.2.1 ++ [Access.read_frame_s (frame : Int)])
  else (s.1, s.2.1)

/-- The uses of `bowls` and `frame_s` that belong to a call for `frame`:
`bowls` is written at `2 * frame`, `2 * frame + 1` and, in the last frame, at
`2 * frame + 2`; it is read at `2 * (frame - 1)` when `frame ≥ 1`, at
`2 * (frame - 2)` when `frame ≥ 2` and at `2 * frame` in the last frame;
`frame_s` is used at `frame`, at `frame - 1` when `frame ≥ 1` and at
`frame - 2` when `frame ≥ 2`. -/
def Access.of_frame (frame : Nat) : Access → Prop
  | Access.read_bowls i =>
    (frame = FINAL_FRAME ∧ i = 2 * (frame : Int)) ∨ (1 ≤ frame ∧ i = 2 * ((frame : Int) - 1))
      ∨ (2 ≤ frame ∧ i = 2 * ((frame : Int) - 2))
  | Access.write_bowls i =>
    i = 2 * (frame : Int) ∨ i = 2 * (frame : Int) + 1
      ∨ (frame = FINAL_FRAME ∧ i = 2 * (frame : Int) + 2)
  | Access.read_frame_s i =>
    (frame = FINAL_FRAME ∧ i = (frame : Int)) ∨ (1 ≤ frame ∧ i = (frame : Int) - 1)
  | Access.write_frame_s i =>
    i = (frame : Int) ∨ (1 ≤ frame ∧ i = (frame : Int) - 1)
      ∨ (2 ≤ frame ∧ i = (frame : Int) - 2)

instance (a : Access) : Decidable a.in_range := by
  cases a <;> unfold Access.in_range <;> infer_instance

/-- The value that a sum of `int`s leaves in an `int` of 32 bits in two's
complement: the sum itself from `-2^31` to `2^31 - 1`, wrapped around outside. -/
def to_int (x : Int) : Int :=
  (x + 2 ^ 31) % 2 ^ 32 - 2 ^ 31

/-- The number is a value of an `int` of 32 bits. -/
def is_int (x : Int) : Prop :=
  -2 ^ 31 ≤ x ∧ x < 2 ^ 31

instance (x : Int) : Decidable (is_int x) := by
  unfold is_int; infer_instance

/-- The pair of statements `frame_s[i] += pins; total_s += pins;` on `int`s of
32 bits. -/
def Player.credit_int (p : Player) (i : Nat) (pins : Int) : Player :=
  { p with
    frame_s := p.frame_s.set i (to_int (p.frame_s.getD i 0 + pins)),
    total_s := to_int (p.total_s + pins) }

/-- The function `update_score` with `frame_s` and `total_s` as `int`s of 32
bits: every `+=` leaves its sum as `to_int` gives it. Where no sum leaves the
range of `int` this is `update_score`. -/
def update_score_int (frame : Nat) (bowler : Player) (pins_knocked_down : Int)
    (ball_number : Nat) : Player :=
  let b := bowler.credit_int frame pins_knocked_down
  if frame = 0 then b
  else if ball_number = 1 then
    let b1 :=
      if b.frame_s.getD (frame - 1) 0 = 10 then b.credit_int (frame - 1) pins_knocked_down
      else b
    if frame > 1 ∧ b1.bowls.getD (2 * (frame - 1)) NUL = 'X'
        ∧ b1.bowls.getD (2 * (frame - 2)) NUL = 'X' then
      b1.credit_int (frame - 2) pins_knocked_down
    else b1
  else if ball_number = 2 ∧ b.bowls.getD (2 * (frame - 1)) NUL = 'X' then
    b.credit_int (frame - 1) pins_knocked_down
  else b

/-- The function `fill_balls` with `frame_s` and `total_s` as `int`s of 32
bits: it calls `update_score_int`. -/
def fill_balls_int (bowler : Player) (strike : Bool) (rnd : Nat → Nat) : Player × List Ball :=
  let pins_left := 10
  if strike then
    let r1 := bowl (rnd 0) pins_left true
    let b1 := update_score_int FINAL_FRAME (bowler.mark (2 * FINAL_FRAME + 1) r1.1) r1.2 2
    let pins_left := pins_left - r1.2
    let r2 := if pins_left ≠ 0 then bowl (rnd 1) pins_left false else bowl (rnd 1) 10 true
    let b2 := update_score_int FINAL_FRAME (b1.mark (2 * FINAL_FRAME + 2) r2.1) r2.2 3
    (b2, [⟨FINAL_FRAME, 2, r1.2, b1⟩, ⟨FINAL_FRAME, 3, r2.2, b2⟩])
  else
    let r1 := bowl (rnd 0) pins_left true
    let b1 := update_score_int FINAL_FRAME (bowler.mark (2 * FINAL_FRAME + 2) r1.1) r1.2 3
    (b1, [⟨FINAL_FRAME, 3, r1.2, b1⟩])

/-- The function `bowl_frame` with `frame_s` and `total_s` as `int`s of 32
bits: it calls `update_score_int` and `fill_balls_int`. -/
def bowl_frame_int (frame : Nat) (bowler : Player) (rnd : Nat → Nat) : Player × List Ball :=
  let pins_left := 10
  let r1 := bowl (rnd 0) pins_left true
  let b1 := update_score_int frame (bowler.mark (2 * frame) r1.1) r1.2 1
  let pins_left := pins_left - r1.2
  let s :=
    if pins_left ≠ 0 then
      let r2 := bowl (rnd 1) pins_left false
      let b2 := update_score_int frame (b1.mark (2 * frame + 1) r2.1) r2.2 2
      (b2, [Ball.mk frame 1 r1.2 b1, Ball.mk frame 2 r2.2 b2])
    else (b1, [Ball.mk frame 1 r1.2 b1])
  if frame = FINAL_FRAME ∧ s.1.frame_s.getD frame 0 = 10 then
    let strike := decide (s.1.bowls.getD (2 * frame) NUL = 'X')
    let f := fill_balls_int s.1 strike (fun k => rnd (k + s.2.length))
    (f.1, s.2 ++ f.2)
  else s

/-- The frames `0 .. n-1` of one bowler with `frame_s` and `total_s` as `int`s
of 32 bits: `play_frames` with `bowl_frame_int`. -/
def play_frames_int (n : Nat) (bowler : Player) (rnd : Nat → Nat → Nat) : Player × List Ball :=
  (List.range n).foldl
    (fun s frame => let t := bowl_frame_int frame s.1 (rnd frame); (t.1, s.2 ++ t.2))
    (bowler, [])

/-- Every `frame_s` entry and `total_s` lie between 0 and `B`. -/
def Player.within (p : Player) (B : Int) : Prop :=
  (∀ i, 0 ≤ p.frame_s.getD i 0 ∧ p.frame_s.getD i 0 ≤ B) ∧ 0 ≤ p.total_s ∧ p.total_s ≤ B

end Bowling

/-! # Bit extremes (`Assign1/bit_extremes.cpp`)

`unsigned long long` values are natural numbers below `2 ^ 64` and every
operation on them is reduced modulo `2 ^ 64`; a `long long` is the value of the
same 64 bits in two's complement. -/

namespace BitExtremes

/-- The value of 64 bits, given as an `unsigned long long`, read as a
`long long`. -/
def to_signed (u : Nat) : Int :=
  if u < 2 ^ 63 then (u : Int) else (u : Int) - 2 ^ 64

/-- The loop `while (temp--) { if (!temp) oneLessPowerOfTwo = twoToTheNumBits;
twoToTheNumBits *= 2; }`, started with the given value of `temp`: the values of
`twoToTheNumBits` and `oneLessPowerOfTwo` when it ends. -/
def power_loop : Nat → Nat → Nat → Nat × Nat
  | 0, twoToTheNumBits, oneLessPowerOfTwo => (twoToTheNumBits, oneLessPowerOfTwo)
  | temp + 1, twoToTheNumBits, oneLessPowerOfTwo =>
    power_loop temp (twoToTheNumBits * 2 % 2 ^ 64)
      (if temp = 0 then twoToTheNumBits else oneLessPowerOfTwo)

/-- The three numbers that `main` prints. -/
structure Extremes where
  maxUnsigned : Nat
  maxSigned : Int
  minSigned : Int
deriving DecidableEq

/-- The computation of `main` for a `numBits` accepted by the input loop;
`garbage` stands for what `oneLessPowerOfTwo` holds before it is assigned. -/
def bit_extremes (numBits : Nat) (garbage : Nat) : Extremes :=
  let r := power_loop numBits 1 garbage
  { maxUnsigned := (r.1 + 2 ^ 64 - 1) % 2 ^ 64,
    maxSigned := to_signed ((r.2 + 2 ^ 64 - 1) % 2 ^ 64),
    minSigned := to_signed ((2 ^ 64 - r.2) % 2 ^ 64) }

end BitExtremes

/-! # Wheel of Fortune (`Assign4/Wheel_of_Fortune.cpp`)

A `string` is a list of characters, read with `getD`; arrays of pointers to
players are lists of players. -/

namespace Wheel

/-- The struct `Player`. -/
structure Player where
  number : Int
  total_score : Int
  round_score : Int
deriving DecidableEq

/-- One step of `sort_by_total_score`:
`if (standings[i]->total_score < standings[j]->total_score) swap(standings[i], standings[j]);`. -/
def swap_if_less (standings : List Player) (i j : Nat) : List Player :=
  match standings[i]?, standings[j]? with
  | some a, some b =>
    if a.total_score < b.total_score then (standings.set i b).set j a else standings
  | _, _ => standings

/-- The function `sort_by_total_score`: case 3 of the `switch` falls through
to case 2, case 1 does nothing. -/
def sort_by_total_score (num_p : Nat) (standings : List Player) : List Player :=
  if num_p = 3 then
    swap_if_less (swap_if_less (swap_if_less standings 0 1) 1 2) 0 1
  else if num_p = 2 then swap_if_less standings 0 1
  else standings

/-- The function `print_standings`: the number it returns and the array `p`
after the call. It writes only to its local array `standings`. -/
def print_standings (num_p : Nat) (p : List Player) (_final_score : Bool) :
    Int × List Player :=
  let standings := sort_by_total_score num_p (p.take num_p)
  if num_p > 1 ∧ (standings.getD 0 ⟨0, 0, 0⟩).total_score
      = (standings.getD 1 ⟨0, 0, 0⟩).total_score then
    (0, p)
  else ((standings.getD 0 ⟨0, 0, 0⟩).number, p)

/-- The zero character, read where an index is out of range. -/
def NUL : Char := Char.ofNat 0

/-- The apostrophe. -/
def APOSTROPHE : Char := Char.ofNat 39

/-- The function `is_alphabetic`. -/
def is_alphabetic (c : Char) : Bool :=
  ('A'.toNat ≤ c.toNat ∧ c.toNat ≤ 'Z'.toNat) ∨ ('a'.toNat ≤ c.toNat ∧ c.toNat ≤ 'z'.toNat)

/-- The loop of `check_phrase_validity` with `n` characters still to check,
`i` the index and `letter` the flag; `next` is what `continue` leads to and
`last` the test on the apostrophe before `return false`. -/
def check_loop (s : List Char) : Nat → Nat → Bool → Bool
  | 0, _, letter => letter
  | n + 1, i, letter =>
    let next := check_loop s n (i + 1) letter
    let last :=
      if s.getD i NUL = APOSTROPHE
          ∧ ((i ≠ 0 ∧ is_alphabetic (s.getD (i - 1) NUL))
            ∨ (i ≠ s.length - 1 ∧ is_alphabetic (s.getD (i + 1) NUL))) then next
      else false
    if is_alphabetic (s.getD i NUL) ∨ s.getD i NUL = ' ' then
      check_loop s n (i + 1) (if s.getD i NUL ≠ ' ' then true else letter)
    else if i ≠ 0 ∧ is_alphabetic (s.getD (i - 1) NUL) then
      if i = s.length - 1
          ∧ (s.getD i NUL = '.' ∨ s.getD i NUL = '!' ∨ s.getD i NUL = '?') then next
      else if i ≠ s.length - 1 ∧ s.getD (i + 1) NUL = ' '
          ∧ (s.getD i NUL = ',' ∨ s.getD i NUL = ';' ∨ s.getD i NUL = ':') then next
      else if i ≠ s.length - 1 ∧ s.getD i NUL = '-'
          ∧ is_alphabetic (s.getD (i + 1) NUL) then next
      else last
    else last

/-- The function `check_phrase_validity`. -/
def check_phrase_validity (s : List Char) : Bool :=
  check_loop s s.length 0 false

/-- The place in which `check_phrase_validity` accepts the character at index
`i`: a letter or a space anywhere; `.`, `!` or `?` as the last character right
after a letter; `,`, `;` or `:` right after a letter and right before a space;
`-` between two letters; an apostrophe right after or right before a letter. -/
def accepted_at (s : List Char) (i : Nat) : Prop :=
  is_alphabetic (s.getD i NUL) = true ∨ s.getD i NUL = ' '
  ∨ ((i ≠ 0 ∧ is_alphabetic (s.getD (i - 1) NUL) = true)
      ∧ (i = s.length - 1
        ∧ (s.getD i NUL = '.' ∨ s.getD i NUL = '!' ∨ s.getD i NUL = '?')))
  ∨ ((i ≠ 0 ∧ is_alphabetic (s.getD (i - 1) NUL) = true)
      ∧ (i ≠ s.length - 1 ∧ s.getD (i + 1) NUL = ' '
        ∧ (s.getD i NUL = ',' ∨ s.getD i NUL = ';' ∨ s.getD i NUL = ':')))
  ∨ ((i ≠ 0 ∧ is_alphabetic (s.getD (i - 1) NUL) = true)
      ∧ (i ≠ s.length - 1 ∧ s.getD i NUL = '-'
        ∧ is_alphabetic (s.getD (i + 1) NUL) = true))
  ∨ (s.getD i NUL = APOSTROPHE
      ∧ ((i ≠ 0 ∧ is_alphabetic (s.getD (i - 1) NUL) = true)
        ∨ (i ≠ s.length - 1 ∧ is_alphabetic (s.getD (i + 1) NUL) = true)))

/-- The characters a valid phrase may hold: letters, spaces and the marks
`. ! ? , ; : -` and the apostrophe. -/
def allowed_char (c : Char) : Prop :=
  is_alphabetic c = true ∨ c = ' ' ∨ c = '.' ∨ c = '!' ∨ c = '?' ∨ c = ',' ∨ c = ';'
    ∨ c = ':' ∨ c = '-' ∨ c = APOSTROPHE

/-- The loop of `decode_phrase` with `n` characters of `answer` still to look
at, `i` the index, and the current `board` and `instances`: the value returned
and the board at the end. The `char` operands of `letter - 32 == answer[i]` are
promoted to `int`. -/
def decode_loop (answer : List Char) (letter : Char) :
    Nat → Nat → List Char → Int → Int × List Char
  | 0, _, board, instances => (instances, board)
  | n + 1, i, board, instances =>
    if letter = answer.getD i NUL
        ∨ (letter.toNat : Int) - 32 = ((answer.getD i NUL).toNat : Int) then
      decode_loop answer letter n (i + 1) (board.set i (answer.getD i NUL)) (instances + 1)
    else decode_loop answer letter n (i + 1) board instances

/-- The function `decode_phrase`: the number returned and `board` after the
call. -/
def decode_phrase (board answer : List Char) (letter : Char) : Int × List Char :=
  decode_loop answer letter answer.length 0 board 0

/-- The loop of `case_insensitive_compare` with `n` characters of `s1` still to
compare and `i` the index. The `char` operands of `s1[i] + 32 == s2[i]` and
`s1[i] - 32 == s2[i]` are promoted to `int`. -/
def compare_loop (s1 s2 : List Char) : Nat → Nat → Bool
  | 0, _ => true
  | n + 1, i =>
    if s1.getD i NUL ≠ s2.getD i NUL then
      if is_alphabetic (s1.getD i NUL) ∧ is_alphabetic (s2.getD i NUL) then
        if ((s1.getD i NUL).toNat : Int) + 32 = ((s2.getD i NUL).toNat : Int)
            ∨ ((s1.getD i NUL).toNat : Int) - 32 = ((s2.getD i NUL).toNat : Int) then
          compare_loop s1 s2 n (i + 1)
        else false
      else false
    else compare_loop s1 s2 n (i + 1)

/-- The function `case_insensitive_compare`. -/
def case_insensitive_compare (s1 s2 : List Char) : Bool :=
  compare_loop s1 s2 s1.length 0

instance (s : List Char) (i : Nat) : Decidable (accepted_at s i) := by
  unfold accepted_at; infer_instance

instance (c : Char) : Decidable (allowed_char c) := by
  unfold allowed_char; infer_instance

end Wheel

/-! # Adventure (`Assign2/adventure.cpp`)

The array `obs_numbering` is a list of `Int`, read with `getD` and written with
`set`; `rand()` is a sequence of non-negative numbers. -/

namespace Adventure

/-- One turn of the loop of `shuffle_obstacles`, for the index `i`; `rand i` is
the value that the call of `rand()` in this turn returns. -/
def shuffle_step (rand : Nat → Nat) (obs_numbering : List Int) (i : Nat) : List Int :=
  let rand_num := rand i % 14
  let temp := obs_numbering.getD i 0
  (obs_numbering.set i (obs_numbering.getD rand_num 0)).set rand_num temp

/-- The function `shuffle_obstacles`: the array after the call. -/
def shuffle_obstacles (obs_numbering : List Int) (rand : Nat → Nat) : List Int :=
  (List.range 14).foldl (shuffle_step rand) obs_numbering

end Adventure

namespace Bowling

/-! ## Arrays -/

theorem getD_set_int (l : List Int) (i j : Nat) (v : Int) :
    (l.set i v).getD j 0 = if i = j ∧ i < l.length then v else l.getD j 0 := by
  simp only [List.getD_eq_getElem?_getD, List.getElem?_set]
  by_cases h : i = j
  · subst h
    by_cases h2 : i < l.length
    · simp [h2]
    · simp [h2, List.getElem?_eq_none (Nat.le_of_not_lt h2)]
  · simp [h]

theorem getD_set_char (l : List Char) (i j : Nat) (v : Char) :
    (l.set i v).getD j NUL = if i = j ∧ i < l.length then v else l.getD j NUL := by
  simp only [List.getD_eq_getElem?_getD, List.getElem?_set]
  by_cases h : i = j
  · subst h
    by_cases h2 : i < l.length
    · simp [h2]
    · simp [h2, List.getElem?_eq_none (Nat.le_of_not_lt h2)]
  · simp [h]

@[simp] theorem credit_bowls (p : Player) (i : Nat) (x : Int) : (p.credit i x).bowls = p.bowls := rfl
@[simp] theorem credit_name (p : Player) (i : Nat) (x : Int) : (p.credit i x).name = p.name := rfl
@[simp] theorem credit_total (p : Player) (i : Nat) (x : Int) :
    (p.credit i x).total_s = p.total_s + x := rfl
@[simp] theorem credit_length (p : Player) (i : Nat) (x : Int) :
    (p.credit i x).frame_s.length = p.frame_s.length := by simp [Player.credit]
@[simp] theorem mark_frame_s (p : Player) (i : Nat) (c : Char) : (p.mark i c).frame_s = p.frame_s := rfl
@[simp] theorem mark_total (p : Player) (i : Nat) (c : Char) : (p.mark i c).total_s = p.total_s := rfl
@[simp] theorem mark_name (p : Player) (i : Nat) (c : Char) : (p.mark i c).name = p.name := rfl
@[simp] theorem mark_length (p : Player) (i : Nat) (c : Char) :
    (p.mark i c).bowls.length = p.bowls.length := by simp [Player.mark]

theorem mark_getD (p : Player) (i j : Nat) (c : Char) :
    (p.mark i c).bowls.getD j NUL = if i = j ∧ i < p.bowls.length then c else p.bowls.getD j NUL := by
  exact getD_set_char p.bowls i j c

theorem credit_getD (p : Player) (i j : Nat) (x : Int) (h : i < p.frame_s.length) :
    (p.credit i x).frame_s.getD j 0 = p.frame_s.getD j 0 + if j = i then x else 0 := by
  simp only [Player.credit, getD_set_int]
  by_cases hij : i = j
  · subst hij; simp [h]
  · have : ¬ j = i := fun e => hij e.symm
    simp [hij, this]

theorem sum_frames_credit (p : Player) (i : Nat) (x : Int) (hl : p.frame_s.length = 10)
    (hi : i < 10) : sum_frames (p.credit i x) = sum_frames p + x := by
  have h : ∀ j, (p.credit i x).frame_s.getD j 0 = p.frame_s.getD j 0 + if j = i then x else 0 :=
    fun j => credit_getD p i j x (by omega)
  simp only [sum_frames, h]
  interval_cases i <;> simp [List.range, List.range.loop] <;> ring

/-! ## `update_score` -/

@[simp] theorem update_score_bowls (f : Nat) (p : Player) (x : Int) (n : Nat) :
    (update_score f p x n).bowls = p.bowls := by
  unfold update_score
  simp only []
  split_ifs <;> simp

@[simp] theorem update_score_name (f : Nat) (p : Player) (x : Int) (n : Nat) :
    (update_score f p x n).name = p.name := by
  unfold update_score
  simp only []
  split_ifs <;> simp

@[simp] theorem update_score_length (f : Nat) (p : Player) (x : Int) (n : Nat) :
    (update_score f p x n).frame_s.length = p.frame_s.length := by
  unfold update_score
  simp only []
  split_ifs <;> simp

theorem credit_getD_ne (p : Player) (i j : Nat) (x : Int) (h : i ≠ j) :
    (p.credit i x).frame_s.getD j 0 = p.frame_s.getD j 0 := by
  simp only [Player.credit, getD_set_int]
  simp [h]

theorem update_score_eq (f : Nat) (p : Player) (x : Int) (n : Nat) :
    update_score f p x n
      = (if credits_prev2 f p n then
          (if credits_prev f p n then (p.credit f x).credit (f - 1) x
            else p.credit f x).credit (f - 2) x
        else if credits_prev f p n then (p.credit f x).credit (f - 1) x else p.credit f x) := by
  unfold update_score credits_prev credits_prev2
  simp only []
  by_cases h0 : f = 0
  · subst h0; simp
  · have e1 : (p.credit f x).frame_s.getD (f - 1) 0 = p.frame_s.getD (f - 1) 0 :=
      credit_getD_ne p f (f - 1) x (by omega)
    simp only [h0, if_false, e1, credit_bowls, Ne, not_false_eq_true, true_and]
    by_cases h1 : n = 1
    · subst h1
      simp only [if_true, true_and, not_true_eq_false, false_and, or_false, gt_iff_lt]
      by_cases c1 : p.frame_s.getD (f - 1) 0 = 10
      · simp only [c1, if_true, credit_bowls]
      · simp only [c1, if_false, credit_bowls]
    · simp only [h1, if_false, false_and, false_or, not_false_eq_true, true_and]

theorem update_score_getD (f : Nat) (p : Player) (x : Int) (n i : Nat)
    (hl : p.frame_s.length = 10) (hf : f < 10) :
    (update_score f p x n).frame_s.getD i 0
      = p.frame_s.getD i 0 + (if i = f then x else 0)
        + (if i + 1 = f ∧ credits_prev f p n then x else 0)
        + (if i + 2 = f ∧ credits_prev2 f p n then x else 0) := by
  rw [update_score_eq]
  have h2 : credits_prev2 f p n → 1 < f := fun h => h.2.1
  have h1 : credits_prev f p n → f ≠ 0 := fun h => h.1
  by_cases c2 : credits_prev2 f p n <;> by_cases c1 : credits_prev f p n
  · have := h2 c2
    simp only [c1, c2, if_true, and_true]
    rw [credit_getD _ _ _ _ (by simp; omega), credit_getD _ _ _ _ (by simp; omega),
      credit_getD _ _ _ _ (by omega)]
    have a1 : (i + 1 = f) ↔ (i = f - 1) := by omega
    have a2 : (i + 2 = f) ↔ (i = f - 2) := by omega
    simp only [a1, a2]
  · have := h2 c2
    simp only [c1, c2, if_true, if_false, and_true, and_false, add_zero]
    rw [credit_getD _ _ _ _ (by simp; omega), credit_getD _ _ _ _ (by omega)]
    have a2 : (i + 2 = f) ↔ (i = f - 2) := by omega
    simp only [a2]
  · have := h1 c1
    simp only [c1, c2, if_true, if_false, and_true, and_false, add_zero]
    rw [credit_getD _ _ _ _ (by simp; omega), credit_getD _ _ _ _ (by omega)]
    have a1 : (i + 1 = f) ↔ (i = f - 1) := by omega
    simp only [a1]
  · simp only [c1, c2, if_false, and_false, add_zero]
    rw [credit_getD _ _ _ _ (by omega)]

theorem update_score_sum (f : Nat) (p : Player) (x : Int) (n : Nat)
    (hl : p.frame_s.length = 10) (hf : f < 10) (ht : p.total_s = sum_frames p) :
    (update_score f p x n).total_s = sum_frames (update_score f p x n) := by
  rw [update_score_eq]
  split_ifs <;>
    simp only [credit_total] <;>
    (repeat rw [sum_frames_credit _ _ _ (by simp [hl]) (by omega)]) <;> rw [ht]

/-! ## The log -/

theorem frame_balls_append (l m : List Ball) (i : Nat) :
    frame_balls (l ++ m) i = frame_balls l i ++ frame_balls m i := by
  simp [frame_balls]

theorem balls_after_append (l m : List Ball) (i : Nat) :
    balls_after (l ++ m) i = balls_after l i ++ balls_after m i := by
  simp [balls_after]

theorem frame_balls_of_ne (l : List Ball) (i : Nat) (h : ∀ e, e ∈ l → e.frame ≠ i) :
    frame_balls l i = [] := by
  simp only [frame_balls, List.map_eq_nil_iff, List.filter_eq_nil_iff]
  intro e he
  simpa using h e he

theorem frame_balls_of_eq (l : List Ball) (i : Nat) (h : ∀ e, e ∈ l → e.frame = i) :
    frame_balls l i = l.map Ball.pins := by
  simp only [frame_balls]
  congr 1
  rw [List.filter_eq_self]
  intro e he
  simpa using h e he

theorem balls_after_of_le (l : List Ball) (i : Nat) (h : ∀ e, e ∈ l → e.frame ≤ i) :
    balls_after l i = [] := by
  simp only [balls_after, List.map_eq_nil_iff, List.filter_eq_nil_iff]
  intro e he
  have := h e he
  simp; omega

theorem balls_after_of_lt (l : List Ball) (i : Nat) (h : ∀ e, e ∈ l → i < e.frame) :
    balls_after l i = l.map Ball.pins := by
  simp only [balls_after]
  congr 1
  rw [List.filter_eq_self]
  intro e he
  simpa using h e he

theorem balls_after_eq_frame (l : List Ball) (i : Nat) (h : ∀ e, e ∈ l → e.frame < i + 2) :
    balls_after l i = frame_balls l (i + 1) := by
  simp only [balls_after, frame_balls]
  congr 1
  apply List.filter_congr
  intro e he
  have := h e he
  simp; omega

theorem sum_take_snoc (A : List Int) (x : Int) (k : Nat) :
    ((A ++ [x]).take k).sum = (A.take k).sum + if A.length < k then x else 0 := by
  by_cases h : k ≤ A.length
  · rw [List.take_append_of_le_length h]
    have : ¬ A.length < k := by omega
    simp [this]
  · have h1 : A.length < k := by omega
    rw [List.take_of_length_le (by simp; omega), List.take_of_length_le (by omega)]
    simp [h1]

theorem bonus_balls_le (log : List Ball) (i : Nat) : bonus_balls log i ≤ 2 := by
  unfold bonus_balls
  split_ifs <;> omega

theorem bonus_balls_congr (l m : List Ball) (i : Nat) (h : frame_balls l i = frame_balls m i) :
    bonus_balls l i = bonus_balls m i := by
  simp [bonus_balls, h]

theorem shape_head (i : Nat) (fb : List Int) (hi : i < 9) (h : frame_shape i fb) :
    (fb.head? = some 10 ↔ fb = [10]) ∧ (fb.head? = some 10 → fb.sum = 10)
      ∧ (fb.length = 1 ↔ fb.head? = some 10) ∧ 1 ≤ fb.length ∧ fb.length ≤ 2 := by
  have hi' : i < FINAL_FRAME := hi
  simp only [frame_shape, hi', if_true] at h
  rcases h with h | ⟨a, b, h, h1, h2, h3, h4⟩
  · subst h; simp
  · subst h
    have : a ≠ 10 := by omega
    simp [this]

theorem shape_length_pos (i : Nat) (fb : List Int) (h : frame_shape i fb) : 1 ≤ fb.length := by
  unfold frame_shape at h
  split_ifs at h
  · rcases h with h | ⟨a, b, h, _⟩ <;> subst h <;> simp
  · rcases h with ⟨a, b, h, _⟩ | ⟨a, b, c, h, _⟩ | ⟨b, c, h, _⟩ <;> subst h <;> simp

/-! ## One ball -/

theorem bonus_pos (log : List Ball) (i : Nat) (hi : i < 9) :
    0 < bonus_balls log i ↔ (frame_balls log i).sum = 10 := by
  have hi' : i < FINAL_FRAME := hi
  unfold bonus_balls
  by_cases h : (frame_balls log i).sum = 10
  · simp only [hi', h, and_self, if_true, iff_true]
    split_ifs <;> omega
  · simp [h]

theorem bonus_two (log : List Ball) (i : Nat) (hi : i < 9)
    (sh : frame_shape i (frame_balls log i)) :
    1 < bonus_balls log i ↔ (frame_balls log i).head? = some 10 := by
  have hi' : i < FINAL_FRAME := hi
  have s := shape_head i _ hi sh
  unfold bonus_balls
  by_cases h : (frame_balls log i).head? = some 10
  · simp [hi', h, s.2.1 h]
  · simp only [h, if_false, iff_false]
    split_ifs <;> omega

theorem ball_agree (f : Nat) (L0 : List Ball) (p0 : Player) (h : FrameInv f L0 p0) (hf : f < 10)
    (l : List Ball) (hl : ∀ e, e ∈ l → e.frame = f) (hl3 : l.length < 3)
    (p : Player) (hlen : p.frame_s.length = 10) (hag : scores_agree (L0 ++ l) p)
    (hb : ∀ j, j < 2 * f → p.bowls.getD j NUL = p0.bowls.getD j NUL) (x : Int) (q : Player) :
    scores_agree (L0 ++ l ++ [⟨f, l.length + 1, x, q⟩]) (update_score f p x (l.length + 1)) := by
  intro i hi
  rw [update_score_getD f p x _ i hlen hf, hag i hi]
  have hle0 : ∀ e, e ∈ L0 → e.frame ≤ f := fun e he => Nat.le_of_lt (h.before e he)
  have hlel : ∀ e, e ∈ l → e.frame ≤ f := fun e he => Nat.le_of_eq (hl e he)
  rcases Nat.lt_trichotomy i f with hif | hif | hif
  · -- an earlier frame
    have n1 : ¬ i = f := by omega
    have fb0 : frame_balls l i = [] := frame_balls_of_ne l i (fun e he => by rw [hl e he]; omega)
    have fb1 : frame_balls (L0 ++ l ++ [⟨f, l.length + 1, x, q⟩]) i = frame_balls L0 i := by
      rw [frame_balls_append, frame_balls_append, fb0]
      simp [frame_balls]; omega
    have fb2 : frame_balls (L0 ++ l) i = frame_balls L0 i := by
      rw [frame_balls_append, fb0]; simp
    have al : balls_after l i = l.map Ball.pins :=
      balls_after_of_lt l i (fun e he => by rw [hl e he]; exact hif)
    have ba1 : balls_after (L0 ++ l ++ [⟨f, l.length + 1, x, q⟩]) i
        = balls_after (L0 ++ l) i ++ [x] := by
      rw [balls_after_append (L0 ++ l)]
      simp [balls_after, hif]
    have ba2 : balls_after (L0 ++ l) i = balls_after L0 i ++ l.map Ball.pins := by
      rw [balls_after_append, al]
    have k1 := bonus_balls_congr _ _ i fb1
    have k2 := bonus_balls_congr _ _ i fb2
    have kle := bonus_balls_le L0 i
    have i9 : i < 9 := by omega
    have shi := h.shape i hif
    have sh := shape_head i _ i9 shi
    have bp := bonus_pos L0 i i9
    have bt := bonus_two L0 i i9 shi
    have hpi := hag i hi
    simp only [expected_score, fb2, k2, ba2] at hpi
    have key : ((balls_after L0 i ++ l.map Ball.pins).length < bonus_balls L0 i)
        ↔ ((i + 1 = f ∧ credits_prev f p (l.length + 1))
          ∨ (i + 2 = f ∧ credits_prev2 f p (l.length + 1))) := by
      simp only [List.length_append, List.length_map]
      by_cases c1 : i + 1 = f
      · have a0 : balls_after L0 i = [] :=
          balls_after_of_le L0 i (fun e he => by have := h.before e he; omega)
        have n2 : ¬ i + 2 = f := by omega
        have fi : f - 1 = i := by omega
        have f0 : f ≠ 0 := by omega
        simp only [a0, List.length_nil, zero_add, c1, n2, true_and, false_and, or_false,
          credits_prev, fi, Ne, f0, not_false_eq_true]
        rcases l with _ | ⟨e1, _ | ⟨e2, _ | ⟨e3, l⟩⟩⟩
        · simp only [a0, List.map_nil, List.append_nil, List.take_nil, List.sum_nil,
            add_zero] at hpi
          simp [-List.getD_eq_getElem?_getD, hpi, bp]
        · have := h.marks i hif
          simp [-List.getD_eq_getElem?_getD, bt, hb (2 * i) (by omega), this]
        · simp; omega
        · simp only [List.length_cons] at hl3; omega
      · by_cases c2 : i + 2 = f
        · have a0 : balls_after L0 i = frame_balls L0 (i + 1) :=
            balls_after_eq_frame L0 i (fun e he => by have := h.before e he; omega)
          have sh1 := shape_head (i + 1) _ (by omega) (h.shape (i + 1) (by omega))
          have f1 : f - 1 = i + 1 := by omega
          have f2 : f - 2 = i := by omega
          have m0 := h.marks i hif
          have m1 := h.marks (i + 1) (by omega)
          simp only [a0, c1, c2, false_and, true_and, false_or, credits_prev2, f1, f2]
          rcases l with _ | ⟨e1, l⟩
          · simp only [List.length_nil, add_zero, zero_add, true_and,
              hb (2 * i) (by omega), hb (2 * (i + 1)) (by omega), m0, m1]
            constructor
            · intro hlt
              have l1 : (frame_balls L0 (i + 1)).length = 1 := by omega
              exact ⟨by omega, sh1.2.2.1.mp l1, bt.mp (by omega)⟩
            · rintro ⟨_, hh1, hh0⟩
              have := sh1.2.2.1.mpr hh1
              have := bt.mpr hh0
              omega
          · simp; omega
        · have := h.two i (by omega)
          simp only [c1, c2, false_and, or_false, iff_false, not_lt]
          omega
    simp only [expected_score, fb1, fb2, k1, k2, ba1, sum_take_snoc, n1, if_false, add_zero]
    rw [ba2]
    by_cases c1 : i + 1 = f
    · have n2 : ¬ i + 2 = f := by omega
      simp only [key, c1, n2, true_and, false_and, or_false, if_false, add_zero]
      ring
    · simp only [key, c1, false_and, false_or, if_false, add_zero]
      ring
  · -- the frame of the ball
    subst hif
    have n1 : ¬ i + 1 = i := by omega
    have n2 : ¬ i + 2 = i := by omega
    have a1 : balls_after (L0 ++ l ++ [⟨i, l.length + 1, x, q⟩]) i = [] :=
      balls_after_of_le _ i (fun e he => by
        simp only [List.mem_append, List.mem_singleton] at he
        rcases he with (he | he) | he
        · exact hle0 e he
        · exact hlel e he
        · subst he; exact Nat.le_refl _)
    have a2 : balls_after (L0 ++ l) i = [] :=
      balls_after_of_le _ i (fun e he => by
        simp only [List.mem_append] at he
        rcases he with he | he
        · exact hle0 e he
        · exact hlel e he)
    have fb1 : frame_balls (L0 ++ l ++ [⟨i, l.length + 1, x, q⟩]) i
        = frame_balls (L0 ++ l) i ++ [x] := by
      rw [frame_balls_append (L0 ++ l)]
      simp [frame_balls]
    simp only [expected_score, a1, a2, fb1, n1, n2, false_and, if_false, if_true,
      List.take_nil, List.sum_nil, add_zero, List.sum_append, List.sum_singleton]
  · -- a later frame
    have n0 : ¬ i = f := by omega
    have n1 : ¬ i + 1 = f := by omega
    have n2 : ¬ i + 2 = f := by omega
    have fb1 : frame_balls (L0 ++ l ++ [⟨f, l.length + 1, x, q⟩]) i = frame_balls (L0 ++ l) i := by
      rw [frame_balls_append (L0 ++ l)]
      simp [frame_balls]; omega
    have a1 : balls_after (L0 ++ l ++ [⟨f, l.length + 1, x, q⟩]) i = balls_after (L0 ++ l) i := by
      rw [balls_after_append (L0 ++ l)]
      simp [balls_after]; omega
    have k1 := bonus_balls_congr _ _ i fb1
    simp only [expected_score, fb1, a1, k1, n0, n1, n2, false_and, if_false, add_zero]

theorem split_snoc {L pre suf : List Ball} {e a : Ball} (h : L ++ [e] = pre ++ a :: suf) :
    (pre = L ∧ a = e ∧ suf = []) ∨ ∃ suf', suf = suf' ++ [e] ∧ L = pre ++ a :: suf' := by
  rcases List.eq_nil_or_concat suf with hs | ⟨s', b, hs⟩
  · subst hs
    have := List.append_inj' h (by simp)
    left
    refine ⟨this.1.symm, ?_, rfl⟩
    have h2 := this.2
    simp only [List.cons.injEq, and_true] at h2
    exact h2.symm
  · rw [List.concat_eq_append] at hs
    subst hs
    have h' : L ++ [e] = (pre ++ a :: s') ++ [b] := by simpa using h
    have := List.append_inj' h' (by simp)
    right
    have h2 := this.2
    simp only [List.cons.injEq, and_true] at h2
    subst h2
    exact ⟨s', rfl, this.1⟩

theorem BallInv.start {f : Nat} {L0 : List Ball} {p0 : Player} (h : FrameInv f L0 p0) :
    BallInv f L0 p0 [] p0 where
  len_s := h.len_s
  len_b := h.len_b
  agree := by simpa using h.agree
  total := h.total
  here := by simp
  low := fun _ _ => rfl
  hist := by simpa using h.hist

theorem BallInv.step {f : Nat} {L0 : List Ball} {p0 : Player} {l : List Ball} {p : Player}
    (h : FrameInv f L0 p0) (hf : f < 10) (b : BallInv f L0 p0 l p) (hl3 : l.length < 3)
    (slot : Nat) (hs : 2 * f ≤ slot) (c : Char) (x : Int) :
    BallInv f L0 p0
      (l ++ [⟨f, l.length + 1, x, update_score f (p.mark slot c) x (l.length + 1)⟩])
      (update_score f (p.mark slot c) x (l.length + 1)) := by
  have hlow : ∀ j, j < 2 * f → (p.mark slot c).bowls.getD j NUL = p0.bowls.getD j NUL := by
    intro j hj
    rw [mark_getD]
    have : ¬ (slot = j ∧ slot < p.bowls.length) := by omega
    simp only [this, if_false]
    exact b.low j hj
  have hag := ball_agree f L0 p0 h hf l b.here hl3 (p.mark slot c)
    (by simpa using b.len_s) b.agree hlow x (update_score f (p.mark slot c) x (l.length + 1))
  have htot : (update_score f (p.mark slot c) x (l.length + 1)).total_s
      = sum_frames (update_score f (p.mark slot c) x (l.length + 1)) :=
    update_score_sum f _ x _ (by simpa using b.len_s) hf (by
      have := b.total
      simpa [sum_frames] using this)
  refine ⟨by simpa using b.len_s, by simpa using b.len_b, ?_, htot, ?_, ?_, ?_⟩
  · rw [← List.append_assoc]; exact hag
  · intro e he
    simp only [List.mem_append, List.mem_singleton] at he
    rcases he with he | he
    · exact b.here e he
    · subst he; rfl
  · intro j hj
    rw [update_score_bowls]
    exact hlow j hj
  · intro pre a suf heq
    rw [← List.append_assoc] at heq
    rcases split_snoc heq with ⟨h1, h2, _⟩ | ⟨suf', _, h2⟩
    · subst h1 h2
      exact ⟨hag, htot⟩
    · exact b.hist pre a suf' h2

theorem frame_finish {f : Nat} {L0 : List Ball} {p0 : Player} {l : List Ball} {p : Player}
    (h : FrameInv f L0 p0) (b : BallInv f L0 p0 l p)
    (hsh : frame_shape f (l.map Ball.pins))
    (hm : p.bowls.getD (2 * f) NUL = 'X' ↔ (l.map Ball.pins).head? = some 10)
    (hne : l ≠ []) :
    FrameInv (f + 1) (L0 ++ l) p := by
  have fbl : ∀ i, i < f → frame_balls (L0 ++ l) i = frame_balls L0 i := by
    intro i hi
    rw [frame_balls_append, frame_balls_of_ne l i (fun e he => by rw [b.here e he]; omega)]
    simp
  have fbf : frame_balls (L0 ++ l) f = l.map Ball.pins := by
    rw [frame_balls_append, frame_balls_of_ne L0 f (fun e he => by have := h.before e he; omega),
      frame_balls_of_eq l f b.here]
    simp
  refine ⟨b.len_s, b.len_b, b.agree, b.total, ?_, ?_, ?_, ?_, ?_, b.hist⟩
  · intro e he
    simp only [List.mem_append] at he
    rcases he with he | he
    · have := h.before e he; omega
    · rw [b.here e he]; omega
  · intro i hi
    rcases Nat.lt_or_ge i f with hif | hif
    · rw [fbl i hif]; exact h.shape i hif
    · have : i = f := by omega
      subst this
      rw [fbf]; exact hsh
  · intro i hi
    rcases Nat.lt_or_ge i f with hif | hif
    · rw [fbl i hif, b.low (2 * i) (by omega)]; exact h.marks i hif
    · have : i = f := by omega
      subst this
      rw [fbf]; exact hm
  · intro i hi
    have al : balls_after l i = l.map Ball.pins :=
      balls_after_of_lt l i (fun e he => by rw [b.here e he]; omega)
    rw [balls_after_append, al, List.length_append, List.length_map]
    have l1 : 1 ≤ l.length := by
      rcases l with _ | ⟨a, t⟩
      · exact absurd rfl hne
      · simp
    rcases Nat.lt_or_ge (i + 2) f with hif | hif
    · have := h.two i hif; omega
    · have e1 : balls_after L0 i = frame_balls L0 (i + 1) :=
        balls_after_eq_frame L0 i (fun e he => by have := h.before e he; omega)
      have := shape_length_pos _ _ (h.shape (i + 1) (by omega))
      rw [e1]; omega
  · rw [List.pairwise_append]
    refine ⟨h.sorted, ?_, ?_⟩
    · rw [List.pairwise_iff_forall_sublist]
      intro a c hac
      have ha := b.here a (hac.subset (by simp))
      have hc := b.here c (hac.subset (by simp))
      omega
    · intro a ha c hc
      have := h.before a ha
      have := b.here c hc
      omega

/-! ## `bowl` -/

theorem bowl_snd (r pl : Nat) (nf : Bool) : (bowl r pl nf).2 = r % (pl + 1) := by
  unfold bowl
  simp only []
  split_ifs <;> rfl

theorem bowl_snd_le (r pl : Nat) (nf : Bool) : (bowl r pl nf).2 ≤ pl := by
  rw [bowl_snd]
  exact Nat.lt_succ_iff.mp (Nat.mod_lt r (Nat.succ_pos pl))

theorem digit_ne_X (n : Nat) (h : n ≤ 10) : Char.ofNat (n + '0'.toNat) ≠ 'X' := by
  interval_cases n <;> decide

theorem bowl_fst_X (r pl : Nat) (nf : Bool) (h : pl ≤ 10) :
    (bowl r pl nf).1 = 'X' ↔ ((bowl r pl nf).2 = pl ∧ nf = true) := by
  have hle := bowl_snd_le r pl nf
  rw [bowl_snd] at hle ⊢
  unfold bowl
  simp only []
  by_cases h1 : r % (pl + 1) = pl
  · rw [if_pos h1]
    cases nf
    · simp only [Bool.false_eq_true, if_false, and_false, iff_false]
      decide
    · simp [h1]
  · rw [if_neg h1]
    by_cases h2 : r % (pl + 1) = 0
    · rw [if_pos h2]
      simp only [h1, false_and, iff_false]
      decide
    · rw [if_neg h2]
      simp only [h1, false_and, iff_false]
      exact digit_ne_X _ (by omega)

theorem digit_ne_slash (n : Nat) (h : n ≤ 10) : Char.ofNat (n + '0'.toNat) ≠ '/' := by
  interval_cases n <;> decide

theorem digit_ne_dash (n : Nat) (h : n ≤ 10) : Char.ofNat (n + '0'.toNat) ≠ '-' := by
  interval_cases n <;> decide

theorem bowl_fst_slash (r pl : Nat) (nf : Bool) (h : pl ≤ 10) :
    (bowl r pl nf).1 = '/' ↔ ((bowl r pl nf).2 = pl ∧ nf = false) := by
  have hle := bowl_snd_le r pl nf
  rw [bowl_snd] at hle ⊢
  unfold bowl
  simp only []
  by_cases h1 : r % (pl + 1) = pl
  · rw [if_pos h1]
    cases nf
    · simp [h1]
    · simp only [if_true, Bool.true_eq_false, and_false, iff_false]
      decide
  · rw [if_neg h1]
    by_cases h2 : r % (pl + 1) = 0
    · rw [if_pos h2]
      simp only [h1, false_and, iff_false]
      decide
    · rw [if_neg h2]
      simp only [h1, false_and, iff_false]
      exact digit_ne_slash _ (by omega)

theorem bowl_fst_dash (r pl : Nat) (nf : Bool) (h1 : 1 ≤ pl) (h : pl ≤ 10) :
    (bowl r pl nf).1 = '-' ↔ (bowl r pl nf).2 = 0 := by
  have hle := bowl_snd_le r pl nf
  rw [bowl_snd] at hle ⊢
  unfold bowl
  simp only []
  by_cases h1 : r % (pl + 1) = pl
  · rw [if_pos h1]
    have : ¬ r % (pl + 1) = 0 := by omega
    cases nf
    · simp only [Bool.false_eq_true, if_false, this, iff_false]
      decide
    · simp only [if_true, this, iff_false]
      decide
  · rw [if_neg h1]
    by_cases h2 : r % (pl + 1) = 0
    · rw [if_pos h2]
      simp [h2]
    · rw [if_neg h2]
      simp only [h2, iff_false]
      exact digit_ne_dash _ (by omega)

theorem bowl_fst_digit (r pl : Nat) (nf : Bool) (h1 : (bowl r pl nf).2 ≠ pl)
    (h2 : (bowl r pl nf).2 ≠ 0) :
    (bowl r pl nf).1 = Char.ofNat ((bowl r pl nf).2 + '0'.toNat) := by
  rw [bowl_snd] at h1 h2 ⊢
  unfold bowl
  simp only []
  rw [if_neg h1, if_neg h2]

/-! ## One frame -/

theorem BallInv.here_score {f : Nat} {L0 : List Ball} {p0 : Player} {l : List Ball}
    {p : Player} (h : FrameInv f L0 p0) (hf : f < 10) (b : BallInv f L0 p0 l p) :
    p.frame_s.getD f 0 = (l.map Ball.pins).sum := by
  rw [b.agree f hf]
  have fbf : frame_balls (L0 ++ l) f = l.map Ball.pins := by
    rw [frame_balls_append, frame_balls_of_ne L0 f (fun e he => by have := h.before e he; omega),
      frame_balls_of_eq l f b.here]
    simp
  have a0 : balls_after (L0 ++ l) f = [] :=
    balls_after_of_le _ f (fun e he => by
      simp only [List.mem_append] at he
      rcases he with he | he
      · exact Nat.le_of_lt (h.before e he)
      · exact Nat.le_of_eq (b.here e he))
  simp [expected_score, fbf, a0]

theorem frame_step {f : Nat} {L0 : List Ball} {p0 : Player} (h : FrameInv f L0 p0) (hf : f < 10)
    (rnd : Nat → Nat) :
    FrameInv (f + 1) (L0 ++ (bowl_frame f p0 rnd).2) (bowl_frame f p0 rnd).1 := by
  have B1 := BallInv.step h hf (BallInv.start h) (by simp) (2 * f) (Nat.le_refl _)
    (bowl (rnd 0) 10 true).1 ((bowl (rnd 0) 10 true).2 : Int)
  simp only [List.nil_append, List.length_nil, zero_add] at B1
  have x1le := bowl_snd_le (rnd 0) 10 true
  have c1X := bowl_fst_X (rnd 0) 10 true (by omega)
  unfold bowl_frame
  simp only []
  generalize hx1 : (bowl (rnd 0) 10 true).2 = x1 at *
  generalize hc1 : (bowl (rnd 0) 10 true).1 = c1 at *
  have hlb := h.len_b
  by_cases hx : 10 - x1 ≠ 0
  · have B2 := BallInv.step h hf B1 (by simp) (2 * f + 1) (by omega)
      (bowl (rnd 1) (10 - x1) false).1 ((bowl (rnd 1) (10 - x1) false).2 : Int)
    simp only [List.length_cons, List.length_nil, zero_add, Nat.reduceAdd,
      List.singleton_append] at B2
    have x2le := bowl_snd_le (rnd 1) (10 - x1) false
    simp only [if_pos hx]
    generalize hx2 : (bowl (rnd 1) (10 - x1) false).2 = x2 at *
    generalize hc2 : (bowl (rnd 1) (10 - x1) false).1 = c2 at *
    have hs2 := B2.here_score h hf
    simp only [List.map_cons, List.map_nil, List.sum_cons, List.sum_nil, add_zero] at hs2
    have hm : (update_score f ((update_score f (p0.mark (2 * f) c1) (↑x1) 1).mark (2 * f + 1) c2)
        (↑x2) 2).bowls.getD (2 * f) NUL = c1 := by
      rw [update_score_bowls, mark_getD, update_score_bowls, mark_getD]
      have : ¬ (2 * f + 1 = 2 * f ∧ 2 * f + 1 < (p0.mark (2 * f) c1).bowls.length) := by omega
      simp only [this, if_false, true_and, hlb]
      have : 2 * f < 21 := by omega
      simp [this]
    have c1ne : ¬ c1 = 'X' := by
      rw [c1X]; omega
    have hne10 : ¬ ((x1 : Int) = 10) := by omega
    rw [hs2, hm]
    generalize update_score f (p0.mark (2 * f) c1) (↑x1) 1 = b1 at *
    generalize update_score f (b1.mark (2 * f + 1) c2) (↑x2) 2 = b2 at *
    simp only [c1ne, decide_False]
    by_cases hfin : f = FINAL_FRAME ∧ (x1 : Int) + x2 = 10
    · simp only [hfin, and_self, if_true]
      obtain ⟨hf9, hsum⟩ := hfin
      subst hf9
      have B3 := BallInv.step h hf B2 (by simp) (2 * FINAL_FRAME + 2) (by omega)
        (bowl (rnd 2) 10 true).1 ((bowl (rnd 2) 10 true).2 : Int)
      simp only [List.length_cons, List.length_nil, zero_add, Nat.reduceAdd,
        List.cons_append, List.nil_append] at B3
      have x3le := bowl_snd_le (rnd 2) 10 true
      unfold fill_balls
      simp only [Bool.false_eq_true, if_false, List.length_cons, List.length_nil, zero_add,
        Nat.reduceAdd, List.cons_append, List.nil_append]
      generalize (bowl (rnd 2) 10 true).2 = x3 at *
      generalize (bowl (rnd 2) 10 true).1 = c3 at *
      refine frame_finish h B3 ?_ ?_ (by simp)
      · simp only [frame_shape, lt_irrefl, if_false, List.map_cons, List.map_nil]
        right; left
        exact ⟨x1, x2, x3, rfl, by omega, by omega, by omega, hsum, by omega, by omega⟩
      · rw [update_score_bowls, mark_getD]
        have : ¬ (2 * FINAL_FRAME + 2 = 2 * FINAL_FRAME ∧ 2 * FINAL_FRAME + 2 < b2.bowls.length) := by
          omega
        simp only [this, if_false, hm, c1ne, List.map_cons, List.head?_cons, Option.some.injEq,
          hne10]
    · simp only [hfin, if_false]
      refine frame_finish h B2 ?_ ?_ (by simp)
      · simp only [frame_shape, List.map_cons, List.map_nil]
        by_cases h9 : f < FINAL_FRAME
        · simp only [h9, if_true]
          right
          exact ⟨x1, x2, rfl, by omega, by omega, by omega, by omega⟩
        · simp only [h9, if_false]
          left
          have : f = FINAL_FRAME := by simp only [FINAL_FRAME] at h9 ⊢; omega
          have : ¬ ((x1 : Int) + x2 = 10) := fun e => hfin ⟨this, e⟩
          exact ⟨x1, x2, rfl, by omega, by omega, by omega⟩
      · simp only [hm, c1ne, List.map_cons, List.head?_cons, Option.some.injEq, hne10]
  · have hx10 : x1 = 10 := by omega
    have c1eq : c1 = 'X' := by rw [c1X]; exact ⟨hx10, rfl⟩
    have hs1 := B1.here_score h hf
    simp only [List.map_cons, List.map_nil, List.sum_cons, List.sum_nil, add_zero] at hs1
    have hm : (update_score f (p0.mark (2 * f) c1) (↑x1) 1).bowls.getD (2 * f) NUL = c1 := by
      rw [update_score_bowls, mark_getD]
      have : 2 * f < 21 := by omega
      simp [this, hlb]
    simp only [if_neg hx]
    rw [hs1, hm]
    generalize update_score f (p0.mark (2 * f) c1) (↑x1) 1 = b1 at *
    subst hx10
    subst c1eq
    simp only [Nat.cast_ofNat, and_true, decide_True]
    by_cases hfin : f = FINAL_FRAME
    · simp only [hfin, if_true]
      subst hfin
      unfold fill_balls
      simp only [if_true, List.length_cons, List.length_nil, zero_add, Nat.reduceAdd,
        List.cons_append, List.nil_append]
      have B2 := BallInv.step h hf B1 (by simp) (2 * FINAL_FRAME + 1) (by omega)
        (bowl (rnd 1) 10 true).1 ((bowl (rnd 1) 10 true).2 : Int)
      simp only [List.length_cons, List.length_nil, zero_add, Nat.reduceAdd,
        List.cons_append, List.nil_append] at B2
      have y1le := bowl_snd_le (rnd 1) 10 true
      generalize (bowl (rnd 1) 10 true).2 = y1 at *
      generalize (bowl (rnd 1) 10 true).1 = d1 at *
      have y2le : (if 10 - y1 ≠ 0 then bowl (rnd 2) (10 - y1) false
          else bowl (rnd 2) 10 true).2 ≤ 10 ∧ (y1 < 10 →
          y1 + (if 10 - y1 ≠ 0 then bowl (rnd 2) (10 - y1) false
            else bowl (rnd 2) 10 true).2 ≤ 10) := by
        by_cases hy : 10 - y1 ≠ 0
        · have := bowl_snd_le (rnd 2) (10 - y1) false
          simp only [if_pos hy]
          omega
        · have := bowl_snd_le (rnd 2) 10 true
          simp only [if_neg hy]
          omega
      generalize (if 10 - y1 ≠ 0 then bowl (rnd 2) (10 - y1) false
          else bowl (rnd 2) 10 true) = r2 at *
      have B3 := BallInv.step h hf B2 (by simp) (2 * FINAL_FRAME + 2) (by omega)
        r2.1 (r2.2 : Int)
      simp only [List.length_cons, List.length_nil, zero_add, Nat.reduceAdd,
        List.cons_append, List.nil_append] at B3
      refine frame_finish h B3 ?_ ?_ (by simp)
      · simp only [frame_shape, lt_irrefl, if_false, List.map_cons, List.map_nil]
        right; right
        exact ⟨y1, r2.2, rfl, by omega, by omega, by omega, by omega, by omega⟩
      · rw [update_score_bowls, mark_getD, update_score_bowls, mark_getD]
        have l1 : b1.bowls.length = 21 := B1.len_b
        rw [if_neg (by omega), if_neg (by omega)]
        simp only [hm, List.map_cons, List.head?_cons, Nat.cast_ofNat]
    · simp only [hfin, if_false]
      refine frame_finish h B1 ?_ ?_ (by simp)
      · have h9 : f < FINAL_FRAME := by simp only [FINAL_FRAME] at hfin ⊢; omega
        simp only [frame_shape, h9, if_true, List.map_cons, List.map_nil]
        left; trivial
      · simp only [hm, List.map_cons, List.head?_cons, Nat.cast_ofNat]

/-! ## The game -/

theorem fresh_inv (name : String) : FrameInv 0 [] (Player.fresh name) where
  len_s := by simp [Player.fresh]
  len_b := by simp [Player.fresh]
  agree := by
    intro i hi
    interval_cases i <;> rfl
  total := by rfl
  before := by simp
  shape := by simp
  marks := by simp
  two := by simp
  sorted := List.Pairwise.nil
  hist := by simp

theorem play_frames_succ (n : Nat) (p : Player) (rnd : Nat → Nat → Nat) :
    play_frames (n + 1) p rnd
      = ((bowl_frame n (play_frames n p rnd).1 (rnd n)).1,
          (play_frames n p rnd).2 ++ (bowl_frame n (play_frames n p rnd).1 (rnd n)).2) := by
  simp [play_frames, List.range_succ, List.foldl_append]

theorem play_frames_congr (n : Nat) (pl : Player) (rnd rnd' : Nat → Nat → Nat)
    (h : ∀ f, f < n → rnd f = rnd' f) : play_frames n pl rnd = play_frames n pl rnd' := by
  induction n with
  | zero => rfl
  | succ k ih =>
    rw [play_frames_succ, play_frames_succ, ih (fun f hf => h f (by omega)), h k (by omega)]

theorem inner_loop_bowlers (n : Nat) (rand : Nat → Nat) (b : Nat) (pl : Player)
    (s : List Player × Nat) (hs : ∃ rnd, s.1[b]? = some (play_frames n pl rnd).1) (j : Nat) :
    ∃ rnd, ((List.range j).foldl (bowler_turn n rand) s).1[b]?
      = some (play_frames (if b < j then n + 1 else n) pl rnd).1 := by
  induction j with
  | zero => simpa using hs
  | succ j ih =>
    rw [List.range_succ, List.foldl_append]
    simp only [List.foldl_cons, List.foldl_nil]
    generalize (List.range j).foldl (bowler_turn n rand) s = s' at ih ⊢
    obtain ⟨rnd, hr⟩ := ih
    by_cases hbj : b = j
    · subst hbj
      simp only [lt_irrefl, if_false] at hr
      have hlt : b < s'.1.length := by
        by_contra hc
        rw [List.getElem?_eq_none (by omega)] at hr
        exact absurd hr (by simp)
      refine ⟨fun f => if f = n then (fun k => rand (s'.2 + k)) else rnd f, ?_⟩
      have hc : play_frames n pl (fun f => if f = n then (fun k => rand (s'.2 + k)) else rnd f)
          = play_frames n pl rnd :=
        play_frames_congr n pl _ _ (fun f hf => by
          have : ¬ f = n := by omega
          simp [this])
      unfold bowler_turn
      rw [hr]
      simp only [Nat.lt_succ_self, if_true]
      rw [play_frames_succ, hc]
      simp only [if_true]
      rw [List.getElem?_set]
      simp [hlt]
    · have e : (if b < j + 1 then n + 1 else n) = (if b < j then n + 1 else n) := by
        by_cases h1 : b < j
        · have : b < j + 1 := by omega
          simp [h1, this]
        · have : ¬ b < j + 1 := by omega
          simp [h1, this]
      rw [e]
      refine ⟨rnd, ?_⟩
      unfold bowler_turn
      cases hj : s'.1[j]? with
      | none => exact hr
      | some q =>
        simp only []
        rw [List.getElem?_set_ne (fun h => hbj h.symm)]
        exact hr

/-- Every bowler of `lets_go_bowling` plays the frames 0 to `FINAL_FRAME` of
`play_frames` on their own `Player`, with the draws of their turns. -/
theorem lets_go_bowling_bowler (num_p : Nat) (p : List Player) (rand : Nat → Nat)
    (b : Nat) (pl : Player) (hb : b < num_p) (hpl : p[b]? = some pl) :
    ∃ rnd, (lets_go_bowling num_p p rand).1[b]?
      = some (play_frames (FINAL_FRAME + 1) pl rnd).1 := by
  have key : ∀ n, ∃ rnd, ((List.range n).foldl
          (fun s frame => (List.range num_p).foldl (bowler_turn frame rand) s) (p, 0)).1[b]?
        = some (play_frames n pl rnd).1 := by
    intro n
    induction n with
    | zero => exact ⟨fun _ _ => 0, by simpa [play_frames] using hpl⟩
    | succ n ih =>
      rw [List.range_succ, List.foldl_append]
      simp only [List.foldl_cons, List.foldl_nil]
      have hin := inner_loop_bowlers n rand b pl _ ih num_p
      simpa [hb] using hin
  exact key (FINAL_FRAME + 1)

theorem play_inv (name : String) (rnd : Nat → Nat → Nat) (n : Nat) (hn : n ≤ 10) :
    FrameInv n (play_frames n (Player.fresh name) rnd).2
      (play_frames n (Player.fresh name) rnd).1 := by
  induction n with
  | zero => exact fresh_inv name
  | succ k ih =>
    rw [play_frames_succ]
    exact frame_step (ih (by omega)) (by omega) (rnd k)

theorem game_inv (name : String) (rnd : Nat → Nat → Nat) :
    FrameInv 10 (game_log name rnd) (final_player name rnd) :=
  play_inv name rnd 10 (Nat.le_refl _)

theorem shape_last (fb : List Int) (h : frame_shape 9 fb) :
    (fb.length = 2 ∨ fb.length = 3) ∧ (∀ x, x ∈ fb → 0 ≤ x ∧ x ≤ 10) ∧ fb.sum ≤ 30
      ∧ (fb.sum = 30 → fb = [10, 10, 10]) := by
  simp only [frame_shape, FINAL_FRAME, lt_irrefl, if_false] at h
  rcases h with ⟨a, b, h, h1, h2, h3⟩ | ⟨a, b, c, h, h1, h2, h3, h4, h5, h6⟩
      | ⟨b, c, h, h1, h2, h3, h4, h5⟩
  · subst h
    refine ⟨by simp, ?_, by simp; omega, by simp; omega⟩
    intro x hx
    simp only [List.mem_cons, List.mem_singleton, List.not_mem_nil, or_false] at hx
    rcases hx with hx | hx <;> subst hx <;> omega
  · subst h
    refine ⟨by simp, ?_, by simp; omega, by simp; omega⟩
    intro x hx
    simp only [List.mem_cons, List.mem_singleton, List.not_mem_nil, or_false] at hx
    rcases hx with hx | hx | hx <;> subst hx <;> omega
  · subst h
    refine ⟨by simp, ?_, by simp; omega, ?_⟩
    · intro x hx
      simp only [List.mem_cons, List.mem_singleton, List.not_mem_nil, or_false] at hx
      rcases hx with hx | hx | hx <;> subst hx <;> omega
    · intro hs
      simp only [List.sum_cons, List.sum_nil, add_zero] at hs
      have hb : b = 10 := by omega
      have hc : c = 10 := by omega
      subst hb hc; rfl

theorem FrameInv.after_two {L : List Ball} {p : Player} (h : FrameInv 10 L p)
    (i : Nat) (h9 : i < 9) : 2 ≤ (balls_after L i).length := by
  rcases Nat.lt_or_ge (i + 2) 10 with h2 | h2
  · exact h.two i h2
  · have e1 : balls_after L i = frame_balls L (i + 1) :=
      balls_after_eq_frame L i (fun e he => by have := h.before e he; omega)
    have i8 : i + 1 = 9 := by omega
    rw [e1, i8]
    have := (shape_last _ (h.shape 9 (by omega))).1
    omega

theorem FrameInv.score_cases {f : Nat} {L : List Ball} {p : Player} (h : FrameInv f L p)
    (i : Nat) (hi : i < f) (h9 : i < 9) :
    ((frame_balls L i).head? = some 10 →
        p.frame_s.getD i 0 = 10 + ((balls_after L i).take 2).sum)
    ∧ ((frame_balls L i).head? ≠ some 10 → (frame_balls L i).sum = 10 →
        p.frame_s.getD i 0 = 10 + ((balls_after L i).take 1).sum)
    ∧ ((frame_balls L i).head? ≠ some 10 → (frame_balls L i).sum ≠ 10 →
        p.frame_s.getD i 0 = (frame_balls L i).sum) := by
  have h9' : i < FINAL_FRAME := h9
  have sh := shape_head i _ h9 (h.shape i hi)
  have ag := h.agree i (by omega)
  simp only [expected_score, bonus_balls, h9', true_and] at ag
  refine ⟨fun hs => ?_, fun hs hsum => ?_, fun hs hsum => ?_⟩
  · rw [ag]; simp [hs, sh.2.1 hs]
  · rw [ag]; simp [hs, hsum]
  · rw [ag]; simp [hsum]


/-! ## Sums over the frames -/

theorem sum_indicator (n k : Nat) (x : Int) :
    ((List.range n).map (fun i => if k = i then x else 0)).sum = if k < n then x else 0 := by
  induction n with
  | zero => simp
  | succ m ih =>
    rw [List.sum_range_succ, ih]
    by_cases h1 : k < m
    · have : ¬ k = m := by omega
      have : k < m + 1 := by omega
      simp [*]
    · by_cases h2 : k = m
      · subst h2; simp
      · have : ¬ k < m + 1 := by omega
        simp [*]

theorem sum_by_frames (g : Ball → Int) (L : List Ball) (n : Nat)
    (h : ∀ e, e ∈ L → e.frame < n) :
    (L.map g).sum
      = ((List.range n).map (fun i => ((L.filter (fun e => e.frame = i)).map g).sum)).sum := by
  induction L with
  | nil => simp
  | cons e t ih =>
    have ht : ∀ a, a ∈ t → a.frame < n := fun a ha => h a (List.mem_cons_of_mem _ ha)
    have he : e.frame < n := h e (List.mem_cons_self _ _)
    have step : ∀ i, ((List.filter (fun a => decide (a.frame = i)) (e :: t)).map g).sum
        = (if e.frame = i then g e else 0)
          + ((List.filter (fun a => decide (a.frame = i)) t).map g).sum := by
      intro i
      by_cases c : e.frame = i
      · simp [List.filter_cons, c]
      · simp [List.filter_cons, c]
    simp only [step, List.sum_map_add, sum_indicator, he, if_true, List.map_cons, List.sum_cons]
    rw [ih ht]

theorem sum_frames_eq (p : Player) :
    sum_frames p = p.frame_s.getD 0 0 + p.frame_s.getD 1 0 + p.frame_s.getD 2 0
      + p.frame_s.getD 3 0 + p.frame_s.getD 4 0 + p.frame_s.getD 5 0 + p.frame_s.getD 6 0
      + p.frame_s.getD 7 0 + p.frame_s.getD 8 0 + p.frame_s.getD 9 0 := by
  simp only [sum_frames, List.range, List.range.loop, List.map_cons, List.map_nil,
    List.sum_cons, List.sum_nil]
  ring

theorem sum_range_ten (g : Nat → Int) :
    ((List.range 10).map g).sum
      = g 0 + g 1 + g 2 + g 3 + g 4 + g 5 + g 6 + g 7 + g 8 + g 9 := by
  simp only [List.range, List.range.loop, List.map_cons, List.map_nil,
    List.sum_cons, List.sum_nil]
  ring

theorem pins_sum_by_frames (L : List Ball) (h : ∀ e, e ∈ L → e.frame < 10) :
    (L.map Ball.pins).sum = ((List.range 10).map (fun i => (frame_balls L i).sum)).sum :=
  sum_by_frames Ball.pins L 10 h

theorem length_by_frames (L : List Ball) (h : ∀ e, e ∈ L → e.frame < 10) :
    (L.length : Int) = ((List.range 10).map (fun i => ((frame_balls L i).length : Int))).sum := by
  have := sum_by_frames (fun _ => 1) L 10 h
  simp only [List.map_const', List.sum_replicate, smul_eq_mul, mul_one, nsmul_eq_mul] at this
  simpa [frame_balls] using this

theorem shape_open_length (i : Nat) (fb : List Int) (h : frame_shape i fb) (hs : fb.sum < 10) :
    fb.length = 2 := by
  unfold frame_shape at h
  split_ifs at h
  · rcases h with h | ⟨a, b, h, _⟩
    · subst h; simp at hs
    · subst h; simp
  · rcases h with ⟨a, b, h, _⟩ | ⟨a, b, c, h, h1, h2, h3, h4, h5, h6⟩
        | ⟨b, c, h, h1, h2, h3, h4, h5⟩
    · subst h; simp
    · subst h
      simp only [List.sum_cons, List.sum_nil, add_zero] at hs
      omega
    · subst h
      simp only [List.sum_cons, List.sum_nil, add_zero] at hs
      omega

theorem expected_open (L : List Ball) (i : Nat) (h : (frame_balls L i).sum ≠ 10) :
    expected_score L i = (frame_balls L i).sum := by
  simp [expected_score, bonus_balls, h]

/-! ## Prefixes of the log -/

theorem split_sorted {L pre suf : List Ball} {e : Ball}
    (hs : L.Pairwise (fun a b => a.frame ≤ b.frame)) (h : L = pre ++ e :: suf) :
    (∀ x, x ∈ pre → x.frame ≤ e.frame) ∧ (∀ x, x ∈ suf → e.frame ≤ x.frame)
      ∧ (pre ++ [e]).Pairwise (fun a b => a.frame ≤ b.frame) := by
  subst h
  have h1 := List.pairwise_append.mp hs
  have h2 := List.pairwise_cons.mp h1.2.1
  refine ⟨fun x hx => h1.2.2 x hx e (List.mem_cons_self _ _), fun x hx => h2.1 x hx, ?_⟩
  have h3 : ((pre ++ [e]) ++ suf).Pairwise (fun a b => a.frame ≤ b.frame) := by
    simpa using hs
  exact (List.pairwise_append.mp h3).1

theorem frame_balls_prefix {L pre suf : List Ball} {e : Ball}
    (hs : L.Pairwise (fun a b => a.frame ≤ b.frame)) (h : L = pre ++ e :: suf)
    (i : Nat) (hi : i < e.frame) : frame_balls (pre ++ [e]) i = frame_balls L i := by
  have sp := split_sorted hs h
  subst h
  rw [frame_balls_append, frame_balls_append,
    frame_balls_of_ne [e] i (fun x hx => by
      simp only [List.mem_singleton] at hx; subst hx; omega),
    frame_balls_of_ne (e :: suf) i (fun x hx => by
      simp only [List.mem_cons] at hx
      rcases hx with hx | hx
      · subst hx; omega
      · have := sp.2.1 x hx; omega)]

theorem balls_after_split (pre suf : List Ball) (e : Ball) (i : Nat) :
    balls_after (pre ++ e :: suf) i = balls_after (pre ++ [e]) i ++ balls_after suf i := by
  rw [← balls_after_append]
  simp

theorem balls_after_snoc (pre : List Ball) (e : Ball) (i : Nat) (hi : i < e.frame) :
    balls_after (pre ++ [e]) i = balls_after pre i ++ [e.pins] := by
  rw [balls_after_append]
  simp [balls_after, hi]

theorem balls_after_sorted (L : List Ball) (hs : L.Pairwise (fun a b => a.frame ≤ b.frame))
    (i : Nat) : balls_after L i = frame_balls L (i + 1) ++ balls_after L (i + 1) := by
  induction L with
  | nil => simp [balls_after, frame_balls]
  | cons e t ih =>
    have hc := List.pairwise_cons.mp hs
    have iht := ih hc.2
    rcases Nat.lt_trichotomy e.frame (i + 1) with h | h | h
    · have n1 : ¬ i < e.frame := by omega
      have n2 : ¬ e.frame = i + 1 := by omega
      have n3 : ¬ i + 1 < e.frame := by omega
      simp only [balls_after, frame_balls, List.filter_cons, decide_eq_true_eq, n1, n2, n3,
        if_false] at iht ⊢
      exact iht
    · have n1 : i < e.frame := by omega
      have n3 : ¬ i + 1 < e.frame := by omega
      simp only [balls_after, frame_balls, List.filter_cons, decide_eq_true_eq, n1, n3,
        if_false, if_true, List.map_cons, List.cons_append] at iht ⊢
      rw [iht, if_pos h]
      simp
    · have e1 : frame_balls (e :: t) (i + 1) = [] :=
        frame_balls_of_ne _ _ (fun x hx => by
          simp only [List.mem_cons] at hx
          rcases hx with hx | hx
          · subst hx; omega
          · have := hc.1 x hx; omega)
      rw [e1, List.nil_append]
      simp only [balls_after]
      congr 1
      apply List.filter_congr
      intro x hx
      simp only [List.mem_cons] at hx
      have : i + 1 < x.frame := by
        rcases hx with hx | hx
        · subst hx; omega
        · have := hc.1 x hx; omega
      simp only [decide_eq_decide]
      omega

theorem take_one_of_head (X Y : List Int) (c : Int) (hX : X ≠ [])
    (h : (X ++ Y).head? = some c) : X.take 1 = [c] := by
  rcases X with _ | ⟨x, t⟩
  · exact absurd rfl hX
  · simp only [List.cons_append, List.head?_cons, Option.some.injEq] at h
    subst h; simp

theorem snap_score {L pre suf : List Ball} {e : Ball} {p : Player} (inv : FrameInv 10 L p)
    (h : L = pre ++ e :: suf) (i : Nat) (hi : i < e.frame) :
    e.board.frame_s.getD i 0
      = (frame_balls L i).sum + ((balls_after (pre ++ [e]) i).take (bonus_balls L i)).sum := by
  have he : e.frame < 10 := inv.before e (by rw [h]; simp)
  have ag := (inv.hist pre e suf h).1 i (by omega)
  have fb := frame_balls_prefix inv.sorted h i hi
  rw [ag, expected_score, fb, bonus_balls_congr _ _ i fb]

theorem shape_bounds (i : Nat) (fb : List Int) (h : frame_shape i fb) :
    ∀ x, x ∈ fb → 0 ≤ x ∧ x ≤ 10 := by
  by_cases h9 : i < FINAL_FRAME
  · simp only [frame_shape, h9, if_true] at h
    rcases h with h | ⟨a, b, h, h1, h2, h3, h4⟩
    · subst h; intro x hx; simp only [List.mem_singleton] at hx; subst hx; omega
    · subst h
      intro x hx
      simp only [List.mem_cons, List.mem_singleton, List.not_mem_nil, or_false] at hx
      rcases hx with hx | hx <;> subst hx <;> omega
  · have h' : frame_shape 9 fb := by
      simp only [frame_shape, h9, if_false] at h
      simpa only [frame_shape, FINAL_FRAME, lt_irrefl, if_false] using h
    exact (shape_last fb h').2.1

theorem mem_frame_balls (L : List Ball) (e : Ball) (he : e ∈ L) :
    e.pins ∈ frame_balls L e.frame := by
  simp only [frame_balls, List.mem_map, List.mem_filter, decide_eq_true_eq]
  exact ⟨e, ⟨he, rfl⟩, rfl⟩

theorem FrameInv.pins_bounds {f : Nat} {L : List Ball} {p : Player} (inv : FrameInv f L p)
    (e : Ball) (he : e ∈ L) : 0 ≤ e.pins ∧ e.pins ≤ 10 :=
  shape_bounds e.frame _ (inv.shape e.frame (inv.before e he)) e.pins (mem_frame_balls L e he)

theorem mem_balls_after (L : List Ball) (i : Nat) (c : Int) (hc : c ∈ balls_after L i) :
    ∃ e, e ∈ L ∧ e.pins = c := by
  simp only [balls_after, List.mem_map, List.mem_filter] at hc
  obtain ⟨e, ⟨he, _⟩, hp⟩ := hc
  exact ⟨e, he, hp⟩

/-! ## Bounds -/

theorem mem_of_mem_frame_balls (L : List Ball) (i : Nat) (x : Int) (hx : x ∈ frame_balls L i) :
    ∃ e, e ∈ L ∧ e.pins = x := by
  simp only [frame_balls, List.mem_map, List.mem_filter] at hx
  obtain ⟨e, ⟨he, _⟩, hp⟩ := hx
  exact ⟨e, he, hp⟩

theorem take_two_all_ten (l : List Int) (h : ∀ x, x ∈ l → x = 10) (hl : 2 ≤ l.length) :
    (l.take 2).sum = 20 := by
  rcases l with _ | ⟨x, _ | ⟨y, t⟩⟩
  · simp at hl
  · simp at hl
  · have hx := h x (by simp)
    have hy := h y (by simp)
    subst hx hy
    simp

theorem all_strikes {L : List Ball} {p : Player} (inv : FrameInv 10 L p)
    (h : ∀ e, e ∈ L → e.pins = 10) :
    L.length = 12 ∧ ∀ k, k < 10 → p.frame_s.getD k 0 = 30 := by
  have hfb : ∀ i x, x ∈ frame_balls L i → x = 10 := by
    intro i x hx
    obtain ⟨e, he, hp⟩ := mem_of_mem_frame_balls L i x hx
    rw [← hp]; exact h e he
  have hba : ∀ i x, x ∈ balls_after L i → x = 10 := by
    intro i x hx
    obtain ⟨e, he, hp⟩ := mem_balls_after L i x hx
    rw [← hp]; exact h e he
  have h1 : ∀ i, i < 9 → frame_balls L i = [10] := by
    intro i hi
    have sh := inv.shape i (by omega)
    have hi' : i < FINAL_FRAME := hi
    simp only [frame_shape, hi', if_true] at sh
    rcases sh with sh | ⟨a, b, sh, h1, h2, h3, h4⟩
    · exact sh
    · have := hfb i a (by rw [sh]; simp)
      omega
  have h9 : frame_balls L 9 = [10, 10, 10] := by
    have sh := inv.shape 9 (by omega)
    simp only [frame_shape, FINAL_FRAME, lt_irrefl, if_false] at sh
    rcases sh with ⟨a, b, sh, h1, h2, h3⟩ | ⟨a, b, c, sh, h1, h2, h3, h4, h5, h6⟩
        | ⟨b, c, sh, _⟩
    · have := hfb 9 a (by rw [sh]; simp)
      have := hfb 9 b (by rw [sh]; simp)
      omega
    · have := hfb 9 a (by rw [sh]; simp)
      omega
    · have hb := hfb 9 b (by rw [sh]; simp)
      have hc := hfb 9 c (by rw [sh]; simp)
      subst hb hc
      exact sh
  constructor
  · have := length_by_frames L inv.before
    rw [sum_range_ten] at this
    simp only [h1 0 (by omega), h1 1 (by omega), h1 2 (by omega), h1 3 (by omega),
      h1 4 (by omega), h1 5 (by omega), h1 6 (by omega), h1 7 (by omega), h1 8 (by omega),
      h9, List.length_cons, List.length_nil] at this
    omega
  · intro k hk
    rw [inv.agree k hk]
    rcases Nat.lt_or_ge k 9 with hk9 | hk9
    · have hk' : k < FINAL_FRAME := hk9
      simp only [expected_score, bonus_balls, h1 k hk9, hk', List.sum_cons, List.sum_nil,
        add_zero, and_self, if_true, List.head?_cons]
      rw [take_two_all_ten _ (hba k) (inv.after_two k hk9)]
      rfl
    · have : k = 9 := by omega
      subst this
      simp [expected_score, bonus_balls, h9, FINAL_FRAME]

/-! ## The last frame -/

theorem bowl_frame_last_spare (f : Nat) (hf : f = FINAL_FRAME) (bowler : Player)
    (rnd : Nat → Nat) (p x3 : Nat)
    (c1 c2 c3 : Char) (hl : bowler.frame_s.length = 10) (hb : bowler.bowls.length = 21)
    (h0 : bowler.frame_s.getD f 0 = 0)
    (h1 : bowl (rnd 0) 10 true = (c1, p)) (hp10 : p < 10)
    (h2 : bowl (rnd 1) (10 - p) false = (c2, 10 - p))
    (h3 : bowl (rnd 2) 10 true = (c3, x3)) :
    bowl_frame f bowler rnd
      = (update_score f ((update_score f ((update_score f
            (bowler.mark (2 * f) c1) p 1).mark (2 * f + 1) c2)
              ((10 - p : Nat) : Int) 2).mark (2 * f + 2) c3) x3 3,
        [⟨f, 1, p, update_score f (bowler.mark (2 * f) c1) p 1⟩,
         ⟨f, 2, ((10 - p : Nat) : Int), update_score f
            ((update_score f (bowler.mark (2 * f) c1) p 1).mark
              (2 * f + 1) c2) ((10 - p : Nat) : Int) 2⟩,
         ⟨f, 3, x3, update_score f ((update_score f
            ((update_score f (bowler.mark (2 * f) c1) p 1).mark
              (2 * f + 1) c2) ((10 - p : Nat) : Int) 2).mark
                (2 * f + 2) c3) x3 3⟩])
      := by
  have c1X := bowl_fst_X (rnd 0) 10 true (by omega)
  rw [h1] at c1X
  have c1ne : ¬ c1 = 'X' := by
    intro hc
    have := (c1X.mp hc).1
    simp only at this
    omega
  have hx : 10 - p ≠ 0 := by omega
  have hF : f = 9 := hf
  unfold bowl_frame
  simp only []
  rw [h1]
  simp only [if_pos hx]
  rw [h2]
  simp only []
  generalize hb1 : update_score f (bowler.mark (2 * f) c1) (↑p) 1 = b1
  have s1 : b1.frame_s.getD f 0 = p := by
    rw [← hb1, update_score_getD _ _ _ _ _ (by simpa using hl) (by omega)]
    simp [-List.getD_eq_getElem?_getD, h0]
  have l1 : b1.bowls.length = 21 := by rw [← hb1]; simpa using hb
  have l1s : b1.frame_s.length = 10 := by rw [← hb1]; simpa using hl
  have m1 : b1.bowls.getD (2 * f) NUL = c1 := by
    rw [← hb1, update_score_bowls, mark_getD, if_pos (by omega)]
  generalize hb2 : update_score f (b1.mark (2 * f + 1) c2)
    ((10 - p : Nat) : Int) 2 = b2
  have s2 : b2.frame_s.getD f 0 = 10 := by
    rw [← hb2, update_score_getD _ _ _ _ _ (by simpa using l1s) (by omega)]
    simp only [mark_frame_s, s1]
    simp
    omega
  have m2 : b2.bowls.getD (2 * f) NUL = c1 := by
    rw [← hb2, update_score_bowls, mark_getD, if_neg (by omega), m1]
  rw [s2, m2]
  simp only [hf, c1ne, and_self, if_true, decide_False]
  unfold fill_balls
  simp only [Bool.false_eq_true, if_false, h3, List.length_cons, List.length_nil,
    zero_add, Nat.reduceAdd, List.cons_append, List.nil_append]

theorem update_score_third (f : Nat) (q : Player) (x : Int) :
    update_score f q x 3 = q.credit f x := by
  rw [update_score_eq]
  have n1 : ¬ credits_prev f q 3 := by
    unfold credits_prev; simp
  have n2 : ¬ credits_prev2 f q 3 := by
    unfold credits_prev2; simp
  simp only [n1, n2, if_false]

theorem game_log_eq (name : String) (rnd : Nat → Nat → Nat) :
    game_log name rnd = (play_frames 9 (Player.fresh name) rnd).2
      ++ (bowl_frame 9 (play_frames 9 (Player.fresh name) rnd).1 (rnd 9)).2 := by
  show (play_frames (9 + 1) (Player.fresh name) rnd).2 = _
  rw [play_frames_succ]

theorem final_player_eq (name : String) (rnd : Nat → Nat → Nat) :
    final_player name rnd
      = (bowl_frame 9 (play_frames 9 (Player.fresh name) rnd).1 (rnd 9)).1 := by
  show (play_frames (9 + 1) (Player.fresh name) rnd).1 = _
  rw [play_frames_succ]

theorem last_frame_fresh (name : String) (rnd : Nat → Nat → Nat) :
    (play_frames 9 (Player.fresh name) rnd).1.frame_s.getD 9 0 = 0 := by
  have inv := play_inv name rnd 9 (by omega)
  rw [inv.agree 9 (by omega)]
  have e1 : frame_balls (play_frames 9 (Player.fresh name) rnd).2 9 = [] :=
    frame_balls_of_ne _ 9 (fun e he => by have := inv.before e he; omega)
  simp [expected_score, bonus_balls, e1]

theorem sum_take_bounds (l : List Int) (k : Nat) (h : ∀ x, x ∈ l → 0 ≤ x ∧ x ≤ 10) :
    0 ≤ (l.take k).sum ∧ (l.take k).sum ≤ 10 * (k : Int) := by
  induction l generalizing k with
  | nil => simp
  | cons a t ih =>
    cases k with
    | zero => simp
    | succ m =>
      have ha := h a (by simp)
      have ht := ih m (fun x hx => h x (List.mem_cons_of_mem _ hx))
      simp only [List.take_succ_cons, List.sum_cons, Nat.cast_succ]
      omega

theorem expected_bounds {L : List Ball} {p : Player} (inv : FrameInv 10 L p) (i : Nat)
    (hi : i < 10) :
    0 ≤ expected_score L i ∧ expected_score L i ≤ 30
      ∧ (expected_score L i = 30 → ∀ x, x ∈ frame_balls L i → x = 10) := by
  have hba : ∀ x, x ∈ balls_after L i → 0 ≤ x ∧ x ≤ 10 := by
    intro x hx
    obtain ⟨e, he, hp⟩ := mem_balls_after L i x hx
    rw [← hp]; exact inv.pins_bounds e he
  have tk := sum_take_bounds (balls_after L i) (bonus_balls L i) hba
  have kle := bonus_balls_le L i
  have sh := inv.shape i hi
  rcases Nat.lt_or_ge i 9 with h9 | h9
  · have h9' : i < FINAL_FRAME := h9
    have bt := bonus_two L i h9 sh
    have bp := bonus_pos L i h9
    simp only [frame_shape, h9', if_true] at sh
    unfold expected_score
    rcases sh with sh | ⟨a, b, sh, h1, h2, h3, h4⟩
    · rw [sh] at bt bp ⊢
      simp only [List.sum_cons, List.sum_nil, add_zero]
      refine ⟨by omega, by omega, ?_⟩
      intro _ x hx
      simpa using hx
    · rw [sh] at bt bp ⊢
      simp only [List.sum_cons, List.sum_nil, add_zero, List.head?_cons,
        Option.some.injEq] at bt bp ⊢
      have hk1 : bonus_balls L i ≤ 1 := by
        by_contra hc
        have : 1 < bonus_balls L i := by omega
        have := bt.mp this
        omega
      have hk0 : a + b < 10 → bonus_balls L i = 0 := by
        intro hlt
        by_contra hc
        have : 0 < bonus_balls L i := by omega
        have := bp.mp this
        omega
      refine ⟨by omega, by omega, ?_⟩
      intro h30
      exfalso
      by_cases hlt : a + b < 10
      · have := hk0 hlt
        rw [this] at tk
        simp only [List.take_zero, List.sum_nil] at tk h30
        rw [this] at h30
        simp only [List.take_zero, List.sum_nil] at h30
        omega
      · have : ((bonus_balls L i : Nat) : Int) ≤ 1 := by exact_mod_cast hk1
        omega
  · have : i = 9 := by omega
    subst this
    have sl := shape_last _ sh
    have hk : bonus_balls L 9 = 0 := by simp [bonus_balls, FINAL_FRAME]
    simp only [expected_score, hk, List.take_zero, List.sum_nil, add_zero]
    have hnn : 0 ≤ (frame_balls L 9).sum :=
      List.sum_nonneg (fun x hx => (sl.2.1 x hx).1)
    refine ⟨hnn, sl.2.2.1, ?_⟩
    intro h30 x hx
    rw [sl.2.2.2 h30] at hx
    simp only [List.mem_cons, List.mem_singleton, List.not_mem_nil, or_false, or_self] at hx
    exact hx

/-! ## The claims -/

/-- C1: at the end of every game of one bowler the frame scores are those of
ten-pin scoring. Every frame before the last is one strike or two balls of at
most ten pins, and at least two balls follow it; a frame that opened with a
strike scores 10 plus the next two balls bowled, a spare 10 plus the next ball,
any other frame the pins of its two balls; the last frame scores the sum of
its two or three balls. The log lists the balls in the order of their frames. -/
theorem C1_final_scores_ten_pin (name : String) (rnd : Nat → Nat → Nat) :
    (∀ i, i < 9 →
      (frame_balls (game_log name rnd) i = [10]
        ∨ ∃ a b, frame_balls (game_log name rnd) i = [a, b]
            ∧ 0 ≤ a ∧ a < 10 ∧ 0 ≤ b ∧ a + b ≤ 10)
      ∧ 2 ≤ (balls_after (game_log name rnd) i).length
      ∧ ((frame_balls (game_log name rnd) i).head? = some 10 →
          (final_player name rnd).frame_s.getD i 0
            = 10 + ((balls_after (game_log name rnd) i).take 2).sum)
      ∧ ((frame_balls (game_log name rnd) i).head? ≠ some 10 →
          (frame_balls (game_log name rnd) i).sum = 10 →
          (final_player name rnd).frame_s.getD i 0
            = 10 + ((balls_after (game_log name rnd) i).take 1).sum)
      ∧ ((frame_balls (game_log name rnd) i).head? ≠ some 10 →
          (frame_balls (game_log name rnd) i).sum ≠ 10 →
          (final_player name rnd).frame_s.getD i 0 = (frame_balls (game_log name rnd) i).sum))
    ∧ ((frame_balls (game_log name rnd) 9).length = 2
        ∨ (frame_balls (game_log name rnd) 9).length = 3)
    ∧ (final_player name rnd).frame_s.getD 9 0 = (frame_balls (game_log name rnd) 9).sum
    ∧ (game_log name rnd).Pairwise (fun a b => a.frame ≤ b.frame) := by
  have h := game_inv name rnd
  refine ⟨fun i hi => ⟨?_, h.after_two i hi, h.score_cases i (by omega) hi⟩, ?_, ?_, h.sorted⟩
  · have sh := h.shape i (by omega)
    have hi' : i < FINAL_FRAME := hi
    simpa only [frame_shape, hi', if_true] using sh
  · exact (shape_last _ (h.shape 9 (by omega))).1
  · rw [h.agree 9 (by omega)]
    simp [expected_score, bonus_balls, FINAL_FRAME]

/-- C1, on a game of seven pins, spares and strikes. -/
theorem C1_final_scores_ten_pin_witness :
    (final_player "Ann" (fun f k => 7 * f + 3 * k + 10)).frame_s.getD 0 0
      = 10 + ((balls_after (game_log "Ann" (fun f k => 7 * f + 3 * k + 10)) 0).take 2).sum :=
  ((C1_final_scores_ten_pin "Ann" (fun f k => 7 * f + 3 * k + 10)).1 0 (by decide)).2.2.1
    (by decide)

/-- C2: in every complete game in which no frame is a strike or a spare (the
balls of each frame knock down fewer than ten pins together) twenty balls are
bowled and the final `total_s` is the sum of the pins of all of them. -/
theorem C2_open_game_total (name : String) (rnd : Nat → Nat → Nat)
    (h : ∀ i, i < 10 → (frame_balls (game_log name rnd) i).sum < 10) :
    (game_log name rnd).length = 20
      ∧ (final_player name rnd).total_s = ((game_log name rnd).map Ball.pins).sum := by
  have inv := game_inv name rnd
  have hlt : ∀ e, e ∈ game_log name rnd → e.frame < 10 := inv.before
  constructor
  · have hl : ∀ i, i < 10 → (frame_balls (game_log name rnd) i).length = 2 :=
      fun i hi => shape_open_length i _ (inv.shape i hi) (h i hi)
    have := length_by_frames _ hlt
    rw [sum_range_ten] at this
    simp only [hl 0 (by omega), hl 1 (by omega), hl 2 (by omega), hl 3 (by omega),
      hl 4 (by omega), hl 5 (by omega), hl 6 (by omega), hl 7 (by omega), hl 8 (by omega),
      hl 9 (by omega)] at this
    omega
  · have he : ∀ i, i < 10 → (final_player name rnd).frame_s.getD i 0
        = (frame_balls (game_log name rnd) i).sum := by
      intro i hi
      rw [inv.agree i hi]
      exact expected_open _ i (by have := h i hi; omega)
    rw [inv.total, sum_frames_eq, pins_sum_by_frames _ hlt, sum_range_ten]
    rw [he 0 (by omega), he 1 (by omega), he 2 (by omega), he 3 (by omega), he 4 (by omega),
      he 5 (by omega), he 6 (by omega), he 7 (by omega), he 8 (by omega), he 9 (by omega)]

set_option maxRecDepth 100000 in
/-- C2, on the game in which every ball knocks down three pins. -/
theorem C2_open_game_total_witness :
    (game_log "Ann" (fun _ _ => 3)).length = 20
      ∧ (final_player "Ann" (fun _ _ => 3)).total_s
          = ((game_log "Ann" (fun _ _ => 3)).map Ball.pins).sum :=
  C2_open_game_total "Ann" (fun _ _ => 3) (by decide)

/-- C3 fails as stated for a spare in the last frame: after a strike in frame 8
and the balls 6 and 4 in frame 9 the fill ball of 5 pins belongs to frame 9 as
well, so when the frame is complete `frame_s[9]` is 15 and not 6 + 4. -/
theorem C3_counterexample :
    frame_balls (play_frames 10 (Player.fresh "Ann")
        (fun f k => if f = 9 then [6, 4, 5].getD k 0 else 10)).2 8 = [10]
    ∧ frame_balls (play_frames 10 (Player.fresh "Ann")
        (fun f k => if f = 9 then [6, 4, 5].getD k 0 else 10)).2 9 = [6, 4, 5]
    ∧ (play_frames 10 (Player.fresh "Ann")
        (fun f k => if f = 9 then [6, 4, 5].getD k 0 else 10)).1.frame_s.getD 8 0 = 10 + 6 + 4
    ∧ (play_frames 10 (Player.fresh "Ann")
        (fun f k => if f = 9 then [6, 4, 5].getD k 0 else 10)).1.frame_s.getD 9 0 = 15
    ∧ (play_frames 10 (Player.fresh "Ann")
        (fun f k => if f = 9 then [6, 4, 5].getD k 0 else 10)).1.frame_s.getD 9 0 ≠ 6 + 4 := by
  decide

/-- C3, amended: when frame `i < 9` is a strike and frame `i+1` begins with the
balls `a < 10` and `b`, then once frame `i+1` is complete `frame_s[i]` is
`10 + a + b` and `frame_s[i+1]` is `a + b` plus the fill ball, which exists
only when `i+1` is the last frame and `a + b = 10`; otherwise `frame_s[i+1]` is
`a + b`. A strike followed by 3 and 4 in frames 0 and 1 gives 17, 7 and the
total 24. -/
theorem C3_strike_then_two_balls (name : String) (rnd : Nat → Nat → Nat) (i : Nat)
    (a b : Int) (rest : List Int) (hi : i < 9)
    (hs : frame_balls (play_frames (i + 2) (Player.fresh name) rnd).2 i = [10])
    (hab : frame_balls (play_frames (i + 2) (Player.fresh name) rnd).2 (i + 1) = a :: b :: rest)
    (ha : a < 10) :
    (play_frames (i + 2) (Player.fresh name) rnd).1.frame_s.getD i 0 = 10 + a + b
    ∧ (play_frames (i + 2) (Player.fresh name) rnd).1.frame_s.getD (i + 1) 0
        = a + b + rest.sum
    ∧ ((i < 8 ∨ a + b < 10) → rest = [])
    ∧ (i = 8 → a + b = 10 → ∃ c, rest = [c] ∧ 0 ≤ c ∧ c ≤ 10)
    ∧ ((play_frames 2 (Player.fresh name) (fun f k => ([[10], [3, 4]].getD f []).getD k 0)
          ).1.frame_s.getD 0 0 = 17
      ∧ (play_frames 2 (Player.fresh name) (fun f k => ([[10], [3, 4]].getD f []).getD k 0)
          ).1.frame_s.getD 1 0 = 7
      ∧ (play_frames 2 (Player.fresh name) (fun f k => ([[10], [3, 4]].getD f []).getD k 0)
          ).1.total_s = 24) := by
  have inv := play_inv name rnd (i + 2) (by omega)
  have hi' : i < FINAL_FRAME := hi
  have e1 : balls_after (play_frames (i + 2) (Player.fresh name) rnd).2 i
      = a :: b :: rest := by
    rw [balls_after_eq_frame _ i (fun e he => inv.before e he), hab]
  have e2 : balls_after (play_frames (i + 2) (Player.fresh name) rnd).2 (i + 1) = [] :=
    balls_after_of_le _ (i + 1) (fun e he => by have := inv.before e he; omega)
  have sh := inv.shape (i + 1) (by omega)
  refine ⟨?_, ?_, ?_, ?_, ?_⟩
  · rw [inv.agree i (by omega)]
    simp [expected_score, bonus_balls, hs, hi', e1]
    ring
  · rw [inv.agree (i + 1) (by omega)]
    simp [expected_score, hab, e2]
    ring
  · intro hc
    rw [hab] at sh
    unfold frame_shape at sh
    split_ifs at sh with h9
    · rcases sh with sh | ⟨a', b', sh, _⟩
      · simp at sh
      · simp only [List.cons.injEq] at sh
        exact sh.2.2
    · have : ¬ i < 8 := by simp only [FINAL_FRAME] at h9; omega
      have hlt : a + b < 10 := by omega
      rcases sh with ⟨a', b', sh, _⟩ | ⟨a', b', c', sh, h1, h2, h3, h4, h5, h6⟩
          | ⟨b', c', sh, _⟩
      · simp only [List.cons.injEq] at sh
        exact sh.2.2
      · simp only [List.cons.injEq, and_true] at sh
        obtain ⟨r1, r2, r3⟩ := sh
        subst r1 r2
        omega
      · simp only [List.cons.injEq, and_true] at sh
        omega
  · intro h8 hsum
    subst h8
    rw [hab] at sh
    simp only [frame_shape, FINAL_FRAME, lt_irrefl, if_false] at sh
    rcases sh with ⟨a', b', sh, h1, h2, h3⟩ | ⟨a', b', c', sh, h1, h2, h3, h4, h5, h6⟩
        | ⟨b', c', sh, _⟩
    · simp only [List.cons.injEq, and_true] at sh
      obtain ⟨r1, r2, r3⟩ := sh
      subst r1 r2
      omega
    · simp only [List.cons.injEq, and_true] at sh
      obtain ⟨r1, r2, r3⟩ := sh
      exact ⟨c', r3, h5, h6⟩
    · simp only [List.cons.injEq, and_true] at sh
      omega
  · refine ⟨?_, ?_, ?_⟩ <;> rfl

/-- C3, on a strike in frame 0 followed by 3 and 4 in frame 1. -/
theorem C3_strike_then_two_balls_witness :
    (play_frames 2 (Player.fresh "Ann")
        (fun f k => ([[10], [3, 4]].getD f []).getD k 0)).1.frame_s.getD 0 0 = 10 + 3 + 4
    ∧ (play_frames 2 (Player.fresh "Ann")
        (fun f k => ([[10], [3, 4]].getD f []).getD k 0)).1.frame_s.getD 1 0 = 3 + 4 + 0 :=
  let t := C3_strike_then_two_balls "Ann" (fun f k => ([[10], [3, 4]].getD f []).getD k 0)
    0 3 4 [] (by decide) (by decide) (by decide) (by decide)
  ⟨t.1, t.2.1⟩

/-- C4: when frame `i < 9` is a spare (first ball below 10, two balls of 10
together) and the next ball bowled knocks down `c` pins, then every scoreboard
printed from that next ball on shows `frame_s[i] = 10 + c`, and so does the
bowler at the end of the game; `c` is between 0 and 10. -/
theorem C4_spare_next_ball (name : String) (rnd : Nat → Nat → Nat) (i : Nat) (a b c : Int)
    (hi : i < 9) (hsp : frame_balls (game_log name rnd) i = [a, b]) (ha : a < 10)
    (hab : a + b = 10) (hc : (balls_after (game_log name rnd) i).head? = some c) :
    (∀ pre e suf, game_log name rnd = pre ++ e :: suf → i < e.frame →
        e.board.frame_s.getD i 0 = 10 + c)
    ∧ (final_player name rnd).frame_s.getD i 0 = 10 + c
    ∧ 0 ≤ c ∧ c ≤ 10 := by
  have inv := game_inv name rnd
  have hi' : i < FINAL_FRAME := hi
  have hne : ¬ a = 10 := by omega
  have hk : bonus_balls (game_log name rnd) i = 1 := by
    simp [bonus_balls, hsp, hi', hab, hne]
  refine ⟨?_, ?_, ?_⟩
  · intro pre e suf hsplit he
    rw [snap_score inv hsplit i he, hk, hsp]
    have e1 := balls_after_snoc pre e i he
    have hX : balls_after (pre ++ [e]) i ≠ [] := by rw [e1]; simp
    have e2 : balls_after (game_log name rnd) i
        = balls_after (pre ++ [e]) i ++ balls_after suf i := by
      rw [hsplit]; exact balls_after_split pre suf e i
    rw [e2] at hc
    rw [take_one_of_head _ _ c hX hc]
    simp [hab]
  · rw [inv.agree i (by omega), expected_score, hk, hsp]
    have hX : balls_after (game_log name rnd) i ≠ [] := by
      intro hnil; rw [hnil] at hc; simp at hc
    have hc' : (balls_after (game_log name rnd) i ++ []).head? = some c := by simpa using hc
    rw [take_one_of_head _ _ c hX hc']
    simp [hab]
  · obtain ⟨e, he, hp⟩ := mem_balls_after _ i c (List.mem_of_mem_head? hc)
    rw [← hp]
    exact inv.pins_bounds e he

set_option maxRecDepth 100000 in
/-- C4, on the game in which every frame is 7 then 3: frame 0 ends at 17. -/
theorem C4_spare_next_ball_witness :
    (final_player "Ann" (fun _ k => if k = 1 then 3 else 7)).frame_s.getD 0 0 = 10 + 7 :=
  (C4_spare_next_ball "Ann" (fun _ k => if k = 1 then 3 else 7) 0 7 3 7
    (by decide) (by decide) (by decide) (by decide) (by decide)).2.1

/-- C5: when frames `i` and `i+1` (`i < 8`) are strikes and the first ball of
frame `i+2` knocks down `a` pins, then every scoreboard printed from that ball
on shows `frame_s[i] = 20 + a`, and so does the bowler at the end of the game. -/
theorem C5_two_strikes_next_ball (name : String) (rnd : Nat → Nat → Nat) (i : Nat) (a : Int)
    (hi : i < 8) (h1 : frame_balls (game_log name rnd) i = [10])
    (h2 : frame_balls (game_log name rnd) (i + 1) = [10])
    (ha : (frame_balls (game_log name rnd) (i + 2)).head? = some a) :
    (∀ pre e suf, game_log name rnd = pre ++ e :: suf → i + 2 ≤ e.frame →
        e.board.frame_s.getD i 0 = 20 + a)
    ∧ (final_player name rnd).frame_s.getD i 0 = 20 + a := by
  have inv := game_inv name rnd
  have hi' : i < FINAL_FRAME := by simp only [FINAL_FRAME]; omega
  have hk : bonus_balls (game_log name rnd) i = 2 := by
    simp [bonus_balls, h1, hi']
  have hne : frame_balls (game_log name rnd) (i + 2) ≠ [] := by
    intro hnil; rw [hnil] at ha; simp at ha
  have hhead : ∀ Y, (frame_balls (game_log name rnd) (i + 2) ++ Y).head? = some a := by
    intro Y
    rw [List.head?_append_of_ne_nil _ hne]; exact ha
  refine ⟨?_, ?_⟩
  · intro pre e suf hsplit he
    have sp := split_sorted inv.sorted hsplit
    rw [snap_score inv hsplit i (by omega), hk, h1]
    have e1 : balls_after (pre ++ [e]) i
        = [10] ++ balls_after (pre ++ [e]) (i + 1) := by
      rw [balls_after_sorted _ sp.2.2 i, frame_balls_prefix inv.sorted hsplit (i + 1) (by omega),
        h2]
    have e2 := balls_after_snoc pre e (i + 1) (by omega)
    have hX : balls_after (pre ++ [e]) (i + 1) ≠ [] := by rw [e2]; simp
    have e3 : balls_after (game_log name rnd) (i + 1)
        = balls_after (pre ++ [e]) (i + 1) ++ balls_after suf (i + 1) := by
      rw [hsplit]; exact balls_after_split pre suf e (i + 1)
    have e4 := balls_after_sorted _ inv.sorted (i + 1)
    have hh := hhead (balls_after (game_log name rnd) (i + 1 + 1))
    rw [← e4, e3] at hh
    have t1 := take_one_of_head _ _ a hX hh
    rw [e1]
    have : List.take 2 ([10] ++ balls_after (pre ++ [e]) (i + 1))
        = 10 :: List.take 1 (balls_after (pre ++ [e]) (i + 1)) := by simp
    rw [this, t1]
    simp only [List.sum_cons, List.sum_nil, add_zero]
    ring
  · rw [inv.agree i (by omega), expected_score, hk, h1]
    have e1 : balls_after (game_log name rnd) i
        = [10] ++ balls_after (game_log name rnd) (i + 1) := by
      rw [balls_after_sorted _ inv.sorted i, h2]
    have e4 := balls_after_sorted _ inv.sorted (i + 1)
    have hh := hhead (balls_after (game_log name rnd) (i + 1 + 1))
    rw [← e4] at hh
    have hX : balls_after (game_log name rnd) (i + 1) ≠ [] := by
      intro hnil; rw [hnil] at hh; simp at hh
    have hh' : (balls_after (game_log name rnd) (i + 1) ++ []).head? = some a := by
      simpa using hh
    have t1 := take_one_of_head _ _ a hX hh'
    rw [e1]
    have : List.take 2 ([10] ++ balls_after (game_log name rnd) (i + 1))
        = 10 :: List.take 1 (balls_after (game_log name rnd) (i + 1)) := by simp
    rw [this, t1]
    simp only [List.sum_cons, List.sum_nil, add_zero]
    ring

set_option maxRecDepth 100000 in
/-- C5, on two strikes followed by frames of 4 then 2: frame 0 ends at 24. -/
theorem C5_two_strikes_next_ball_witness :
    (final_player "Ann" (fun f k => if f < 2 then 10 else if k = 0 then 4 else 2)
        ).frame_s.getD 0 0 = 20 + 4 :=
  (C5_two_strikes_next_ball "Ann" (fun f k => if f < 2 then 10 else if k = 0 then 4 else 2) 0 4
    (by decide) (by decide) (by decide) (by decide)).2

/-- C6: in a game in which every ball bowled is a strike, twelve balls are
bowled, the final `total_s` is 300 and `frame_s[k]` is 30 for every `k` in 0..9. -/
theorem C6_perfect_game (name : String) (rnd : Nat → Nat → Nat)
    (h : ∀ e, e ∈ game_log name rnd → e.pins = 10) :
    (game_log name rnd).length = 12
      ∧ (final_player name rnd).total_s = 300
      ∧ ∀ k, k < 10 → (final_player name rnd).frame_s.getD k 0 = 30 := by
  have inv := game_inv name rnd
  have hs := all_strikes inv h
  refine ⟨hs.1, ?_, hs.2⟩
  rw [inv.total, sum_frames_eq, hs.2 0 (by omega), hs.2 1 (by omega), hs.2 2 (by omega),
    hs.2 3 (by omega), hs.2 4 (by omega), hs.2 5 (by omega), hs.2 6 (by omega),
    hs.2 7 (by omega), hs.2 8 (by omega), hs.2 9 (by omega)]
  rfl

set_option maxRecDepth 100000 in
/-- C6, on the game in which `rand()` always returns 10. -/
theorem C6_perfect_game_witness :
    (game_log "Ann" (fun _ _ => 10)).length = 12
      ∧ (final_player "Ann" (fun _ _ => 10)).total_s = 300
      ∧ (final_player "Ann" (fun _ _ => 10)).frame_s.getD 9 0 = 30 :=
  ⟨(C6_perfect_game "Ann" (fun _ _ => 10) (by decide)).1,
    (C6_perfect_game "Ann" (fun _ _ => 10) (by decide)).2.1,
    (C6_perfect_game "Ann" (fun _ _ => 10) (by decide)).2.2 9 (by decide)⟩

/-- C7: when the first two balls of frame 9 are a spare (`p < 10`, then
`10 - p`), one fill ball of `c` pins at a full rack follows; the balls of frame
9 are `p`, `10 - p`, `c`, and afterwards `frame_s[9] = 10 + c` with `c ≤ 10`,
`frame_s` still has ten entries and `bowls[20]` holds the mark of the fill
ball. The fill ball is the last ball of the log, scored by
`update_score(9, ., c, 3)`, and such a call changes nothing but `frame_s[9]` and
`total_s`. -/
theorem C7_last_frame_spare_fill (name : String) (rnd : Nat → Nat → Nat) (p : Nat)
    (hp : (bowl (rnd 9 0) 10 true).2 = p) (hp10 : p < 10)
    (hsp : (bowl (rnd 9 1) (10 - p) false).2 = 10 - p) :
    frame_balls (game_log name rnd) 9
        = [(p : Int), ((10 - p : Nat) : Int), ((bowl (rnd 9 2) 10 true).2 : Int)]
    ∧ (bowl (rnd 9 2) 10 true).2 ≤ 10
    ∧ (final_player name rnd).frame_s.getD 9 0 = 10 + ((bowl (rnd 9 2) 10 true).2 : Int)
    ∧ (final_player name rnd).frame_s.length = 10
    ∧ (final_player name rnd).bowls.getD 20 NUL = (bowl (rnd 9 2) 10 true).1
    ∧ (∃ q : Player,
        final_player name rnd
          = update_score 9 (q.mark 20 (bowl (rnd 9 2) 10 true).1) (bowl (rnd 9 2) 10 true).2 3
        ∧ (game_log name rnd).getLast?
          = some ⟨9, 3, (bowl (rnd 9 2) 10 true).2, final_player name rnd⟩)
    ∧ (∀ (q : Player) (x : Int),
        (update_score 9 q x 3).name = q.name ∧ (update_score 9 q x 3).bowls = q.bowls
        ∧ (update_score 9 q x 3).total_s = q.total_s + x
        ∧ (update_score 9 q x 3).frame_s = q.frame_s.set 9 (q.frame_s.getD 9 0 + x)) := by
  have inv9 := play_inv name rnd 9 (by omega)
  have inv := game_inv name rnd
  have key := bowl_frame_last_spare 9 rfl (play_frames 9 (Player.fresh name) rnd).1 (rnd 9) p
    (bowl (rnd 9 2) 10 true).2 (bowl (rnd 9 0) 10 true).1 (bowl (rnd 9 1) (10 - p) false).1
    (bowl (rnd 9 2) 10 true).1 inv9.len_s inv9.len_b (last_frame_fresh name rnd)
    (Prod.ext rfl hp) hp10 (Prod.ext rfl hsp) rfl
  have hlog := game_log_eq name rnd
  have hfin := final_player_eq name rnd
  rw [key] at hlog hfin
  simp only at hlog hfin
  have e0 : frame_balls (play_frames 9 (Player.fresh name) rnd).2 9 = [] :=
    frame_balls_of_ne _ 9 (fun e he => by have := inv9.before e he; omega)
  have hfb : frame_balls (game_log name rnd) 9
      = [(p : Int), ((10 - p : Nat) : Int), ((bowl (rnd 9 2) 10 true).2 : Int)] := by
    rw [hlog, frame_balls_append, e0]
    simp [frame_balls]
  refine ⟨hfb, bowl_snd_le _ _ _, ?_, inv.len_s, ?_, ?_, ?_⟩
  · rw [inv.agree 9 (by omega)]
    simp only [expected_score, bonus_balls, hfb, FINAL_FRAME, lt_irrefl, false_and, if_false,
      List.take_zero, List.sum_cons, List.sum_nil, add_zero]
    push_cast [Nat.cast_sub (Nat.le_of_lt hp10)]
    ring
  · rw [hfin, update_score_bowls, mark_getD, if_pos]
    simp only [update_score_bowls, mark_length, inv9.len_b]
    exact ⟨trivial, by decide⟩
  · exact ⟨_, hfin, by rw [hlog, ← hfin]; simp⟩
  · intro q x
    rw [update_score_third]
    exact ⟨rfl, rfl, rfl, rfl⟩

/-- C7, on the last frame 6, 4 and the fill ball 5: `frame_s[9]` is 15. -/
theorem C7_last_frame_spare_fill_witness :
    (final_player "Ann" (fun f k => if f = 9 then [6, 4, 5].getD k 0 else 10)).frame_s.getD 9 0
      = 15 :=
  (C7_last_frame_spare_fill "Ann" (fun f k => if f = 9 then [6, 4, 5].getD k 0 else 10) 6
    (by decide) (by decide) (by decide)).2.2.1

/-- C9: at the end of every game `0 ≤ total_s ≤ 300`, and `total_s = 300` only
if twelve balls were bowled and every one of them knocked down ten pins. -/
theorem C9_total_bounds (name : String) (rnd : Nat → Nat → Nat) :
    0 ≤ (final_player name rnd).total_s
    ∧ (final_player name rnd).total_s ≤ 300
    ∧ ((final_player name rnd).total_s = 300 →
        (game_log name rnd).length = 12 ∧ ∀ e, e ∈ game_log name rnd → e.pins = 10) := by
  have inv := game_inv name rnd
  have hb := fun i hi => expected_bounds inv i hi
  have ht := inv.total
  rw [sum_frames_eq, inv.agree 0 (by omega), inv.agree 1 (by omega), inv.agree 2 (by omega),
    inv.agree 3 (by omega), inv.agree 4 (by omega), inv.agree 5 (by omega),
    inv.agree 6 (by omega), inv.agree 7 (by omega), inv.agree 8 (by omega),
    inv.agree 9 (by omega)] at ht
  have b0 := hb 0 (by omega)
  have b1 := hb 1 (by omega)
  have b2 := hb 2 (by omega)
  have b3 := hb 3 (by omega)
  have b4 := hb 4 (by omega)
  have b5 := hb 5 (by omega)
  have b6 := hb 6 (by omega)
  have b7 := hb 7 (by omega)
  have b8 := hb 8 (by omega)
  have b9 := hb 9 (by omega)
  refine ⟨by omega, by omega, ?_⟩
  intro h300
  have hall : ∀ e, e ∈ game_log name rnd → e.pins = 10 := by
    intro e he
    have hf := inv.before e he
    have hm := mem_frame_balls _ e he
    have h30 : expected_score (game_log name rnd) e.frame = 30 := by
      have : e.frame = 0 ∨ e.frame = 1 ∨ e.frame = 2 ∨ e.frame = 3 ∨ e.frame = 4
          ∨ e.frame = 5 ∨ e.frame = 6 ∨ e.frame = 7 ∨ e.frame = 8 ∨ e.frame = 9 := by omega
      rcases this with h | h | h | h | h | h | h | h | h | h <;> rw [h] <;> omega
    exact (hb e.frame hf).2.2 h30 _ hm
  exact ⟨(all_strikes inv hall).1, hall⟩

set_option maxRecDepth 100000 in
/-- C9, on the game in which `rand()` always returns 10 and the total is 300. -/
theorem C9_total_bounds_witness :
    (final_player "Ann" (fun _ _ => 10)).total_s = 300
      ∧ (game_log "Ann" (fun _ _ => 10)).length = 12 :=
  ⟨by decide, ((C9_total_bounds "Ann" (fun _ _ => 10)).2.2 (by decide)).1⟩

/-- C10: for `pins_left` in 1..10 the pin count `p` that `bowl` returns is the
random number modulo `pins_left + 1`, so `0 ≤ p ≤ pins_left`, and every such
count occurs; the character stored is `X` exactly when `p = pins_left` on a new
frame, `/` exactly when `p = pins_left` otherwise, `-` exactly when `p = 0`, and
in the remaining cases the digit `'0' + p` with `p` in 1..9. -/
theorem C10_bowl_marks (r pins_left : Nat) (new_frame : Bool) (h1 : 1 ≤ pins_left)
    (h10 : pins_left ≤ 10) :
    (bowl r pins_left new_frame).2 = r % (pins_left + 1)
    ∧ (bowl r pins_left new_frame).2 ≤ pins_left
    ∧ (∀ p, p ≤ pins_left → (bowl p pins_left new_frame).2 = p)
    ∧ ((bowl r pins_left new_frame).1 = 'X'
        ↔ (bowl r pins_left new_frame).2 = pins_left ∧ new_frame = true)
    ∧ ((bowl r pins_left new_frame).1 = '/'
        ↔ (bowl r pins_left new_frame).2 = pins_left ∧ new_frame = false)
    ∧ ((bowl r pins_left new_frame).1 = '-' ↔ (bowl r pins_left new_frame).2 = 0)
    ∧ ((bowl r pins_left new_frame).2 ≠ pins_left → (bowl r pins_left new_frame).2 ≠ 0 →
        (bowl r pins_left new_frame).1 = Char.ofNat ((bowl r pins_left new_frame).2 + '0'.toNat)
        ∧ 1 ≤ (bowl r pins_left new_frame).2 ∧ (bowl r pins_left new_frame).2 ≤ 9) := by
  have hle := bowl_snd_le r pins_left new_frame
  have hs := bowl_snd r pins_left new_frame
  refine ⟨hs, hle, ?_, bowl_fst_X r pins_left new_frame h10, ?_, ?_, ?_⟩
  · intro p hp
    rw [bowl_snd]
    exact Nat.mod_eq_of_lt (by omega)
  · exact bowl_fst_slash r pins_left new_frame h10
  · exact bowl_fst_dash r pins_left new_frame h1 h10
  · intro n1 n2
    exact ⟨bowl_fst_digit r pins_left new_frame n1 n2, by omega, by omega⟩

/-- C10, on a ball that knocks down 7 of 10 pins: the mark is the digit 7. -/
theorem C10_bowl_marks_witness :
    (bowl 40 10 true).1 = Char.ofNat ((bowl 40 10 true).2 + '0'.toNat)
      ∧ 1 ≤ (bowl 40 10 true).2 ∧ (bowl 40 10 true).2 ≤ 9 :=
  (C10_bowl_marks 40 10 true (by decide) (by decide)).2.2.2.2.2.2 (by decide) (by decide)

/-! ## The shape of a frame -/

theorem bowl_frame_normal (f : Nat) (hf : f ≠ FINAL_FRAME) (bowler : Player) (rnd : Nat → Nat) :
    bowl_frame f bowler rnd
      = (if 10 - (bowl (rnd 0) 10 true).2 ≠ 0 then
          (update_score f ((update_score f (bowler.mark (2 * f) (bowl (rnd 0) 10 true).1)
              (bowl (rnd 0) 10 true).2 1).mark (2 * f + 1)
                (bowl (rnd 1) (10 - (bowl (rnd 0) 10 true).2) false).1)
              (bowl (rnd 1) (10 - (bowl (rnd 0) 10 true).2) false).2 2,
            [Ball.mk f 1 (bowl (rnd 0) 10 true).2
                (update_score f (bowler.mark (2 * f) (bowl (rnd 0) 10 true).1)
                  (bowl (rnd 0) 10 true).2 1),
              Ball.mk f 2 (bowl (rnd 1) (10 - (bowl (rnd 0) 10 true).2) false).2
                (update_score f ((update_score f (bowler.mark (2 * f) (bowl (rnd 0) 10 true).1)
                  (bowl (rnd 0) 10 true).2 1).mark (2 * f + 1)
                    (bowl (rnd 1) (10 - (bowl (rnd 0) 10 true).2) false).1)
                  (bowl (rnd 1) (10 - (bowl (rnd 0) 10 true).2) false).2 2)])
        else
          (update_score f (bowler.mark (2 * f) (bowl (rnd 0) 10 true).1)
              (bowl (rnd 0) 10 true).2 1,
            [Ball.mk f 1 (bowl (rnd 0) 10 true).2
                (update_score f (bowler.mark (2 * f) (bowl (rnd 0) 10 true).1)
                  (bowl (rnd 0) 10 true).2 1)])) := by
  unfold bowl_frame
  simp only [hf, false_and, if_false]

theorem frame_pins_normal (f : Nat) (hf : f ≠ FINAL_FRAME) (bowler : Player) (rnd : Nat → Nat) :
    (bowl_frame f bowler rnd).2.map Ball.pins
      = (if (bowl (rnd 0) 10 true).2 = 10 then [((bowl (rnd 0) 10 true).2 : Int)]
        else [((bowl (rnd 0) 10 true).2 : Int),
          ((bowl (rnd 1) (10 - (bowl (rnd 0) 10 true).2) false).2 : Int)]) := by
  rw [bowl_frame_normal f hf]
  have hle := bowl_snd_le (rnd 0) 10 true
  by_cases h : (bowl (rnd 0) 10 true).2 = 10
  · have hx : ¬ (10 - (bowl (rnd 0) 10 true).2 ≠ 0) := by omega
    rw [if_neg hx, if_pos h]
    rfl
  · have hx : 10 - (bowl (rnd 0) 10 true).2 ≠ 0 := by omega
    rw [if_pos hx, if_neg h]
    rfl

theorem fill_balls_frames (bowler : Player) (strike : Bool) (rnd : Nat → Nat) :
    ∀ e, e ∈ (fill_balls bowler strike rnd).2 → e.frame = FINAL_FRAME := by
  intro e he
  unfold fill_balls at he
  cases strike
  · simp only [Bool.false_eq_true, if_false, List.mem_singleton] at he
    rw [he]
  · simp only [if_true, List.mem_cons, List.mem_singleton, List.not_mem_nil, or_false] at he
    rcases he with he | he <;> rw [he]

theorem bowl_frame_frames (f : Nat) (bowler : Player) (rnd : Nat → Nat) :
    ∀ e, e ∈ (bowl_frame f bowler rnd).2 → e.frame = f := by
  intro e he
  unfold bowl_frame at he
  simp only [] at he
  split_ifs at he with h1 h2 h3
  · simp only [List.mem_append, List.mem_cons, List.mem_singleton, List.not_mem_nil,
      or_false] at he
    rcases he with (he | he) | he
    · rw [he]
    · rw [he]
    · rw [fill_balls_frames _ _ _ e he, h2.1]
  · simp only [List.mem_cons, List.mem_singleton, List.not_mem_nil, or_false] at he
    rcases he with he | he <;> rw [he]
  · simp only [List.mem_append, List.mem_singleton] at he
    rcases he with he | he
    · rw [he]
    · rw [fill_balls_frames _ _ _ e he, h3.1]
  · simp only [List.mem_singleton] at he
    rw [he]

theorem frame_balls_new (name : String) (rnd : Nat → Nat → Nat) (f : Nat) (hf : f < 10) :
    frame_balls (play_frames (f + 1) (Player.fresh name) rnd).2 f
      = (bowl_frame f (play_frames f (Player.fresh name) rnd).1 (rnd f)).2.map Ball.pins := by
  have inv := play_inv name rnd f (by omega)
  rw [play_frames_succ]
  simp only
  rw [frame_balls_append,
    frame_balls_of_ne _ f (fun e he => by have := inv.before e he; omega), List.nil_append]
  exact frame_balls_of_eq _ f (bowl_frame_frames f _ _)

theorem frame_score_own (name : String) (rnd : Nat → Nat → Nat) (f : Nat) (hf : f < 10) :
    (play_frames (f + 1) (Player.fresh name) rnd).1.frame_s.getD f 0
      = (frame_balls (play_frames (f + 1) (Player.fresh name) rnd).2 f).sum := by
  have inv := play_inv name rnd (f + 1) (by omega)
  rw [inv.agree f hf, expected_score,
    balls_after_of_le _ f (fun e he => by have := inv.before e he; omega)]
  simp

/-- C11: in every frame `f` of 0..8 of a game `bowl_frame` bowls one or two
balls. The first knocks down `p1 ≤ 10` pins of a full rack; when `p1 = 10` it
is the only ball of the frame; when `p1 < 10` a second ball follows at the
`10 - p1` pins left and knocks down `p2 ≤ 10 - p1`, so `p1 + p2 ≤ 10`. When the
frame ends `frame_s[f]` is the sum of these balls, between 0 and 10. `bowl`
never returns more than `pins_left`. -/
theorem C11_normal_frame_balls (name : String) (rnd : Nat → Nat → Nat) (f : Nat) (hf : f < 9) :
    (bowl (rnd f 0) 10 true).2 ≤ 10
    ∧ ((bowl (rnd f 0) 10 true).2 = 10 →
        frame_balls (play_frames (f + 1) (Player.fresh name) rnd).2 f = [10])
    ∧ ((bowl (rnd f 0) 10 true).2 < 10 →
        (bowl (rnd f 1) (10 - (bowl (rnd f 0) 10 true).2) false).2
            ≤ 10 - (bowl (rnd f 0) 10 true).2
        ∧ frame_balls (play_frames (f + 1) (Player.fresh name) rnd).2 f
            = [((bowl (rnd f 0) 10 true).2 : Int),
                ((bowl (rnd f 1) (10 - (bowl (rnd f 0) 10 true).2) false).2 : Int)]
        ∧ (bowl (rnd f 0) 10 true).2
            + (bowl (rnd f 1) (10 - (bowl (rnd f 0) 10 true).2) false).2 ≤ 10)
    ∧ (frame_balls (play_frames (f + 1) (Player.fresh name) rnd).2 f).length ≤ 2
    ∧ 0 ≤ (play_frames (f + 1) (Player.fresh name) rnd).1.frame_s.getD f 0
    ∧ (play_frames (f + 1) (Player.fresh name) rnd).1.frame_s.getD f 0 ≤ 10
    ∧ (play_frames (f + 1) (Player.fresh name) rnd).1.frame_s.getD f 0
        = (frame_balls (play_frames (f + 1) (Player.fresh name) rnd).2 f).sum
    ∧ (∀ (r pins_left : Nat) (new_frame : Bool), (bowl r pins_left new_frame).2 ≤ pins_left) := by
  have hne : f ≠ FINAL_FRAME := by simp only [FINAL_FRAME]; omega
  have h1 := bowl_snd_le (rnd f 0) 10 true
  have h2 := bowl_snd_le (rnd f 1) (10 - (bowl (rnd f 0) 10 true).2) false
  have hfb := frame_balls_new name rnd f (by omega)
  rw [frame_pins_normal f hne] at hfb
  have hs := frame_score_own name rnd f (by omega)
  refine ⟨h1, ?_, ?_, ?_, ?_, ?_, hs, bowl_snd_le⟩
  · intro h10
    rw [hfb, if_pos h10, h10]
    rfl
  · intro hlt
    have hn : ¬ (bowl (rnd f 0) 10 true).2 = 10 := by omega
    refine ⟨h2, ?_, by omega⟩
    rw [hfb, if_neg hn]
  · rw [hfb]
    split_ifs <;> simp
  · rw [hs, hfb]
    split_ifs with h10
    · simp only [List.sum_cons, List.sum_nil, add_zero]
      omega
    · simp only [List.sum_cons, List.sum_nil, add_zero]
      omega
  · rw [hs, hfb]
    split_ifs with h10
    · simp only [List.sum_cons, List.sum_nil, add_zero]
      omega
    · simp only [List.sum_cons, List.sum_nil, add_zero]
      omega

/-- C11, on frame 0 with the draws 4 and 9: the balls are 4 and 2. -/
theorem C11_normal_frame_balls_witness :
    frame_balls (play_frames (0 + 1) (Player.fresh "Ann") (fun _ k => if k = 0 then 4 else 9)).2 0
      = [((bowl 4 10 true).2 : Int), ((bowl 9 (10 - (bowl 4 10 true).2) false).2 : Int)] :=
  ((C11_normal_frame_balls "Ann" (fun _ k => if k = 0 then 4 else 9) 0 (by decide)).2.2.1
    (by decide)).2.1

theorem bowl_frame_last_open (f : Nat) (hf : f = FINAL_FRAME) (bowler : Player)
    (rnd : Nat → Nat) (p p2 : Nat)
    (c1 c2 : Char) (hl : bowler.frame_s.length = 10)
    (h0 : bowler.frame_s.getD f 0 = 0)
    (h1 : bowl (rnd 0) 10 true = (c1, p)) (hp10 : p < 10)
    (h2 : bowl (rnd 1) (10 - p) false = (c2, p2)) (hsum : p + p2 < 10) :
    bowl_frame f bowler rnd
      = (update_score f ((update_score f (bowler.mark (2 * f) c1) p 1).mark (2 * f + 1) c2)
            p2 2,
        [⟨f, 1, p, update_score f (bowler.mark (2 * f) c1) p 1⟩,
         ⟨f, 2, p2, update_score f
            ((update_score f (bowler.mark (2 * f) c1) p 1).mark (2 * f + 1) c2) p2 2⟩]) := by
  have hx : 10 - p ≠ 0 := by omega
  have hF : f = 9 := hf
  unfold bowl_frame
  simp only []
  rw [h1]
  simp only [if_pos hx]
  rw [h2]
  simp only []
  generalize hb1 : update_score f (bowler.mark (2 * f) c1) (↑p) 1 = b1
  have s1 : b1.frame_s.getD f 0 = p := by
    rw [← hb1, update_score_getD _ _ _ _ _ (by simpa using hl) (by omega)]
    simp [-List.getD_eq_getElem?_getD, h0]
  have l1s : b1.frame_s.length = 10 := by rw [← hb1]; simpa using hl
  generalize hb2 : update_score f (b1.mark (2 * f + 1) c2) (p2 : Int) 2 = b2
  have s2 : ¬ b2.frame_s.getD f 0 = 10 := by
    rw [← hb2, update_score_getD _ _ _ _ _ (by simpa using l1s) (by omega)]
    simp only [mark_frame_s, s1]
    simp
    omega
  rw [if_neg (fun h => s2 h.2)]

theorem bowl_frame_last_strike (f : Nat) (hf : f = FINAL_FRAME) (bowler : Player)
    (rnd : Nat → Nat) (y1 : Nat) (c1 d1 : Char) (r2 : Char × Nat)
    (hl : bowler.frame_s.length = 10) (hb : bowler.bowls.length = 21)
    (h0 : bowler.frame_s.getD f 0 = 0)
    (h1 : bowl (rnd 0) 10 true = (c1, 10))
    (h2 : bowl (rnd 1) 10 true = (d1, y1))
    (h3 : (if 10 - y1 ≠ 0 then bowl (rnd 2) (10 - y1) false else bowl (rnd 2) 10 true) = r2) :
    bowl_frame f bowler rnd
      = (update_score f ((update_score f ((update_score f
            (bowler.mark (2 * f) c1) (10 : Nat) 1).mark (2 * f + 1) d1) y1 2).mark
              (2 * f + 2) r2.1) r2.2 3,
        [⟨f, 1, (10 : Nat), update_score f (bowler.mark (2 * f) c1) (10 : Nat) 1⟩,
         ⟨f, 2, y1, update_score f
            ((update_score f (bowler.mark (2 * f) c1) (10 : Nat) 1).mark (2 * f + 1) d1) y1 2⟩,
         ⟨f, 3, r2.2, update_score f ((update_score f ((update_score f
            (bowler.mark (2 * f) c1) (10 : Nat) 1).mark (2 * f + 1) d1) y1 2).mark
              (2 * f + 2) r2.1) r2.2 3⟩]) := by
  have c1X := bowl_fst_X (rnd 0) 10 true (by omega)
  rw [h1] at c1X
  have c1eq : c1 = 'X' := c1X.mpr ⟨rfl, rfl⟩
  have hx : ¬ (10 - 10 ≠ 0) := by omega
  have hF : f = 9 := hf
  unfold bowl_frame
  simp only []
  rw [h1]
  simp only [if_neg hx]
  generalize hb1 : update_score f (bowler.mark (2 * f) c1) ((10 : Nat) : Int) 1 = b1
  have s1 : b1.frame_s.getD f 0 = 10 := by
    rw [← hb1, update_score_getD _ _ _ _ _ (by simpa using hl) (by omega)]
    simp [-List.getD_eq_getElem?_getD, h0]
  have m1 : b1.bowls.getD (2 * f) NUL = 'X' := by
    rw [← hb1, update_score_bowls, mark_getD, if_pos (by omega), c1eq]
  rw [s1, m1]
  simp only [hf, and_self, if_true, decide_True]
  unfold fill_balls
  simp only [if_true, List.length_cons, List.length_nil, zero_add, Nat.reduceAdd,
    List.cons_append, List.nil_append, h2, h3]

theorem last_frame_entries (name : String) (rnd : Nat → Nat → Nat) :
    (game_log name rnd).filter (fun e => e.frame = 9)
      = (bowl_frame 9 (play_frames 9 (Player.fresh name) rnd).1 (rnd 9)).2 := by
  have inv9 := play_inv name rnd 9 (by omega)
  rw [game_log_eq, List.filter_append]
  have e1 : (play_frames 9 (Player.fresh name) rnd).2.filter (fun e => e.frame = 9) = [] := by
    rw [List.filter_eq_nil_iff]
    intro e he
    have := inv9.before e he
    simp only [decide_eq_true_eq]
    omega
  have e2 : (bowl_frame 9 (play_frames 9 (Player.fresh name) rnd).1 (rnd 9)).2.filter
      (fun e => e.frame = 9)
      = (bowl_frame 9 (play_frames 9 (Player.fresh name) rnd).1 (rnd 9)).2 := by
    rw [List.filter_eq_self]
    intro e he
    simpa using bowl_frame_frames 9 _ _ e he
  rw [e1, e2, List.nil_append]

theorem last_frame_log (name : String) (rnd : Nat → Nat → Nat) :
    ((game_log name rnd).filter (fun e => e.frame = 9)).map (fun e => (e.ball_number, e.pins))
      = (if (bowl (rnd 9 0) 10 true).2 = 10 then
          [(1, (10 : Int)), (2, ((bowl (rnd 9 1) 10 true).2 : Int)),
            (3, (((if 10 - (bowl (rnd 9 1) 10 true).2 ≠ 0 then
                bowl (rnd 9 2) (10 - (bowl (rnd 9 1) 10 true).2) false
              else bowl (rnd 9 2) 10 true).2 : Nat) : Int))]
        else if (bowl (rnd 9 0) 10 true).2
            + (bowl (rnd 9 1) (10 - (bowl (rnd 9 0) 10 true).2) false).2 = 10 then
          [(1, ((bowl (rnd 9 0) 10 true).2 : Int)),
            (2, ((bowl (rnd 9 1) (10 - (bowl (rnd 9 0) 10 true).2) false).2 : Int)),
            (3, ((bowl (rnd 9 2) 10 true).2 : Int))]
        else
          [(1, ((bowl (rnd 9 0) 10 true).2 : Int)),
            (2, ((bowl (rnd 9 1) (10 - (bowl (rnd 9 0) 10 true).2) false).2 : Int))]) := by
  have inv9 := play_inv name rnd 9 (by omega)
  have h0 := last_frame_fresh name rnd
  have hle := bowl_snd_le (rnd 9 0) 10 true
  have hle2 := bowl_snd_le (rnd 9 1) (10 - (bowl (rnd 9 0) 10 true).2) false
  rw [last_frame_entries]
  by_cases h10 : (bowl (rnd 9 0) 10 true).2 = 10
  · rw [if_pos h10]
    rw [bowl_frame_last_strike 9 rfl _ (rnd 9) (bowl (rnd 9 1) 10 true).2
      (bowl (rnd 9 0) 10 true).1 (bowl (rnd 9 1) 10 true).1 _ inv9.len_s inv9.len_b h0
      (Prod.ext rfl h10) rfl rfl]
    rfl
  · rw [if_neg h10]
    by_cases hsum : (bowl (rnd 9 0) 10 true).2
        + (bowl (rnd 9 1) (10 - (bowl (rnd 9 0) 10 true).2) false).2 = 10
    · rw [if_pos hsum]
      rw [bowl_frame_last_spare 9 rfl _ (rnd 9) (bowl (rnd 9 0) 10 true).2
        (bowl (rnd 9 2) 10 true).2 (bowl (rnd 9 0) 10 true).1
        (bowl (rnd 9 1) (10 - (bowl (rnd 9 0) 10 true).2) false).1 (bowl (rnd 9 2) 10 true).1
        inv9.len_s inv9.len_b h0 rfl (by omega) (Prod.ext rfl (by simp only; omega)) rfl]
      have e : 10 - (bowl (rnd 9 0) 10 true).2
          = (bowl (rnd 9 1) (10 - (bowl (rnd 9 0) 10 true).2) false).2 := by omega
      simp only [List.map_cons, List.map_nil]
      rw [← e]
    · rw [if_neg hsum]
      rw [bowl_frame_last_open 9 rfl _ (rnd 9) (bowl (rnd 9 0) 10 true).2
        (bowl (rnd 9 1) (10 - (bowl (rnd 9 0) 10 true).2) false).2 (bowl (rnd 9 0) 10 true).1
        (bowl (rnd 9 1) (10 - (bowl (rnd 9 0) 10 true).2) false).1
        inv9.len_s h0 rfl (by omega) rfl (by omega)]
      rfl

theorem frame_balls_of_entries (L : List Ball) (i : Nat) :
    frame_balls L i
      = ((L.filter (fun e => e.frame = i)).map (fun e => (e.ball_number, e.pins))).map Prod.snd
      := by
  simp [frame_balls, Function.comp_def]

theorem third_ball_iff (L : List Ball) (i : Nat) :
    (∃ e, e ∈ L ∧ e.frame = i ∧ e.ball_number = 3)
      ↔ ∃ x, x ∈ (L.filter (fun e => e.frame = i)).map (fun e => (e.ball_number, e.pins))
          ∧ x.1 = 3 := by
  constructor
  · rintro ⟨e, he, hf, hn⟩
    exact ⟨(e.ball_number, e.pins),
      List.mem_map.mpr ⟨e, List.mem_filter.mpr ⟨he, by simpa using hf⟩, rfl⟩, hn⟩
  · rintro ⟨x, hx, hn⟩
    obtain ⟨e, he, rfl⟩ := List.mem_map.mp hx
    have h := List.mem_filter.mp he
    exact ⟨e, h.1, by simpa using h.2, hn⟩

/-- C12: in every game frame 9 has exactly three balls when its first ball is
a strike (the ball and two fill balls) or when its first two balls make ten
(the two balls and one fill ball), and exactly two balls otherwise. Only
`fill_balls` scores a ball with ball number 3, and the log of frame 9 holds
such a ball exactly when the frame is a strike or a spare. -/
theorem C12_last_frame_balls (name : String) (rnd : Nat → Nat → Nat) :
    ((bowl (rnd 9 0) 10 true).2 = 10 →
        ∃ b c, frame_balls (game_log name rnd) 9 = [10, b, c])
    ∧ ((bowl (rnd 9 0) 10 true).2 < 10 →
        (bowl (rnd 9 0) 10 true).2
          + (bowl (rnd 9 1) (10 - (bowl (rnd 9 0) 10 true).2) false).2 = 10 →
        ∃ c, frame_balls (game_log name rnd) 9
          = [((bowl (rnd 9 0) 10 true).2 : Int),
              ((bowl (rnd 9 1) (10 - (bowl (rnd 9 0) 10 true).2) false).2 : Int), c])
    ∧ ((bowl (rnd 9 0) 10 true).2 < 10 →
        (bowl (rnd 9 0) 10 true).2
          + (bowl (rnd 9 1) (10 - (bowl (rnd 9 0) 10 true).2) false).2 < 10 →
        frame_balls (game_log name rnd) 9
          = [((bowl (rnd 9 0) 10 true).2 : Int),
              ((bowl (rnd 9 1) (10 - (bowl (rnd 9 0) 10 true).2) false).2 : Int)])
    ∧ ((frame_balls (game_log name rnd) 9).length = 3
        ↔ ((frame_balls (game_log name rnd) 9).head? = some 10
            ∨ ((frame_balls (game_log name rnd) 9).take 2).sum = 10))
    ∧ ((frame_balls (game_log name rnd) 9).length = 2
        ↔ ¬ ((frame_balls (game_log name rnd) 9).head? = some 10
            ∨ ((frame_balls (game_log name rnd) 9).take 2).sum = 10))
    ∧ ((∃ e, e ∈ game_log name rnd ∧ e.frame = 9 ∧ e.ball_number = 3)
        ↔ ((frame_balls (game_log name rnd) 9).head? = some 10
            ∨ ((frame_balls (game_log name rnd) 9).take 2).sum = 10)) := by
  have hlog := last_frame_log name rnd
  have hfb := frame_balls_of_entries (game_log name rnd) 9
  have h3 := third_ball_iff (game_log name rnd) 9
  rw [hlog] at hfb h3
  have hle := bowl_snd_le (rnd 9 0) 10 true
  have hle2 := bowl_snd_le (rnd 9 1) (10 - (bowl (rnd 9 0) 10 true).2) false
  rw [h3, hfb]
  by_cases h10 : (bowl (rnd 9 0) 10 true).2 = 10
  · simp only [if_pos h10, List.map_cons, List.map_nil]
    refine ⟨fun _ => ⟨_, _, rfl⟩, fun h => by omega, fun h => by omega, ?_, ?_, ?_⟩
    · simp
    · simp
    · simp
  · simp only [if_neg h10]
    by_cases hsum : (bowl (rnd 9 0) 10 true).2
        + (bowl (rnd 9 1) (10 - (bowl (rnd 9 0) 10 true).2) false).2 = 10
    · simp only [if_pos hsum, List.map_cons, List.map_nil]
      have hs' : ((bowl (rnd 9 0) 10 true).2 : Int)
          + ((bowl (rnd 9 1) (10 - (bowl (rnd 9 0) 10 true).2) false).2 : Int) = 10 := by
        exact_mod_cast hsum
      refine ⟨fun h => absurd h h10, fun _ _ => ⟨_, rfl⟩, fun _ h => by omega, ?_, ?_, ?_⟩
      · simp [hs']
      · simp [hs']
      · simp [hs']
    · simp only [if_neg hsum, List.map_cons, List.map_nil]
      have hs' : ¬ ((bowl (rnd 9 0) 10 true).2 : Int)
          + ((bowl (rnd 9 1) (10 - (bowl (rnd 9 0) 10 true).2) false).2 : Int) = 10 := by
        intro h; exact hsum (by exact_mod_cast h)
      have hn : ¬ ((bowl (rnd 9 0) 10 true).2 : Int) = 10 := by
        intro h; exact h10 (by exact_mod_cast h)
      refine ⟨fun h => absurd h h10, fun _ h => absurd h hsum, fun _ _ => trivial, ?_, ?_, ?_⟩
      · simp [hs', hn]
      · simp [hs', hn]
      · simp [hs', hn]

/-- C12, on the last frame 3 then 4: two balls and no fill ball. -/
theorem C12_last_frame_balls_witness :
    frame_balls (game_log "Ann" (fun f k => if f = 9 then [3, 4].getD k 0 else 10)) 9
      = [((bowl 3 10 true).2 : Int), ((bowl 4 (10 - (bowl 3 10 true).2) false).2 : Int)] :=
  (C12_last_frame_balls "Ann" (fun f k => if f = 9 then [3, 4].getD k 0 else 10)).2.2.1
    (by decide) (by decide)

set_option maxRecDepth 100000 in
/-- C13 fails as stated: after a strike in frame 9 and a first fill ball of 3
pins the rack is not reset, the second fill ball is bowled at the 7 pins left.
With the draw 8 it knocks down `8 % 8 = 0` pins, where a full rack would give 8. -/
theorem C13_counterexample :
    frame_balls (game_log "Ann" (fun f k => if f = 9 then [10, 3, 8].getD k 0 else 0)) 9
      = [10, 3, 0]
    ∧ (bowl 8 10 true).2 = 8
    ∧ (fill_balls (Player.fresh "Ann") true (fun k => [3, 8].getD k 0)).2.map Ball.pins
      = [3, 0] := by
  decide

/-- C13, amended: after an opening strike in frame 9 `fill_balls` bowls two
balls, scored as balls 2 and 3 of frame 9. The first is at a full rack of 10
and knocks down `b = rand() % 11` pins. The rack is reset to 10 before the
second only when `b = 10`; otherwise the second is bowled at the `10 - b` pins
left, so it knocks down `c = rand() % (10 - b + 1)` pins and `b + c ≤ 10`. -/
theorem C13_fill_balls_after_strike (bowler : Player) (rnd : Nat → Nat) :
    (fill_balls bowler true rnd).2.map (fun e => (e.frame, e.ball_number, e.pins))
      = [(9, 2, ((rnd 0 % 11 : Nat) : Int)),
          (9, 3, (((if rnd 0 % 11 = 10 then rnd 1 % 11
            else rnd 1 % (10 - rnd 0 % 11 + 1)) : Nat) : Int))]
    ∧ rnd 0 % 11 ≤ 10
    ∧ (rnd 0 % 11 = 10 → rnd 1 % 11 ≤ 10)
    ∧ (rnd 0 % 11 < 10 → rnd 0 % 11 + rnd 1 % (10 - rnd 0 % 11 + 1) ≤ 10)
    ∧ (fill_balls bowler true rnd).1.bowls
        = (bowler.bowls.set 19 (bowl (rnd 0) 10 true).1).set 20
            (if rnd 0 % 11 = 10 then bowl (rnd 1) 10 true
              else bowl (rnd 1) (10 - rnd 0 % 11) false).1 := by
  have h0 := bowl_snd (rnd 0) 10 true
  have hlt : rnd 0 % 11 < 11 := Nat.mod_lt _ (by decide)
  refine ⟨?_, by omega, fun _ => by omega, ?_, ?_⟩
  · unfold fill_balls
    simp only [if_true, List.map_cons, List.map_nil, h0, FINAL_FRAME]
    by_cases h10 : rnd 0 % 11 = 10
    · have hx : ¬ (10 - rnd 0 % 11 ≠ 0) := by omega
      simp only [if_neg hx, if_pos h10, bowl_snd]
    · have hx : 10 - rnd 0 % 11 ≠ 0 := by omega
      simp only [if_pos hx, if_neg h10, bowl_snd]
  · intro h
    have : rnd 1 % (10 - rnd 0 % 11 + 1) < 10 - rnd 0 % 11 + 1 :=
      Nat.mod_lt (rnd 1) (Nat.succ_pos (10 - rnd 0 % 11))
    omega
  · unfold fill_balls
    simp only [if_true, h0, FINAL_FRAME, update_score_bowls, Player.mark]
    by_cases h10 : rnd 0 % 11 = 10
    · have hx : ¬ (10 - rnd 0 % 11 ≠ 0) := by omega
      simp only [if_neg hx, if_pos h10]
    · have hx : 10 - rnd 0 % 11 ≠ 0 := by omega
      simp only [if_pos hx, if_neg h10]

/-- C13, on a first fill ball of 3 and the draw 8: 3 + 8 % 8 is at most 10. -/
theorem C13_fill_balls_after_strike_witness :
    3 % 11 + 8 % (10 - 3 % 11 + 1) ≤ 10 :=
  (C13_fill_balls_after_strike (Player.fresh "Ann") (fun k => [3, 8].getD k 0)).2.2.2.1
    (by decide)

theorem update_score_total (f : Nat) (p : Player) (x : Int) (n : Nat) :
    (update_score f p x n).total_s
      = p.total_s + x + (if credits_prev f p n then x else 0)
        + (if credits_prev2 f p n then x else 0) := by
  rw [update_score_eq]
  split_ifs <;> simp only [credit_total] <;> ring

/-! ## `update_score` on 32-bit `int`s -/

theorem to_int_of_is_int (x : Int) (h : is_int x) : to_int x = x := by
  unfold is_int at h
  unfold to_int
  omega

theorem to_int_is_int (x : Int) : is_int (to_int x) := by
  unfold is_int to_int
  omega

theorem to_int_add (a b : Int) : to_int (to_int a + b) = to_int (a + b) := by
  unfold to_int
  omega

@[simp] theorem credit_int_bowls (p : Player) (i : Nat) (x : Int) :
    (p.credit_int i x).bowls = p.bowls := rfl
@[simp] theorem credit_int_name (p : Player) (i : Nat) (x : Int) :
    (p.credit_int i x).name = p.name := rfl
@[simp] theorem credit_int_total (p : Player) (i : Nat) (x : Int) :
    (p.credit_int i x).total_s = to_int (p.total_s + x) := rfl
@[simp] theorem credit_int_length (p : Player) (i : Nat) (x : Int) :
    (p.credit_int i x).frame_s.length = p.frame_s.length := by simp [Player.credit_int]

theorem credit_int_getD (p : Player) (i j : Nat) (x : Int) (h : i < p.frame_s.length) :
    (p.credit_int i x).frame_s.getD j 0
      = if j = i then to_int (p.frame_s.getD j 0 + x) else p.frame_s.getD j 0 := by
  simp only [Player.credit_int, getD_set_int]
  by_cases hij : i = j
  · subst hij; simp [h]
  · have : ¬ j = i := fun e => hij e.symm
    simp [hij, this]

theorem credit_int_getD_ne (p : Player) (i j : Nat) (x : Int) (h : i ≠ j) :
    (p.credit_int i x).frame_s.getD j 0 = p.frame_s.getD j 0 := by
  simp only [Player.credit_int, getD_set_int]
  simp [h]

theorem credit_int_eq (p : Player) (i : Nat) (x : Int)
    (h1 : is_int (p.frame_s.getD i 0 + x)) (h2 : is_int (p.total_s + x)) :
    p.credit_int i x = p.credit i x := by
  unfold Player.credit_int Player.credit
  rw [to_int_of_is_int _ h1, to_int_of_is_int _ h2]

theorem update_score_int_eq (f : Nat) (p : Player) (x : Int) (n : Nat) :
    update_score_int f p x n
      = (if credits_prev2 f p n then
          (if credits_prev f p n then (p.credit_int f x).credit_int (f - 1) x
            else p.credit_int f x).credit_int (f - 2) x
        else if credits_prev f p n then (p.credit_int f x).credit_int (f - 1) x
          else p.credit_int f x) := by
  unfold update_score_int credits_prev credits_prev2
  simp only []
  by_cases h0 : f = 0
  · subst h0; simp
  · have e1 : (p.credit_int f x).frame_s.getD (f - 1) 0 = p.frame_s.getD (f - 1) 0 :=
      credit_int_getD_ne p f (f - 1) x (by omega)
    simp only [h0, if_false, e1, credit_int_bowls, Ne, not_false_eq_true, true_and]
    by_cases h1 : n = 1
    · subst h1
      simp only [if_true, true_and, not_true_eq_false, false_and, or_false, gt_iff_lt]
      by_cases c1 : p.frame_s.getD (f - 1) 0 = 10
      · simp only [c1, if_true, credit_int_bowls]
      · simp only [c1, if_false, credit_int_bowls]
    · simp only [h1, if_false, false_and, false_or, not_false_eq_true, true_and]

@[simp] theorem update_score_int_bowls (f : Nat) (p : Player) (x : Int) (n : Nat) :
    (update_score_int f p x n).bowls = p.bowls := by
  rw [update_score_int_eq]
  split_ifs <;> simp

@[simp] theorem update_score_int_name (f : Nat) (p : Player) (x : Int) (n : Nat) :
    (update_score_int f p x n).name = p.name := by
  rw [update_score_int_eq]
  split_ifs <;> simp

@[simp] theorem update_score_int_length (f : Nat) (p : Player) (x : Int) (n : Nat) :
    (update_score_int f p x n).frame_s.length = p.frame_s.length := by
  rw [update_score_int_eq]
  split_ifs <;> simp

theorem update_score_int_getD (f : Nat) (p : Player) (x : Int) (n i : Nat)
    (hl : p.frame_s.length = 10) (hf : f < 10) :
    (update_score_int f p x n).frame_s.getD i 0
      = if i = f ∨ (i + 1 = f ∧ credits_prev f p n) ∨ (i + 2 = f ∧ credits_prev2 f p n)
        then to_int (p.frame_s.getD i 0 + x) else p.frame_s.getD i 0 := by
  rw [update_score_int_eq]
  have h2 : credits_prev2 f p n → 1 < f := fun h => h.2.1
  have h1 : credits_prev f p n → f ≠ 0 := fun h => h.1
  have g1 : ∀ (q : Player) (k : Nat), q.frame_s.length = 10 → k < 10 →
      (q.credit_int k x).frame_s.getD i 0
        = if i = k then to_int (q.frame_s.getD i 0 + x) else q.frame_s.getD i 0 :=
    fun q k hq hk => credit_int_getD q k i x (by omega)
  have l1 : (p.credit_int f x).frame_s.length = 10 := by rw [credit_int_length, hl]
  have l2 : ((p.credit_int f x).credit_int (f - 1) x).frame_s.length = 10 := by
    rw [credit_int_length, l1]
  by_cases c2 : credits_prev2 f p n <;> by_cases c1 : credits_prev f p n
  · have := h2 c2
    simp only [c1, c2, if_true, and_true]
    rw [g1 _ (f - 2) l2 (by omega), g1 _ (f - 1) l1 (by omega), g1 _ f hl hf]
    split_ifs <;> first | rfl | omega
  · have := h2 c2
    simp only [c1, c2, if_true, if_false, and_true, and_false, false_or]
    rw [g1 _ (f - 2) l1 (by omega), g1 _ f hl hf]
    split_ifs <;> first | rfl | omega
  · have := h1 c1
    simp only [c1, c2, if_true, if_false, and_true, and_false, or_false]
    rw [g1 _ (f - 1) l1 (by omega), g1 _ f hl hf]
    split_ifs <;> first | rfl | omega
  · simp only [c1, c2, if_false, and_false, or_false]
    rw [g1 _ f hl hf]

theorem update_score_int_total (f : Nat) (p : Player) (x : Int) (n : Nat) :
    (update_score_int f p x n).total_s
      = to_int (p.total_s + x + (if credits_prev f p n then x else 0)
        + (if credits_prev2 f p n then x else 0)) := by
  rw [update_score_int_eq]
  split_ifs <;> simp only [credit_int_total, to_int_add, add_zero]

theorem update_score_int_exact (f : Nat) (p : Player) (x : Int) (n : Nat)
    (hf : ∀ i, is_int (p.frame_s.getD i 0 + x))
    (h1 : is_int (p.total_s + x)) (h2 : is_int (p.total_s + x + x))
    (h3 : is_int (p.total_s + x + x + x)) :
    update_score_int f p x n = update_score f p x n := by
  rw [update_score_int_eq, update_score_eq]
  have e0 : p.credit_int f x = p.credit f x := credit_int_eq p f x (hf f) h1
  by_cases c1 : credits_prev f p n
  · have hf0 : f ≠ 0 := c1.1
    have e1 : (p.credit f x).credit_int (f - 1) x = (p.credit f x).credit (f - 1) x := by
      apply credit_int_eq
      · rw [credit_getD_ne p f (f - 1) x (by omega)]
        exact hf (f - 1)
      · exact h2
    by_cases c2 : credits_prev2 f p n
    · have hf1 : 1 < f := c2.2.1
      simp only [c1, c2, if_true, e0, e1]
      apply credit_int_eq
      · rw [credit_getD_ne _ (f - 1) (f - 2) x (by omega),
          credit_getD_ne p f (f - 2) x (by omega)]
        exact hf (f - 2)
      · exact h3
    · simp only [c1, c2, if_true, if_false, e0, e1]
  · by_cases c2 : credits_prev2 f p n
    · have hf1 : 1 < f := c2.2.1
      simp only [c1, c2, if_true, if_false, e0]
      apply credit_int_eq
      · rw [credit_getD_ne p f (f - 2) x (by omega)]
        exact hf (f - 2)
      · exact h2
    · simp only [c1, c2, if_false, e0]

/-! ## The game on 32-bit `int`s -/

theorem mark_within (q : Player) (k : Nat) (c : Char) (B : Int) (h : q.within B) :
    (q.mark k c).within B := h

theorem update_score_within (B : Int) (q : Player) (f n : Nat) (x : Nat)
    (hq : q.frame_s.length = 10) (hf : f < 10) (hs : q.within B) (hx : x ≤ 10)
    (hB0 : 0 ≤ B) (hB : B + 30 < 2 ^ 31) :
    update_score_int f q x n = update_score f q x n
      ∧ (update_score f q x n).within (B + 30)
      ∧ (update_score f q x n).frame_s.length = 10 := by
  obtain ⟨hfs, ht0, ht⟩ := hs
  refine ⟨?_, ⟨?_, ?_, ?_⟩, by rw [update_score_length, hq]⟩
  · apply update_score_int_exact
    · intro i
      have := hfs i
      unfold is_int
      omega
    · unfold is_int; omega
    · unfold is_int; omega
    · unfold is_int; omega
  · intro i
    have := hfs i
    rw [update_score_getD f q x n i hq hf]
    split_ifs <;> omega
  · rw [update_score_total]
    split_ifs <;> omega
  · rw [update_score_total]
    split_ifs <;> omega

theorem within_mono (q : Player) (B C : Int) (h : q.within B) (hBC : B ≤ C) : q.within C :=
  ⟨fun i => ⟨(h.1 i).1, le_trans (h.1 i).2 hBC⟩, h.2.1, le_trans h.2.2 hBC⟩

theorem fill_balls_int_eq (B : Int) (q : Player) (strike : Bool) (rnd : Nat → Nat)
    (hq : q.frame_s.length = 10) (hs : q.within B) (hB0 : 0 ≤ B) (hB : B + 60 < 2 ^ 31) :
    fill_balls_int q strike rnd = fill_balls q strike rnd
      ∧ (fill_balls q strike rnd).1.within (B + 60)
      ∧ (fill_balls q strike rnd).1.frame_s.length = 10 := by
  have hF : FINAL_FRAME < 10 := by decide
  cases strike
  · obtain ⟨e1, w1, l1⟩ := update_score_within B (q.mark (2 * FINAL_FRAME + 2)
      (bowl (rnd 0) 10 true).1) FINAL_FRAME 3 (bowl (rnd 0) 10 true).2 hq hF hs
      (bowl_snd_le _ _ _) hB0 (by omega)
    unfold fill_balls_int fill_balls
    simp only [Bool.false_eq_true, if_false, e1]
    exact ⟨trivial, within_mono _ _ _ w1 (by omega), l1⟩
  · obtain ⟨e1, w1, l1⟩ := update_score_within B (q.mark (2 * FINAL_FRAME + 1)
      (bowl (rnd 0) 10 true).1) FINAL_FRAME 2 (bowl (rnd 0) 10 true).2 hq hF hs
      (bowl_snd_le _ _ _) hB0 (by omega)
    have hle : (if 10 - (bowl (rnd 0) 10 true).2 ≠ 0 then
        bowl (rnd 1) (10 - (bowl (rnd 0) 10 true).2) false else bowl (rnd 1) 10 true).2 ≤ 10 := by
      split_ifs
      · exact le_trans (bowl_snd_le _ _ _) (Nat.sub_le _ _)
      · exact bowl_snd_le _ _ _
    obtain ⟨e2, w2, l2⟩ := update_score_within (B + 30)
      ((update_score FINAL_FRAME (q.mark (2 * FINAL_FRAME + 1) (bowl (rnd 0) 10 true).1)
        (bowl (rnd 0) 10 true).2 2).mark (2 * FINAL_FRAME + 2)
          (if 10 - (bowl (rnd 0) 10 true).2 ≠ 0 then
            bowl (rnd 1) (10 - (bowl (rnd 0) 10 true).2) false else bowl (rnd 1) 10 true).1)
      FINAL_FRAME 3
      (if 10 - (bowl (rnd 0) 10 true).2 ≠ 0 then
        bowl (rnd 1) (10 - (bowl (rnd 0) 10 true).2) false else bowl (rnd 1) 10 true).2
      l1 hF w1 hle (by omega) (by omega)
    unfold fill_balls_int fill_balls
    simp only [if_true, e1, e2]
    exact ⟨trivial, within_mono _ _ _ w2 (by omega), l2⟩

theorem bowl_frame_int_eq (B : Int) (f : Nat) (q : Player) (rnd : Nat → Nat) (hf : f < 10)
    (hq : q.frame_s.length = 10) (hs : q.within B) (hB0 : 0 ≤ B) (hB : B + 120 < 2 ^ 31) :
    bowl_frame_int f q rnd = bowl_frame f q rnd
      ∧ (bowl_frame f q rnd).1.within (B + 120)
      ∧ (bowl_frame f q rnd).1.frame_s.length = 10 := by
  obtain ⟨e1, w1, l1⟩ := update_score_within B (q.mark (2 * f) (bowl (rnd 0) 10 true).1) f 1
    (bowl (rnd 0) 10 true).2 hq hf hs (bowl_snd_le _ _ _) hB0 (by omega)
  obtain ⟨e2, w2, l2⟩ := update_score_within (B + 30)
    ((update_score f (q.mark (2 * f) (bowl (rnd 0) 10 true).1) (bowl (rnd 0) 10 true).2 1).mark
      (2 * f + 1) (bowl (rnd 1) (10 - (bowl (rnd 0) 10 true).2) false).1) f 2
    (bowl (rnd 1) (10 - (bowl (rnd 0) 10 true).2) false).2 l1 hf w1
    (le_trans (bowl_snd_le _ _ _) (Nat.sub_le _ _)) (by omega) (by omega)
  unfold bowl_frame_int bowl_frame
  simp only [e1]
  by_cases h : 10 - (bowl (rnd 0) 10 true).2 ≠ 0
  · simp only [if_pos h, e2]
    split_ifs with hc
    · obtain ⟨e3, w3, l3⟩ := fill_balls_int_eq (B + 30 + 30) _
        (decide ((update_score f ((update_score f (q.mark (2 * f) (bowl (rnd 0) 10 true).1)
          (bowl (rnd 0) 10 true).2 1).mark (2 * f + 1)
            (bowl (rnd 1) (10 - (bowl (rnd 0) 10 true).2) false).1)
          (bowl (rnd 1) (10 - (bowl (rnd 0) 10 true).2) false).2 2).bowls.getD (2 * f) NUL = 'X'))
        (fun k => rnd (k + 2)) l2 w2 (by omega) (by omega)
      simp only [List.length_cons, List.length_nil, zero_add, Nat.reduceAdd, e3]
      exact ⟨trivial, within_mono _ _ _ w3 (by omega), l3⟩
    · exact ⟨rfl, within_mono _ _ _ w2 (by omega), l2⟩
  · simp only [if_neg h]
    split_ifs with hc
    · obtain ⟨e3, w3, l3⟩ := fill_balls_int_eq (B + 30) _
        (decide ((update_score f (q.mark (2 * f) (bowl (rnd 0) 10 true).1)
          (bowl (rnd 0) 10 true).2 1).bowls.getD (2 * f) NUL = 'X'))
        (fun k => rnd (k + 1)) l1 w1 (by omega) (by omega)
      simp only [List.length_cons, List.length_nil, zero_add, e3]
      exact ⟨trivial, within_mono _ _ _ w3 (by omega), l3⟩
    · exact ⟨rfl, within_mono _ _ _ w1 (by omega), l1⟩

theorem play_frames_int_succ (n : Nat) (p : Player) (rnd : Nat → Nat → Nat) :
    play_frames_int (n + 1) p rnd
      = ((bowl_frame_int n (play_frames_int n p rnd).1 (rnd n)).1,
          (play_frames_int n p rnd).2 ++ (bowl_frame_int n (play_frames_int n p rnd).1 (rnd n)).2)
      := by
  simp [play_frames_int, List.range_succ, List.foldl_append]

theorem play_frames_int_eq (name : String) (rnd : Nat → Nat → Nat) (n : Nat) (hn : n ≤ 10) :
    play_frames_int n (Player.fresh name) rnd = play_frames n (Player.fresh name) rnd
      ∧ (play_frames n (Player.fresh name) rnd).1.within (120 * n)
      ∧ (play_frames n (Player.fresh name) rnd).1.frame_s.length = 10 := by
  induction n with
  | zero =>
    refine ⟨rfl, ⟨fun i => ?_, ?_, ?_⟩, rfl⟩
    · have h : (Player.fresh name).frame_s.getD i 0 = 0 := by
        show (List.replicate 10 (0 : Int)).getD i 0 = 0
        rw [List.getD_eq_getElem?_getD, List.getElem?_replicate]
        split_ifs <;> rfl
      show 0 ≤ (Player.fresh name).frame_s.getD i 0
        ∧ (Player.fresh name).frame_s.getD i 0 ≤ 120 * ((0 : Nat) : Int)
      rw [h]
      exact ⟨le_refl _, by norm_num⟩
    · exact le_refl _
    · show (0 : Int) ≤ 120 * ((0 : Nat) : Int)
      norm_num
  | succ k ih =>
    obtain ⟨e, w, l⟩ := ih (by omega)
    obtain ⟨e1, w1, l1⟩ := bowl_frame_int_eq (120 * k) k
      (play_frames k (Player.fresh name) rnd).1 (rnd k) (by omega) l w (by omega)
      (by
        have : (k : Int) ≤ 9 := by omega
        norm_num
        omega)
    rw [play_frames_int_succ, play_frames_succ, e, e1]
    refine ⟨rfl, within_mono _ _ _ w1 (by push_cast; omega), l1⟩

/-- C14: for every player with ten frame scores, every frame in 0..9, every
pins value and ball number, `update_score`, with the `+=` of the code on `int`s
of 32 bits, adds the pins to `frame_s[frame]` and adds them once, twice or
three times to `total_s`. When `frame = 0` or the ball number is 3 it adds them
to `total_s` once and changes no other `frame_s` entry. In every case `name`
and `bowls` stay as they are, `frame_s` keeps its length, and no `frame_s`
entry other than those at `frame`, `frame - 1` and `frame - 2` changes. Every
sum is the `int` sum `to_int`, which is the exact sum whenever that is a value
of `int`; and where no sum leaves the range of `int` the result is the one of
`update_score` on unbounded integers. In a game no sum leaves that range: the
frames played with the `int` sums are the frames played with unbounded
integers, ball by ball. -/
theorem C14_update_score_effect (p : Player) (frame : Nat) (pins : Int) (ball_number : Nat)
    (hl : p.frame_s.length = 10) (hf : frame < 10) :
    (update_score_int frame p pins ball_number).frame_s.getD frame 0
        = to_int (p.frame_s.getD frame 0 + pins)
    ∧ (∃ k : Int, 1 ≤ k ∧ k ≤ 3
        ∧ (update_score_int frame p pins ball_number).total_s = to_int (p.total_s + k * pins))
    ∧ ((frame = 0 ∨ ball_number = 3) →
        (update_score_int frame p pins ball_number).total_s = to_int (p.total_s + pins)
        ∧ ∀ i, i ≠ frame →
          (update_score_int frame p pins ball_number).frame_s.getD i 0 = p.frame_s.getD i 0)
    ∧ (update_score_int frame p pins ball_number).name = p.name
    ∧ (update_score_int frame p pins ball_number).bowls = p.bowls
    ∧ (update_score_int frame p pins ball_number).frame_s.length = p.frame_s.length
    ∧ (∀ i, i ≠ frame → i + 1 ≠ frame → i + 2 ≠ frame →
        (update_score_int frame p pins ball_number).frame_s.getD i 0 = p.frame_s.getD i 0)
    ∧ (∀ x, is_int x → to_int x = x)
    ∧ (is_int (p.frame_s.getD frame 0 + pins) →
        (update_score_int frame p pins ball_number).frame_s.getD frame 0
          = p.frame_s.getD frame 0 + pins)
    ∧ (is_int (p.total_s + pins) → is_int (p.total_s + 2 * pins) →
        is_int (p.total_s + 3 * pins) →
        ∃ k : Int, 1 ≤ k ∧ k ≤ 3
          ∧ (update_score_int frame p pins ball_number).total_s = p.total_s + k * pins)
    ∧ ((∀ i, is_int (p.frame_s.getD i 0 + pins)) → is_int (p.total_s + pins) →
        is_int (p.total_s + pins + pins) → is_int (p.total_s + pins + pins + pins) →
        update_score_int frame p pins ball_number = update_score frame p pins ball_number)
    ∧ (∀ (name : String) (rnd : Nat → Nat → Nat) (n : Nat), n ≤ 10 →
        play_frames_int n (Player.fresh name) rnd = play_frames n (Player.fresh name) rnd) := by
  have hg := fun i => update_score_int_getD frame p pins ball_number i hl hf
  have ht := update_score_int_total frame p pins ball_number
  have hk : ∃ k : Int, 1 ≤ k ∧ k ≤ 3
      ∧ (update_score_int frame p pins ball_number).total_s = to_int (p.total_s + k * pins) := by
    rw [ht]
    by_cases c1 : credits_prev frame p ball_number <;>
      by_cases c2 : credits_prev2 frame p ball_number
    · exact ⟨3, by omega, by omega, by simp only [c1, c2, if_true]; congr 1; ring⟩
    · exact ⟨2, by omega, by omega, by simp only [c1, c2, if_true, if_false]; congr 1; ring⟩
    · exact ⟨2, by omega, by omega, by simp only [c1, c2, if_true, if_false]; congr 1; ring⟩
    · exact ⟨1, by omega, by omega, by simp only [c1, c2, if_false]; congr 1; ring⟩
  have h0 : (update_score_int frame p pins ball_number).frame_s.getD frame 0
      = to_int (p.frame_s.getD frame 0 + pins) := by
    rw [hg frame, if_pos (Or.inl rfl)]
  refine ⟨h0, hk, ?_, update_score_int_name _ _ _ _, update_score_int_bowls _ _ _ _,
    update_score_int_length _ _ _ _, ?_, to_int_of_is_int, ?_, ?_,
    update_score_int_exact frame p pins ball_number,
    fun name rnd n hn => (play_frames_int_eq name rnd n hn).1⟩
  · intro h
    have c1 : ¬ credits_prev frame p ball_number := by
      unfold credits_prev
      rcases h with h | h
      · simp [h]
      · simp [h]
    have c2 : ¬ credits_prev2 frame p ball_number := by
      unfold credits_prev2
      rcases h with h | h
      · simp [h]
      · simp [h]
    refine ⟨by rw [ht]; simp only [c1, c2, if_false, add_zero], ?_⟩
    intro i hi
    rw [hg i]
    simp only [hi, c1, c2, and_false, or_self, if_false]
  · intro i h0 h1 h2
    rw [hg i]
    simp only [h0, h1, h2, false_and, or_self, if_false]
  · intro hfit
    rw [h0, to_int_of_is_int _ hfit]
  · intro f1 f2 f3
    obtain ⟨k, k1, k3, hk⟩ := hk
    refine ⟨k, k1, k3, ?_⟩
    rw [hk]
    apply to_int_of_is_int
    have hk' : k = 1 ∨ k = 2 ∨ k = 3 := by omega
    rcases hk' with e | e | e <;> subst e
    · simpa using f1
    · exact f2
    · exact f3

/-- C14, on `frame_s[0] = 1` and 2147483647 pins in frame 0: the `int` sum is
-2147483648; and on a strike in frame 1 after a strike in frame 0: `frame_s[1]`
becomes 10. -/
theorem C14_update_score_effect_witness :
    (update_score_int 0 ((Player.fresh "Ann").credit 0 1) 2147483647 1).frame_s.getD 0 0
        = -2147483648
    ∧ (update_score_int 1 (update_score_int 0 (Player.fresh "Ann") 10 1) 10 1).frame_s.getD 1 0
        = 10 :=
  ⟨((C14_update_score_effect ((Player.fresh "Ann").credit 0 1) 0 2147483647 1 (by decide)
      (by decide)).1).trans (by decide),
    ((C14_update_score_effect (update_score_int 0 (Player.fresh "Ann") 10 1) 1 10 1
      (by decide) (by decide)).1).trans (by decide)⟩

/-! ## `declare_winner` -/

theorem count_one_unique (P : Player → Bool) (l : List Player) (a b : Player)
    (h : l.countP P = 1) (ha : a ∈ l) (hb : b ∈ l) (pa : P a = true) (pb : P b = true) :
    a = b := by
  induction l with
  | nil => simp at ha
  | cons x t ih =>
    rw [List.countP_cons] at h
    simp only [List.mem_cons] at ha hb
    by_cases px : P x = true
    · simp only [px, if_true] at h
      have h0 : t.countP P = 0 := by omega
      rw [List.countP_eq_zero] at h0
      have hax : a = x := by
        rcases ha with ha | ha
        · exact ha
        · exact absurd pa (h0 a ha)
      have hbx : b = x := by
        rcases hb with hb | hb
        · exact hb
        · exact absurd pb (h0 b hb)
      rw [hax, hbx]
    · simp only [px, if_false, add_zero] at h
      have ha' : a ∈ t := by
        rcases ha with ha | ha
        · rw [ha] at pa; exact absurd pa px
        · exact ha
      have hb' : b ∈ t := by
        rcases hb with hb | hb
        · rw [hb] at pb; exact absurd pb px
        · exact hb
      exact ih (by simpa using h) ha' hb'

theorem winner_step_inv (l : List Player) (s : WinnerState) (x : Player)
    (h : WinnerInv l s) (hx : 0 ≤ x.total_s) :
    WinnerInv (l ++ [x]) (declare_winner_step s x) := by
  unfold declare_winner_step
  by_cases c1 : x.total_s = s.max_score
  · rw [if_pos c1]
    have hne : l ≠ [] := by
      intro hl
      have := h.empty hl
      omega
    obtain ⟨q, hq, hqm, hqn⟩ := h.best hne
    refine ⟨fun e => by simp at e, h.low, ?_, fun _ => ⟨q, by simp [hq], hqm, hqn⟩, ?_⟩
    · intro y hy
      simp only [List.mem_append, List.mem_singleton] at hy
      rcases hy with hy | hy
      · exact h.bound y hy
      · rw [hy, c1]
    · have hpos : 0 < l.countP (fun q => decide (q.total_s = s.max_score)) :=
        List.countP_pos_iff.mpr ⟨q, hq, by simpa using hqm⟩
      simp only [List.countP_append, List.countP_cons, List.countP_nil, c1, decide_True,
        if_true, true_iff]
      omega
  · rw [if_neg c1]
    by_cases c2 : x.total_s > s.max_score
    · rw [if_pos c2]
      refine ⟨fun e => by simp at e, by simp only; omega, ?_, fun _ => ⟨x, by simp, rfl, rfl⟩, ?_⟩
      · intro y hy
        simp only [List.mem_append, List.mem_singleton] at hy
        rcases hy with hy | hy
        · have := h.bound y hy
          simp only
          omega
        · rw [hy]
      · have h0 : l.countP (fun q => decide (q.total_s = x.total_s)) = 0 := by
          rw [List.countP_eq_zero]
          intro y hy
          have := h.bound y hy
          simp only [decide_eq_true_eq]
          omega
        simp only [List.countP_append, List.countP_cons, List.countP_nil, h0, decide_True,
          if_true]
        constructor
        · intro hf; exact absurd hf (by simp)
        · intro hf; omega
    · rw [if_neg c2]
      have hne : l ≠ [] := by
        intro hl
        have := h.empty hl
        omega
      obtain ⟨q, hq, hqm, hqn⟩ := h.best hne
      refine ⟨fun e => by simp at e, h.low, ?_, fun _ => ⟨q, by simp [hq], hqm, hqn⟩, ?_⟩
      · intro y hy
        simp only [List.mem_append, List.mem_singleton] at hy
        rcases hy with hy | hy
        · exact h.bound y hy
        · rw [hy]; omega
      · rw [h.tied]
        simp only [List.countP_append, List.countP_cons, List.countP_nil, c1, decide_False]
        simp

theorem winner_loop_inv (r : List Player) (l : List Player) (s : WinnerState)
    (h : WinnerInv l s) (hr : ∀ q, q ∈ r → 0 ≤ q.total_s) :
    WinnerInv (l ++ r) (r.foldl declare_winner_step s) := by
  induction r generalizing l s with
  | nil => simpa using h
  | cons x t ih =>
    have h1 := winner_step_inv l s x h (hr x (List.mem_cons_self _ _))
    have h2 := ih (l ++ [x]) (declare_winner_step s x) h1
      (fun q hq => hr q (List.mem_cons_of_mem _ hq))
    simpa using h2

/-- C15: for every list of players with non-negative total scores and every
player `w` of the list whose `total_s` is the maximum, `declare_winner`
announces a tie exactly when at least two players of the list have that
`total_s`, and announces the name of `w` when `w` is the only one. -/
theorem C15_declare_winner (num_p : Nat) (p_list : List Player) (winner0 : String)
    (w : Player) (hlen : p_list.length = num_p)
    (hnn : ∀ q, q ∈ p_list → 0 ≤ q.total_s) (hw : w ∈ p_list)
    (hmax : ∀ q, q ∈ p_list → q.total_s ≤ w.total_s) :
    (declare_winner num_p p_list winner0 = Verdict.tie
        ↔ 2 ≤ p_list.countP (fun q => decide (q.total_s = w.total_s)))
    ∧ (p_list.countP (fun q => decide (q.total_s = w.total_s)) = 1 →
        declare_winner num_p p_list winner0 = Verdict.won w.name) := by
  have h0 : WinnerInv [] { winner := winner0, max_score := -1, tie := false } :=
    ⟨fun _ => rfl, by simp, by simp, fun e => absurd rfl e, by simp⟩
  have inv := winner_loop_inv p_list [] _ h0 hnn
  rw [List.nil_append] at inv
  have hne : p_list ≠ [] := List.ne_nil_of_mem hw
  obtain ⟨q, hq, hqm, hqn⟩ := inv.best hne
  have hmx : (p_list.foldl declare_winner_step
      { winner := winner0, max_score := -1, tie := false }).max_score = w.total_s := by
    have a := inv.bound w hw
    have b := hmax q hq
    omega
  have htake : p_list.take num_p = p_list := by
    rw [← hlen]; exact List.take_length _
  have htied := inv.tied
  rw [hmx] at htied
  unfold declare_winner
  simp only [htake]
  constructor
  · rw [← htied]
    by_cases ht : (p_list.foldl declare_winner_step
        { winner := winner0, max_score := -1, tie := false }).tie = true
    · simp [ht]
    · simp [ht]
  · intro h1
    have ht : ¬ (p_list.foldl declare_winner_step
        { winner := winner0, max_score := -1, tie := false }).tie = true := by
      rw [htied]; omega
    rw [if_neg ht, hqn]
    have : q = w := count_one_unique _ p_list q w h1 hq hw
      (by simp only [decide_eq_true_eq]; omega) (by simp)
    rw [this]

/-- C15, on three players with the totals 120, 150 and 90: the second wins. -/
theorem C15_declare_winner_witness :
    declare_winner 3
        [⟨"Ann", [], [], 120⟩, ⟨"Bob", [], [], 150⟩, ⟨"Cy", [], [], 90⟩] ""
      = Verdict.won "Bob" :=
  (C15_declare_winner 3 [⟨"Ann", [], [], 120⟩, ⟨"Bob", [], [], 150⟩, ⟨"Cy", [], [], 90⟩] ""
    ⟨"Bob", [], [], 150⟩ (by decide) (by decide) (by decide) (by decide)).2 (by decide)

end Bowling

namespace BitExtremes

theorem power_loop_fst (t two ol : Nat) :
    (power_loop t two ol).1 = if t = 0 then two else two * 2 ^ t % 2 ^ 64 := by
  induction t generalizing two ol with
  | zero => rfl
  | succ k ih =>
    rw [power_loop, ih]
    simp only [Nat.succ_ne_zero, if_false]
    by_cases hk : k = 0
    · subst hk; simp
    · simp only [hk, if_false]
      rw [Nat.mul_mod, Nat.mod_mod, ← Nat.mul_mod, pow_succ]
      congr 1
      ring

theorem power_loop_snd (t two ol : Nat) (h : two < 2 ^ 64) :
    (power_loop t two ol).2 = if t = 0 then ol else two * 2 ^ (t - 1) % 2 ^ 64 := by
  induction t generalizing two ol with
  | zero => rfl
  | succ k ih =>
    rw [power_loop, ih _ _ (Nat.mod_lt _ (by positivity))]
    simp only [Nat.succ_ne_zero, if_false, Nat.add_sub_cancel]
    by_cases hk : k = 0
    · subst hk
      have h' : two % 2 ^ 64 = two := Nat.mod_eq_of_lt h
      simp only [if_true, Nat.zero_add, Nat.sub_self, pow_zero, mul_one, h']
    · simp only [hk, if_false]
      rw [Nat.mul_mod, Nat.mod_mod, ← Nat.mul_mod]
      congr 1
      have : k = (k - 1) + 1 := by omega
      conv_rhs => rw [this, pow_succ]
      ring

/-- C16: for every `numBits` `n` from 1 to 64 the loop leaves `2 ^ n` modulo
`2 ^ 64` in `twoToTheNumBits` (0 for `n = 64`) and `2 ^ (n - 1)` in
`oneLessPowerOfTwo`, and the program computes `maxUnsigned = 2 ^ n - 1`,
`maxSigned = 2 ^ (n - 1) - 1` and `minSigned = -2 ^ (n - 1)`; for `n = 8` these
are 255, 127 and -128. -/
theorem C16_bit_extremes (n garbage : Nat) (h1 : 1 ≤ n) (h64 : n ≤ 64) :
    (power_loop n 1 garbage).1 = 2 ^ n % 2 ^ 64
    ∧ (power_loop n 1 garbage).2 = 2 ^ (n - 1)
    ∧ (bit_extremes n garbage).maxUnsigned = 2 ^ n - 1
    ∧ (bit_extremes n garbage).maxSigned = 2 ^ (n - 1) - 1
    ∧ (bit_extremes n garbage).minSigned = -2 ^ (n - 1)
    ∧ bit_extremes 8 garbage = ⟨255, 127, -128⟩
    ∧ (power_loop 64 1 garbage).1 = 0 := by
  have hn : ¬ n = 0 := by omega
  have e1 : (power_loop n 1 garbage).1 = 2 ^ n % 2 ^ 64 := by
    rw [power_loop_fst]; simp [hn]
  have e2 : (power_loop n 1 garbage).2 = 2 ^ (n - 1) % 2 ^ 64 := by
    rw [power_loop_snd _ _ _ (by norm_num)]; simp [hn]
  have key : ∀ m g, 1 ≤ m → m ≤ 64 →
      (power_loop m 1 g).1 = 2 ^ m % 2 ^ 64 ∧ (power_loop m 1 g).2 = 2 ^ (m - 1) % 2 ^ 64 := by
    intro m g hm1 hm64
    have hm : ¬ m = 0 := by omega
    constructor
    · rw [power_loop_fst]; simp [hm]
    · rw [power_loop_snd _ _ _ (by norm_num)]; simp [hm]
  refine ⟨e1, ?_, ?_, ?_, ?_, ?_, ?_⟩
  · rw [e2]
    interval_cases n <;> norm_num
  · simp only [bit_extremes, e1]
    interval_cases n <;> norm_num
  · simp only [bit_extremes, e2, to_signed]
    interval_cases n <;> norm_num
  · simp only [bit_extremes, e2, to_signed]
    interval_cases n <;> norm_num
  · have k8 := key 8 garbage (by norm_num) (by norm_num)
    simp only [bit_extremes, k8.1, k8.2, to_signed]
    norm_num
  · rw [(key 64 garbage (by norm_num) (by norm_num)).1]
    norm_num

/-- C16, on `numBits = 8`. -/
theorem C16_bit_extremes_witness :
    (bit_extremes 8 0).maxUnsigned = 2 ^ 8 - 1
    ∧ (bit_extremes 8 0).maxSigned = 2 ^ (8 - 1) - 1
    ∧ (bit_extremes 8 0).minSigned = -2 ^ (8 - 1) :=
  ⟨(C16_bit_extremes 8 0 (by decide) (by decide)).2.2.1,
    (C16_bit_extremes 8 0 (by decide) (by decide)).2.2.2.1,
    (C16_bit_extremes 8 0 (by decide) (by decide)).2.2.2.2.1⟩

end BitExtremes

namespace Wheel

theorem swap_if_less_01 (a b : Player) (t : List Player) :
    swap_if_less (a :: b :: t) 0 1
      = if a.total_score < b.total_score then b :: a :: t else a :: b :: t := by
  simp [swap_if_less]

theorem swap_if_less_12 (a b c : Player) (t : List Player) :
    swap_if_less (a :: b :: c :: t) 1 2
      = if b.total_score < c.total_score then a :: c :: b :: t else a :: b :: c :: t := by
  simp [swap_if_less]

theorem sort_three (a b c : Player) :
    sort_by_total_score 3 [a, b, c]
      = if a.total_score < b.total_score then
          (if a.total_score < c.total_score then
            (if b.total_score < c.total_score then [c, b, a] else [b, c, a])
          else [b, a, c])
        else
          (if b.total_score < c.total_score then
            (if a.total_score < c.total_score then [c, a, b] else [a, c, b])
          else [a, b, c]) := by
  simp only [sort_by_total_score, if_true, swap_if_less_01]
  split_ifs <;> simp only [swap_if_less_12] <;> split_ifs <;> simp only [swap_if_less_01] <;>
    split_ifs <;> first | rfl | omega

theorem sort_two (a b : Player) :
    sort_by_total_score 2 [a, b]
      = if a.total_score < b.total_score then [b, a] else [a, b] := by
  simp [sort_by_total_score, swap_if_less_01]

theorem sort_one (a : Player) : sort_by_total_score 1 [a] = [a] := by
  simp [sort_by_total_score]

theorem length_cases (num_p : Nat) (l : List Player) (h1 : 1 ≤ num_p) (h3 : num_p ≤ 3)
    (hl : l.length = num_p) :
    (num_p = 1 ∧ ∃ a, l = [a]) ∨ (num_p = 2 ∧ ∃ a b, l = [a, b])
      ∨ (num_p = 3 ∧ ∃ a b c, l = [a, b, c]) := by
  rcases l with _ | ⟨a, _ | ⟨b, _ | ⟨c, _ | ⟨d, t⟩⟩⟩⟩
  · simp at hl; omega
  · left; exact ⟨by simpa using hl.symm, a, rfl⟩
  · right; left; exact ⟨by simpa using hl.symm, a, b, rfl⟩
  · right; right; exact ⟨by simpa using hl.symm, a, b, c, rfl⟩
  · simp only [List.length_cons] at hl; omega

theorem sort_spec (num_p : Nat) (standings : List Player) (h1 : 1 ≤ num_p)
    (h3 : num_p ≤ 3) (hl : standings.length = num_p) :
    (sort_by_total_score num_p standings).Perm standings
    ∧ (sort_by_total_score num_p standings).Pairwise
        (fun a b => b.total_score ≤ a.total_score) := by
  rcases length_cases num_p standings h1 h3 hl with ⟨hn, a, rfl⟩ | ⟨hn, a, b, rfl⟩
      | ⟨hn, a, b, c, rfl⟩
  · subst hn
    rw [sort_one]
    exact ⟨List.Perm.refl _, by simp⟩
  · subst hn
    rw [sort_two]
    split_ifs with h
    · exact ⟨List.Perm.swap _ _ _, by simp; omega⟩
    · exact ⟨List.Perm.refl _, by simp; omega⟩
  · subst hn
    rw [sort_three]
    split_ifs <;> constructor <;>
      first
        | exact List.Perm.refl _
        | (rw [List.perm_iff_count]; intro x; simp only [List.count_cons, List.count_nil]; omega)
        | (simp only [List.pairwise_cons, List.mem_cons, List.mem_singleton, List.not_mem_nil,
            forall_eq_or_imp, forall_eq, IsEmpty.forall_iff, implies_true, List.Pairwise.nil,
            and_true, or_false]
           omega)

/-- C17: for every `num_p` from 1 to 3 and every array `standings` of `num_p`
players, the array after `sort_by_total_score` is a permutation of the array
before, and its `total_score` never increases from one entry to a later one. -/
theorem C17_sort_by_total_score (num_p : Nat) (standings : List Player) (h1 : 1 ≤ num_p)
    (h3 : num_p ≤ 3) (hl : standings.length = num_p) :
    (sort_by_total_score num_p standings).Perm standings
    ∧ (sort_by_total_score num_p standings).Pairwise
        (fun a b => b.total_score ≤ a.total_score) :=
  sort_spec num_p standings h1 h3 hl

/-- C17, on three players with the scores 5, 9 and 7. -/
theorem C17_sort_by_total_score_witness :
    (sort_by_total_score 3 [⟨1, 5, 0⟩, ⟨2, 9, 0⟩, ⟨3, 7, 0⟩]).Perm
        [⟨1, 5, 0⟩, ⟨2, 9, 0⟩, ⟨3, 7, 0⟩]
    ∧ (sort_by_total_score 3 [⟨1, 5, 0⟩, ⟨2, 9, 0⟩, ⟨3, 7, 0⟩]).Pairwise
        (fun a b => b.total_score ≤ a.total_score) :=
  C17_sort_by_total_score 3 [⟨1, 5, 0⟩, ⟨2, 9, 0⟩, ⟨3, 7, 0⟩] (by decide) (by decide)
    (by decide)

theorem count_one_eq {α : Type} (P : α → Bool) (l : List α) (a b : α)
    (h : l.countP P = 1) (ha : a ∈ l) (hb : b ∈ l) (pa : P a = true) (pb : P b = true) :
    a = b := by
  induction l with
  | nil => simp at ha
  | cons x t ih =>
    rw [List.countP_cons] at h
    simp only [List.mem_cons] at ha hb
    by_cases px : P x = true
    · simp only [px, if_true] at h
      have h0 : t.countP P = 0 := by omega
      rw [List.countP_eq_zero] at h0
      have hax : a = x := by
        rcases ha with ha | ha
        · exact ha
        · exact absurd pa (h0 a ha)
      have hbx : b = x := by
        rcases hb with hb | hb
        · exact hb
        · exact absurd pb (h0 b hb)
      rw [hax, hbx]
    · simp only [px, if_false, add_zero] at h
      have ha' : a ∈ t := by
        rcases ha with ha | ha
        · rw [ha] at pa; exact absurd pa px
        · exact ha
      have hb' : b ∈ t := by
        rcases hb with hb | hb
        · rw [hb] at pb; exact absurd pb px
        · exact hb
      exact ih (by simpa using h) ha' hb'

theorem standings_result (num_p : Nat) (p : List Player) (fs : Bool) (w : Player)
    (h1 : 1 ≤ num_p) (h3 : num_p ≤ 3) (hl : p.length = num_p) (hw : w ∈ p)
    (hmax : ∀ q, q ∈ p → q.total_score ≤ w.total_score) :
    (2 ≤ p.countP (fun q => decide (q.total_score = w.total_score)) →
        (print_standings num_p p fs).1 = 0)
    ∧ (p.countP (fun q => decide (q.total_score = w.total_score)) = 1 →
        (print_standings num_p p fs).1 = w.number) := by
  have htake : p.take num_p = p := by rw [← hl]; exact List.take_length _
  obtain ⟨hperm, hsorted⟩ := sort_spec num_p p h1 h3 hl
  have hcount := hperm.countP_eq (fun q => decide (q.total_score = w.total_score))
  have hlen := hperm.length_eq
  unfold print_standings
  simp only [htake]
  generalize sort_by_total_score num_p p = s at hperm hsorted hcount hlen ⊢
  have hws : w ∈ s := hperm.symm.subset hw
  rcases s with _ | ⟨x, rest⟩
  · simp at hws
  · have hx := List.pairwise_cons.mp hsorted
    have hxp : x ∈ p := hperm.subset (List.mem_cons_self _ _)
    have hxw : x.total_score = w.total_score := by
      have a := hmax x hxp
      have b : w.total_score ≤ x.total_score := by
        simp only [List.mem_cons] at hws
        rcases hws with hws | hws
        · rw [hws]
        · exact hx.1 w hws
      omega
    rw [List.countP_cons] at hcount
    simp only [hxw, decide_True, if_true] at hcount
    rcases rest with _ | ⟨y, r⟩
    · have hn : num_p = 1 := by simp at hlen; omega
      have hn' : ¬ (num_p > 1) := by omega
      simp only [List.countP_nil, Nat.zero_add] at hcount
      simp only [hn', false_and, if_false, List.getD_cons_zero]
      refine ⟨fun h => by omega, fun h => ?_⟩
      have : x = w := count_one_eq _ p x w h hxp hw (by simpa using hxw) (by simp)
      rw [this]
    · have hn' : num_p > 1 := by simp at hlen; omega
      have hy := List.pairwise_cons.mp hx.2
      have hyx : y.total_score ≤ x.total_score := hx.1 y (List.mem_cons_self _ _)
      simp only [hn', true_and, List.getD_cons_zero, List.getD_cons_succ]
      rw [List.countP_cons] at hcount
      by_cases hxy : x.total_score = y.total_score
      · have hyw : y.total_score = w.total_score := by omega
        simp only [hyw, decide_True, if_true] at hcount
        simp only [hxy, if_true]
        exact ⟨fun _ => trivial, fun h => by omega⟩
      · have hyw : ¬ y.total_score = w.total_score := by omega
        have h0 : r.countP (fun q => decide (q.total_score = w.total_score)) = 0 := by
          rw [List.countP_eq_zero]
          intro z hz
          have := hy.1 z hz
          simp only [decide_eq_true_eq]
          omega
        simp only [hyw, decide_False, Bool.false_eq_true, if_false, h0] at hcount
        simp only [hxy, if_false]
        refine ⟨fun h => by omega, fun h => ?_⟩
        have : x = w := count_one_eq _ p x w h hxp hw (by simpa using hxw) (by simp)
        rw [this]

/-- C18: for every `num_p` from 1 to 3, every array `p` of `num_p` players and
every player `w` of it whose `total_score` is the highest, `print_standings`
returns 0 when two or more players have that `total_score` and the number of
`w` when `w` is the only one; as the constructor numbers the players from 1,
it returns 0 exactly when two or more players share the highest score. The
array `p` is the same after the call. -/
theorem C18_print_standings (num_p : Nat) (p : List Player) (final_score : Bool) (w : Player)
    (h1 : 1 ≤ num_p) (h3 : num_p ≤ 3) (hl : p.length = num_p) (hw : w ∈ p)
    (hmax : ∀ q, q ∈ p → q.total_score ≤ w.total_score) :
    (2 ≤ p.countP (fun q => decide (q.total_score = w.total_score)) →
        (print_standings num_p p final_score).1 = 0)
    ∧ (p.countP (fun q => decide (q.total_score = w.total_score)) = 1 →
        (print_standings num_p p final_score).1 = w.number)
    ∧ ((∀ q, q ∈ p → q.number ≠ 0) →
        ((print_standings num_p p final_score).1 = 0
          ↔ 2 ≤ p.countP (fun q => decide (q.total_score = w.total_score))))
    ∧ (print_standings num_p p final_score).2 = p := by
  have h := standings_result num_p p final_score w h1 h3 hl hw hmax
  refine ⟨h.1, h.2, ?_, ?_⟩
  · intro hnum
    refine ⟨fun h0 => ?_, h.1⟩
    by_contra hc
    have hpos : 0 < p.countP (fun q => decide (q.total_score = w.total_score)) :=
      List.countP_pos_iff.mpr ⟨w, hw, by simp⟩
    have h1' := h.2 (by omega)
    rw [h0] at h1'
    exact hnum w hw h1'.symm
  · unfold print_standings
    simp only []
    split_ifs <;> rfl

/-- C18, on three players with the scores 5, 9 and 7: player 2 is returned. -/
theorem C18_print_standings_witness :
    (print_standings 3 [⟨1, 5, 0⟩, ⟨2, 9, 0⟩, ⟨3, 7, 0⟩] true).1 = 2 :=
  (C18_print_standings 3 [⟨1, 5, 0⟩, ⟨2, 9, 0⟩, ⟨3, 7, 0⟩] true ⟨2, 9, 0⟩
    (by decide) (by decide) (by decide) (by decide) (by decide)).2.1 (by decide)

/-! ## `check_phrase_validity` -/

theorem forall_range_succ (Q : Nat → Prop) (i n : Nat) :
    (∀ j, i ≤ j → j < i + (n + 1) → Q j)
      ↔ Q i ∧ ∀ j, i + 1 ≤ j → j < i + 1 + n → Q j := by
  constructor
  · intro h
    exact ⟨h i (Nat.le_refl _) (by omega), fun j h1 h2 => h j (by omega) (by omega)⟩
  · rintro ⟨h0, h⟩ j h1 h2
    rcases Nat.eq_or_lt_of_le h1 with e | e
    · rw [← e]; exact h0
    · exact h j (by omega) (by omega)

theorem exists_range_succ (Q : Nat → Prop) (i n : Nat) :
    (∃ j, i ≤ j ∧ j < i + (n + 1) ∧ Q j)
      ↔ Q i ∨ ∃ j, i + 1 ≤ j ∧ j < i + 1 + n ∧ Q j := by
  constructor
  · rintro ⟨j, h1, h2, hq⟩
    rcases Nat.eq_or_lt_of_le h1 with e | e
    · left; rw [e]; exact hq
    · right; exact ⟨j, by omega, by omega, hq⟩
  · rintro (h | ⟨j, h1, h2, hq⟩)
    · exact ⟨i, Nat.le_refl _, by omega, h⟩
    · exact ⟨j, by omega, by omega, hq⟩

theorem not_alphabetic_space : is_alphabetic ' ' = false := by decide

theorem nested_continue (P C1 C2 C3 C4 : Prop) [Decidable P] [Decidable C1] [Decidable C2]
    [Decidable C3] [Decidable C4] (b : Bool) :
    (if P then (if C1 then b else if C2 then b else if C3 then b
        else if C4 then b else false)
      else if C4 then b else false) = true
      ↔ ((P ∧ C1) ∨ (P ∧ C2) ∨ (P ∧ C3) ∨ C4) ∧ b = true := by
  by_cases hP : P <;> by_cases h1 : C1 <;> by_cases h2 : C2 <;> by_cases h3 : C3 <;>
    by_cases h4 : C4 <;> simp [hP, h1, h2, h3, h4]

theorem check_step (s : List Char) (n i : Nat) (letter : Bool) :
    check_loop s (n + 1) i letter = true
      ↔ accepted_at s i
        ∧ check_loop s n (i + 1) (letter || is_alphabetic (s.getD i NUL)) = true := by
  rw [check_loop]
  by_cases ha : is_alphabetic (s.getD i NUL) = true
  · have hsp : s.getD i NUL ≠ ' ' := by
      intro e
      rw [e, not_alphabetic_space] at ha
      exact absurd ha (by simp)
    simp only [ha, true_or, if_true, hsp, ne_eq, not_false_eq_true, Bool.or_true, accepted_at,
      true_and]
  · have ha' : is_alphabetic (s.getD i NUL) = false := by simpa using ha
    by_cases hsp : s.getD i NUL = ' '
    · have hacc : accepted_at s i := Or.inr (Or.inl hsp)
      rw [if_pos (Or.inr hsp), if_neg (fun h : s.getD i NUL ≠ ' ' => h hsp), ha', Bool.or_false]
      simp only [hacc, true_and]
    · rw [if_neg (fun h => h.elim ha hsp), ha', Bool.or_false]
      have hacc : accepted_at s i
          ↔ (((i ≠ 0 ∧ is_alphabetic (s.getD (i - 1) NUL) = true)
              ∧ (i = s.length - 1
                ∧ (s.getD i NUL = '.' ∨ s.getD i NUL = '!' ∨ s.getD i NUL = '?')))
            ∨ ((i ≠ 0 ∧ is_alphabetic (s.getD (i - 1) NUL) = true)
              ∧ (i ≠ s.length - 1 ∧ s.getD (i + 1) NUL = ' '
                ∧ (s.getD i NUL = ',' ∨ s.getD i NUL = ';' ∨ s.getD i NUL = ':')))
            ∨ ((i ≠ 0 ∧ is_alphabetic (s.getD (i - 1) NUL) = true)
              ∧ (i ≠ s.length - 1 ∧ s.getD i NUL = '-'
                ∧ is_alphabetic (s.getD (i + 1) NUL) = true))
            ∨ (s.getD i NUL = APOSTROPHE
              ∧ ((i ≠ 0 ∧ is_alphabetic (s.getD (i - 1) NUL) = true)
                ∨ (i ≠ s.length - 1 ∧ is_alphabetic (s.getD (i + 1) NUL) = true)))) := by
        unfold accepted_at
        constructor
        · rintro (h | h | h)
          · exact absurd h ha
          · exact absurd h hsp
          · exact h
        · intro h
          exact Or.inr (Or.inr h)
      rw [hacc]
      exact nested_continue _ _ _ _ _ _

theorem check_loop_iff (s : List Char) (n i : Nat) (letter : Bool) :
    check_loop s n i letter = true
      ↔ (∀ j, i ≤ j → j < i + n → accepted_at s j)
        ∧ (letter = true
          ∨ ∃ j, i ≤ j ∧ j < i + n ∧ is_alphabetic (s.getD j NUL) = true) := by
  induction n generalizing i letter with
  | zero =>
    rw [check_loop]
    constructor
    · intro h
      exact ⟨fun j h1 h2 => by omega, Or.inl h⟩
    · rintro ⟨_, h | ⟨j, h1, h2, _⟩⟩
      · exact h
      · omega
  | succ k ih =>
    rw [check_step, ih, forall_range_succ, exists_range_succ]
    simp only [Bool.or_eq_true]
    constructor
    · rintro ⟨h0, h1, h2⟩
      refine ⟨⟨h0, h1⟩, ?_⟩
      rcases h2 with (h2 | h2) | h2
      · exact Or.inl h2
      · exact Or.inr (Or.inl h2)
      · exact Or.inr (Or.inr h2)
    · rintro ⟨⟨h0, h1⟩, h2⟩
      refine ⟨h0, h1, ?_⟩
      rcases h2 with h2 | h2 | h2
      · exact Or.inl (Or.inl h2)
      · exact Or.inl (Or.inr h2)
      · exact Or.inr h2

theorem check_phrase_validity_iff (s : List Char) :
    check_phrase_validity s = true
      ↔ (∀ j, j < s.length → accepted_at s j)
        ∧ ∃ j, j < s.length ∧ is_alphabetic (s.getD j NUL) = true := by
  unfold check_phrase_validity
  rw [check_loop_iff]
  simp only [Nat.zero_le, true_implies, Nat.zero_add, Bool.false_eq_true, false_or, true_and]

theorem mem_iff_getD (s : List Char) (c : Char) :
    c ∈ s ↔ ∃ j, j < s.length ∧ s.getD j NUL = c := by
  rw [List.mem_iff_getElem]
  constructor
  · rintro ⟨j, hj, e⟩
    exact ⟨j, hj, by rw [List.getD_eq_getElem _ _ hj]; exact e⟩
  · rintro ⟨j, hj, e⟩
    exact ⟨j, hj, by rw [List.getD_eq_getElem _ _ hj] at e; exact e⟩

theorem accepted_allowed (s : List Char) (i : Nat) (h : accepted_at s i) :
    allowed_char (s.getD i NUL) := by
  unfold accepted_at at h
  unfold allowed_char
  rcases h with h | h | ⟨_, _, h | h | h⟩ | ⟨_, _, _, h | h | h⟩ | ⟨_, _, h, _⟩ | ⟨h, _⟩
  all_goals simp only [h, true_or, or_true]

theorem allowed_code (c : Char) (h : allowed_char c) :
    (65 ≤ c.toNat ∧ c.toNat ≤ 90) ∨ (97 ≤ c.toNat ∧ c.toNat ≤ 122) ∨ c.toNat = 32
      ∨ c.toNat = 46 ∨ c.toNat = 33 ∨ c.toNat = 63 ∨ c.toNat = 44 ∨ c.toNat = 59
      ∨ c.toNat = 58 ∨ c.toNat = 45 ∨ c.toNat = 39 := by
  unfold allowed_char at h
  rcases h with h | h | h | h | h | h | h | h | h | h
  · simp only [is_alphabetic, Bool.decide_or, Bool.decide_and, Bool.or_eq_true,
      Bool.and_eq_true, decide_eq_true_eq] at h
    rcases h with h | h
    · exact Or.inl h
    · exact Or.inr (Or.inl h)
  all_goals (subst h; decide)

/-- C19, refuted as stated: the phrase `a.b` holds only letters and the mark
`.` and has a letter, and `check_phrase_validity` returns false on it, as the
`.` is not the last character. -/
theorem C19_counterexample :
    (∀ c ∈ ['a', '.', 'b'], allowed_char c)
      ∧ (∃ c ∈ ['a', '.', 'b'], is_alphabetic c = true)
      ∧ check_phrase_validity ['a', '.', 'b'] = false := by
  decide

/-- C19, amended: for every phrase that has at least one letter and in which
every character is a letter, a space, or a punctuation mark in its accepted
place (`.`, `!` or `?` last and right after a letter; `,`, `;` or `:` right
after a letter and right before a space; `-` between two letters; an
apostrophe right after or right before a letter), `check_phrase_validity`
returns true. -/
theorem C19_placed_phrase_valid (s : List Char)
    (hletter : ∃ c ∈ s, is_alphabetic c = true)
    (hplaced : ∀ i, i < s.length → accepted_at s i) :
    check_phrase_validity s = true := by
  rw [check_phrase_validity_iff]
  refine ⟨hplaced, ?_⟩
  obtain ⟨c, hc, ha⟩ := hletter
  obtain ⟨j, hj, e⟩ := (mem_iff_getD s c).mp hc
  exact ⟨j, hj, by rw [e]; exact ha⟩

set_option maxRecDepth 100000 in
/-- C19, amended, on the phrase `Hello, world!`. -/
theorem C19_placed_phrase_valid_witness :
    check_phrase_validity
      ['H', 'e', 'l', 'l', 'o', ',', ' ', 'w', 'o', 'r', 'l', 'd', '!'] = true :=
  C19_placed_phrase_valid
    ['H', 'e', 'l', 'l', 'o', ',', ' ', 'w', 'o', 'r', 'l', 'd', '!']
    (by decide) (by decide)

/-- C20: for every phrase `s`, when `check_phrase_validity` returns true `s` has
at least one ASCII letter and each of its characters is an ASCII letter, a
space or one of `. ! ? , ; : -` and the apostrophe; the empty phrase is
rejected, and so is `s` when it holds a digit or an underscore. -/
theorem C20_valid_phrase_chars (s : List Char) :
    (check_phrase_validity s = true →
        (∃ c ∈ s, is_alphabetic c = true) ∧ ∀ c ∈ s, allowed_char c)
      ∧ check_phrase_validity [] = false
      ∧ ((∃ c ∈ s, ('0'.toNat ≤ c.toNat ∧ c.toNat ≤ '9'.toNat) ∨ c = '_') →
          check_phrase_validity s = false) := by
  have hmain : check_phrase_validity s = true →
      (∃ c ∈ s, is_alphabetic c = true) ∧ ∀ c ∈ s, allowed_char c := by
    intro h
    rw [check_phrase_validity_iff] at h
    obtain ⟨hacc, j, hj, ha⟩ := h
    refine ⟨⟨s.getD j NUL, (mem_iff_getD s _).mpr ⟨j, hj, rfl⟩, ha⟩, ?_⟩
    intro c hc
    obtain ⟨i, hi, e⟩ := (mem_iff_getD s c).mp hc
    rw [← e]
    exact accepted_allowed s i (hacc i hi)
  refine ⟨hmain, rfl, ?_⟩
  rintro ⟨c, hc, hbad⟩
  cases hv : check_phrase_validity s with
  | false => rfl
  | true =>
    exfalso
    have hcode := allowed_code c ((hmain hv).2 c hc)
    have h0 : '0'.toNat = 48 := rfl
    have h9 : '9'.toNat = 57 := rfl
    rcases hbad with hd | hu
    · omega
    · have hu' : c.toNat = 95 := by rw [hu]; rfl
      omega

/-- C20, on the phrase `it's`, which is accepted, and the phrase `a1`, which
holds a digit. -/
theorem C20_valid_phrase_chars_witness :
    ((∃ c ∈ ['i', 't', APOSTROPHE, 's'], is_alphabetic c = true)
        ∧ ∀ c ∈ ['i', 't', APOSTROPHE, 's'], allowed_char c)
      ∧ check_phrase_validity ['a', '1'] = false :=
  ⟨(C20_valid_phrase_chars ['i', 't', APOSTROPHE, 's']).1 (by decide),
    (C20_valid_phrase_chars ['a', '1']).2.2 ⟨'1', by decide, Or.inl (by decide)⟩⟩

/-! ## `decode_phrase` -/

theorem toNat_eq_iff (a b : Char) : a.toNat = b.toNat ↔ a = b := by
  constructor
  · intro h
    rw [← Char.ofNat_toNat a, ← Char.ofNat_toNat b, h]
  · intro h
    rw [h]

theorem toNat_ofNat_small (k : Nat) (h : k < 256) : (Char.ofNat k).toNat = k := by
  interval_cases k <;> rfl

theorem toUpper_code (c : Char) (h1 : 'a'.toNat ≤ c.toNat) (h2 : c.toNat ≤ 'z'.toNat) :
    c.toUpper.toNat = c.toNat - 32 := by
  have ha : 'a'.toNat = 97 := rfl
  have hz : 'z'.toNat = 122 := rfl
  rw [ha] at h1
  rw [hz] at h2
  unfold Char.toUpper
  simp only [ge_iff_le, h1, h2, and_self, if_true]
  exact toNat_ofNat_small _ (by omega)

/-- The test of `decode_phrase` for a lowercase `letter`. -/
theorem decode_test (c a : Char) (h1 : 'a'.toNat ≤ c.toNat) (h2 : c.toNat ≤ 'z'.toNat) :
    (c = a ∨ (c.toNat : Int) - 32 = (a.toNat : Int)) ↔ (a = c ∨ a = c.toUpper) := by
  have hu := toUpper_code c h1 h2
  have ha : 'a'.toNat = 97 := rfl
  rw [ha] at h1
  rw [← toNat_eq_iff a c.toUpper, hu]
  constructor
  · rintro (h | h)
    · exact Or.inl h.symm
    · right; omega
  · rintro (h | h)
    · exact Or.inl h.symm
    · right; omega

theorem getD_set_default {α : Type} (l : List α) (i j : Nat) (v d : α) :
    (l.set i v).getD j d = if i = j ∧ i < l.length then v else l.getD j d := by
  simp only [List.getD_eq_getElem?_getD, List.getElem?_set]
  by_cases h : i = j
  · subst h
    by_cases h2 : i < l.length
    · simp [h2]
    · simp [h2, List.getElem?_eq_none (Nat.le_of_not_lt h2)]
  · simp [h]

theorem decode_loop_count (answer : List Char) (letter : Char) (n i : Nat) (board : List Char)
    (instances : Int) (h : i + n = answer.length) :
    (decode_loop answer letter n i board instances).1
      = instances + ((answer.drop i).countP
          (fun a => decide (letter = a ∨ (letter.toNat : Int) - 32 = (a.toNat : Int))) : Nat) := by
  induction n generalizing i board instances with
  | zero =>
    have : answer.length ≤ i := by omega
    simp [decode_loop, List.drop_eq_nil_of_le this]
  | succ k ih =>
    have hi : i < answer.length := by omega
    rw [decode_loop, List.drop_eq_getElem_cons hi, List.countP_cons,
      List.getD_eq_getElem _ _ hi]
    by_cases hc : letter = answer[i] ∨ (letter.toNat : Int) - 32 = (answer[i].toNat : Int)
    · rw [if_pos hc, ih _ _ _ (by omega)]
      simp only [hc, decide_True, if_true]
      push_cast
      ring
    · rw [if_neg hc, ih _ _ _ (by omega)]
      simp only [hc, decide_False, Bool.false_eq_true, if_false, Nat.add_zero]

theorem decode_loop_board (answer : List Char) (letter : Char) (n i : Nat) (board : List Char)
    (instances : Int) :
    (decode_loop answer letter n i board instances).2.length = board.length
    ∧ ∀ j, (decode_loop answer letter n i board instances).2.getD j NUL
        = if (i ≤ j ∧ j < i + n ∧ j < board.length)
            ∧ (letter = answer.getD j NUL
              ∨ (letter.toNat : Int) - 32 = ((answer.getD j NUL).toNat : Int))
          then answer.getD j NUL else board.getD j NUL := by
  induction n generalizing i board instances with
  | zero =>
    refine ⟨rfl, fun j => ?_⟩
    rw [decode_loop, if_neg]
    intro h
    omega
  | succ k ih =>
    rw [decode_loop]
    split_ifs with hc
    · obtain ⟨hl, hg⟩ := ih (i + 1) (board.set i (answer.getD i NUL)) (instances + 1)
      refine ⟨by rw [hl, List.length_set], fun j => ?_⟩
      rw [hg j, List.length_set, getD_set_default]
      by_cases hij : i = j
      · subst hij
        by_cases hb : i < board.length
        · have e2 : (i ≤ i ∧ i < i + (k + 1) ∧ i < board.length) := by omega
          simp only [e2, hc, true_and, and_self, if_true, hb, ite_self]
        · have e1 : ¬ (i + 1 ≤ i ∧ i < i + 1 + k ∧ i < board.length) := by omega
          have e2 : ¬ (i ≤ i ∧ i < i + (k + 1) ∧ i < board.length) := by omega
          simp only [e1, e2, false_and, if_false, hb, and_false]
      · have e : (i + 1 ≤ j ∧ j < i + 1 + k ∧ j < board.length)
            ↔ (i ≤ j ∧ j < i + (k + 1) ∧ j < board.length) := by omega
        simp only [e, hij, false_and, if_false]
    · obtain ⟨hl, hg⟩ := ih (i + 1) board instances
      refine ⟨hl, fun j => ?_⟩
      rw [hg j]
      by_cases hij : i = j
      · subst hij
        have e1 : ¬ (i + 1 ≤ i ∧ i < i + 1 + k ∧ i < board.length) := by omega
        simp only [e1, hc, false_and, and_false, if_false]
      · have e : (i + 1 ≤ j ∧ j < i + 1 + k ∧ j < board.length)
            ↔ (i ≤ j ∧ j < i + (k + 1) ∧ j < board.length) := by omega
        simp only [e]

/-- C21: for every `board` and `answer` of equal length and every lowercase
letter `c`, `decode_phrase` returns the number of positions of `answer` that
hold `c` or the uppercase form of `c`, the board keeps its length, it holds
`answer[i]` at each of those positions afterwards, and every other position of
the board is as before. -/
theorem C21_decode_phrase (board answer : List Char) (c : Char)
    (hlen : board.length = answer.length)
    (h1 : 'a'.toNat ≤ c.toNat) (h2 : c.toNat ≤ 'z'.toNat) :
    (decode_phrase board answer c).1
        = (answer.countP (fun a => decide (a = c ∨ a = c.toUpper)) : Nat)
    ∧ (decode_phrase board answer c).2.length = board.length
    ∧ (∀ i, i < answer.length → (answer.getD i NUL = c ∨ answer.getD i NUL = c.toUpper) →
        (decode_phrase board answer c).2.getD i NUL = answer.getD i NUL)
    ∧ (∀ i, ¬ (answer.getD i NUL = c ∨ answer.getD i NUL = c.toUpper) →
        (decode_phrase board answer c).2.getD i NUL = board.getD i NUL) := by
  unfold decode_phrase
  obtain ⟨hl, hg⟩ := decode_loop_board answer c answer.length 0 board 0
  refine ⟨?_, hl, ?_, ?_⟩
  · rw [decode_loop_count _ _ _ _ _ _ (by omega), List.drop_zero, zero_add]
    congr 2
    funext a
    rw [decide_eq_decide]
    exact decode_test c a h1 h2
  · intro i hi hm
    rw [hg i, if_pos]
    exact ⟨⟨Nat.zero_le _, by omega, by omega⟩, (decode_test c _ h1 h2).mpr hm⟩
  · intro i hm
    rw [hg i, if_neg]
    intro h
    exact hm ((decode_test c _ h1 h2).mp h.2)

/-- C21, on the board `___` and the answer `Aba` with the letter `a`: two
instances, and the board becomes `A_a`. -/
theorem C21_decode_phrase_witness :
    (decode_phrase ['_', '_', '_'] ['A', 'b', 'a'] 'a').1
        = (['A', 'b', 'a'].countP (fun a => decide (a = 'a' ∨ a = 'a'.toUpper)) : Nat)
    ∧ (decode_phrase ['_', '_', '_'] ['A', 'b', 'a'] 'a').2.getD 0 NUL = 'A'
    ∧ (decode_phrase ['_', '_', '_'] ['A', 'b', 'a'] 'a').2.getD 1 NUL = '_' :=
  ⟨(C21_decode_phrase ['_', '_', '_'] ['A', 'b', 'a'] 'a' (by decide) (by decide)
      (by decide)).1,
    (C21_decode_phrase ['_', '_', '_'] ['A', 'b', 'a'] 'a' (by decide) (by decide)
      (by decide)).2.2.1 0 (by decide) (by decide),
    (C21_decode_phrase ['_', '_', '_'] ['A', 'b', 'a'] 'a' (by decide) (by decide)
      (by decide)).2.2.2 1 (by decide)⟩

/-! ## `case_insensitive_compare` -/

theorem toLower_code (c : Char) :
    c.toLower.toNat = if 65 ≤ c.toNat ∧ c.toNat ≤ 90 then c.toNat + 32 else c.toNat := by
  unfold Char.toLower
  simp only [ge_iff_le]
  split_ifs with h
  · exact toNat_ofNat_small _ (by omega)
  · rfl

theorem is_alphabetic_iff (c : Char) :
    is_alphabetic c = true ↔ (65 ≤ c.toNat ∧ c.toNat ≤ 90) ∨ (97 ≤ c.toNat ∧ c.toNat ≤ 122) := by
  have hA : 'A'.toNat = 65 := rfl
  have hZ : 'Z'.toNat = 90 := rfl
  have ha : 'a'.toNat = 97 := rfl
  have hz : 'z'.toNat = 122 := rfl
  simp only [is_alphabetic, hA, hZ, ha, hz, Bool.decide_or, Bool.decide_and, Bool.or_eq_true,
    Bool.and_eq_true, decide_eq_true_eq]

/-- The test of `case_insensitive_compare` on one pair of characters. -/
theorem compare_test (a b : Char) :
    (a = b ∨ (is_alphabetic a = true ∧ is_alphabetic b = true
        ∧ ((a.toNat : Int) + 32 = (b.toNat : Int) ∨ (a.toNat : Int) - 32 = (b.toNat : Int))))
      ↔ a.toLower = b.toLower := by
  rw [← toNat_eq_iff a.toLower b.toLower, toLower_code, toLower_code, is_alphabetic_iff,
    is_alphabetic_iff, ← toNat_eq_iff a b]
  split_ifs <;> omega

theorem compare_step (s1 s2 : List Char) (n i : Nat) :
    compare_loop s1 s2 (n + 1) i = true
      ↔ (s1.getD i NUL).toLower = (s2.getD i NUL).toLower
        ∧ compare_loop s1 s2 n (i + 1) = true := by
  rw [compare_loop, ← compare_test]
  by_cases he : s1.getD i NUL = s2.getD i NUL
  · rw [if_neg (not_not.mpr he)]
    exact ⟨fun h => ⟨Or.inl he, h⟩, fun h => h.2⟩
  · rw [if_pos he]
    by_cases ha : is_alphabetic (s1.getD i NUL) = true ∧ is_alphabetic (s2.getD i NUL) = true
    · rw [if_pos ha]
      by_cases hd : ((s1.getD i NUL).toNat : Int) + 32 = ((s2.getD i NUL).toNat : Int)
          ∨ ((s1.getD i NUL).toNat : Int) - 32 = ((s2.getD i NUL).toNat : Int)
      · rw [if_pos hd]
        exact ⟨fun h => ⟨Or.inr ⟨ha.1, ha.2, hd⟩, h⟩, fun h => h.2⟩
      · rw [if_neg hd]
        refine ⟨fun h => absurd h (by decide), ?_⟩
        rintro ⟨h | ⟨_, _, h⟩, _⟩
        · exact absurd h he
        · exact absurd h hd
    · rw [if_neg ha]
      refine ⟨fun h => absurd h (by decide), ?_⟩
      rintro ⟨h | ⟨h1, h2, _⟩, _⟩
      · exact absurd h he
      · exact absurd ⟨h1, h2⟩ ha

theorem compare_loop_iff (s1 s2 : List Char) (n i : Nat) :
    compare_loop s1 s2 n i = true
      ↔ ∀ j, i ≤ j → j < i + n → (s1.getD j NUL).toLower = (s2.getD j NUL).toLower := by
  induction n generalizing i with
  | zero =>
    rw [compare_loop]
    exact ⟨fun _ j h1 h2 => by omega, fun _ => rfl⟩
  | succ k ih =>
    rw [compare_step, ih, forall_range_succ]

/-- C22: for every two strings `s1` and `s2` of equal length,
`case_insensitive_compare` returns true exactly when the two strings are equal
once every ASCII uppercase letter is replaced by its lowercase form, every
other character being kept as it is. -/
theorem C22_case_insensitive_compare (s1 s2 : List Char) (hlen : s1.length = s2.length) :
    case_insensitive_compare s1 s2 = true ↔ s1.map Char.toLower = s2.map Char.toLower := by
  unfold case_insensitive_compare
  rw [compare_loop_iff]
  constructor
  · intro h
    apply List.ext_getElem
    · rw [List.length_map, List.length_map, hlen]
    · intro j h1 h2
      rw [List.length_map] at h1 h2
      have := h j (Nat.zero_le _) (by omega)
      rw [List.getD_eq_getElem _ _ h1, List.getD_eq_getElem _ _ h2] at this
      rw [List.getElem_map, List.getElem_map]
      exact this
  · intro h j _ hj
    rw [Nat.zero_add] at hj
    have hj2 : j < s2.length := by omega
    rw [List.getD_eq_getElem _ _ hj, List.getD_eq_getElem _ _ hj2]
    have e : (s1.map Char.toLower)[j]? = (s2.map Char.toLower)[j]? := by rw [h]
    rw [List.getElem?_map, List.getElem?_map, List.getElem?_eq_getElem hj,
      List.getElem?_eq_getElem hj2] at e
    exact Option.some.inj e

/-- C22, on the strings `Hi, Bob` and `hI, boB`. -/
theorem C22_case_insensitive_compare_witness :
    case_insensitive_compare ['H', 'i', ',', ' ', 'B', 'o', 'b']
      ['h', 'I', ',', ' ', 'b', 'o', 'B'] = true :=
  (C22_case_insensitive_compare ['H', 'i', ',', ' ', 'B', 'o', 'b']
    ['h', 'I', ',', ' ', 'b', 'o', 'B'] (by decide)).mpr (by decide)

end Wheel

namespace Adventure

theorem swap_perm (l : List Int) (i j : Nat) (hi : i < l.length) (hj : j < l.length) :
    ((l.set i (l.getD j 0)).set j (l.getD i 0)).Perm l := by
  rw [List.perm_iff_count]
  intro b
  rw [List.getD_eq_getElem _ _ hi, List.getD_eq_getElem _ _ hj]
  have hj1 : j < (l.set i l[j]).length := by rw [List.length_set]; exact hj
  rw [List.count_set _ _ _ _ hj1, List.count_set _ _ _ _ hi, List.getElem_set]
  have hx : l[i] = b → 1 ≤ l.count b := fun h =>
    List.count_pos_iff.mpr (h ▸ List.getElem_mem _)
  have hy : l[j] = b → 1 ≤ l.count b := fun h =>
    List.count_pos_iff.mpr (h ▸ List.getElem_mem _)
  simp only [beq_iff_eq]
  by_cases hij : i = j
  · subst hij
    simp only [if_true]
    split_ifs with h1
    · have := hx h1; omega
    · omega
  · simp only [hij, if_false]
    split_ifs with h1 h2 h2
    · have := hx h1; omega
    · have := hx h1; omega
    · have := hy h2; omega
    · omega

theorem shuffle_step_perm (rand : Nat → Nat) (l : List Int) (i : Nat) (hi : i < 14)
    (hl : 14 ≤ l.length) : (shuffle_step rand l i).Perm l := by
  have hr : rand i % 14 < 14 := Nat.mod_lt _ (by decide)
  exact swap_perm l i (rand i % 14) (by omega) (by omega)

theorem shuffle_loop_perm (rand : Nat → Nat) (n : Nat) (hn : n ≤ 14) (l : List Int)
    (hl : 14 ≤ l.length) : ((List.range n).foldl (shuffle_step rand) l).Perm l := by
  induction n with
  | zero => exact List.Perm.refl _
  | succ k ih =>
    rw [List.range_succ, List.foldl_append, List.foldl_cons, List.foldl_nil]
    have h := ih (by omega)
    exact (shuffle_step_perm rand _ k (by omega) (by rw [h.length_eq]; exact hl)).trans h

/-- C23: for every array `obs_numbering` of 14 elements (the same holds with
more than 14) and every sequence of random draws, the array
after `shuffle_obstacles` is a permutation of the array before: every value
occurs in it as many times as before. When the array before is 0, 1, ..., 13
each of these numbers occurs exactly once afterwards. -/
theorem C23_shuffle_obstacles (obs_numbering : List Int) (rand : Nat → Nat)
    (hl : 14 ≤ obs_numbering.length) :
    (shuffle_obstacles obs_numbering rand).Perm obs_numbering
    ∧ (∀ x, (shuffle_obstacles obs_numbering rand).count x = obs_numbering.count x)
    ∧ (obs_numbering = [0, 1, 2, 3, 4, 5, 6, 7, 8, 9, 10, 11, 12, 13] →
        ∀ k : Int, 0 ≤ k → k ≤ 13 → (shuffle_obstacles obs_numbering rand).count k = 1) := by
  have hp : (shuffle_obstacles obs_numbering rand).Perm obs_numbering :=
    shuffle_loop_perm rand 14 (Nat.le_refl _) obs_numbering hl
  refine ⟨hp, fun x => hp.count_eq x, ?_⟩
  intro h0 k hk0 hk13
  rw [hp.count_eq k, h0]
  interval_cases k <;> decide

/-- C23, on the array 0, 1, ..., 13 with the draws 5, 8, 11, ... -/
theorem C23_shuffle_obstacles_witness :
    (shuffle_obstacles [0, 1, 2, 3, 4, 5, 6, 7, 8, 9, 10, 11, 12, 13] (fun k => 3 * k + 5)).Perm
      [0, 1, 2, 3, 4, 5, 6, 7, 8, 9, 10, 11, 12, 13] :=
  (C23_shuffle_obstacles [0, 1, 2, 3, 4, 5, 6, 7, 8, 9, 10, 11, 12, 13] (fun k => 3 * k + 5)
    (by decide)).1

end Adventure

namespace Bowling

/-! ## Bonus credits of `update_score` -/

theorem strike_shows_ten (name : String) (rnd : Nat → Nat → Nat) (g : Nat) (hg : g < 9)
    (hs : (bowl (rnd g 0) 10 true).2 = 10) :
    (play_frames (g + 1) (Player.fresh name) rnd).1.frame_s.getD g 0 = 10 := by
  have hne : g ≠ FINAL_FRAME := by simp only [FINAL_FRAME]; omega
  have hfb := frame_balls_new name rnd g (by omega)
  rw [frame_pins_normal g hne, if_pos hs, hs] at hfb
  rw [frame_score_own name rnd g (by omega), hfb]
  rfl

/-- C24: for every player with ten frame scores, every frame `f` in 1..9 and
every pins value, `update_score` with ball number 1, with the `+=` of the code
on `int`s of 32 bits, adds the pins to `frame_s[f]`, adds them to `frame_s[f-1]`
exactly when `frame_s[f-1]` is 10 before the call, and, when `f ≥ 2`, adds them
to `frame_s[f-2]` exactly when `bowls[2(f-1)]` and `bowls[2(f-2)]` are both `X`;
`total_s` grows by the pins once for each of these additions. Every sum is the
`int` sum `to_int`, and where no sum leaves the range of `int` the result is
the one of `update_score` on unbounded integers. In a game, played with the
`int` sums, after a strike in frame `f-1` the bowler comes to frame `f` with
`frame_s[f-1] = 10`, so the pins are added. -/
theorem C24_first_ball_bonus (p : Player) (f : Nat) (pins : Int)
    (hl : p.frame_s.length = 10) (h1 : 1 ≤ f) (h9 : f ≤ 9) :
    (update_score_int f p pins 1).frame_s.getD f 0 = to_int (p.frame_s.getD f 0 + pins)
    ∧ (update_score_int f p pins 1).frame_s.getD (f - 1) 0
        = (if p.frame_s.getD (f - 1) 0 = 10 then to_int (p.frame_s.getD (f - 1) 0 + pins)
            else p.frame_s.getD (f - 1) 0)
    ∧ (2 ≤ f → (update_score_int f p pins 1).frame_s.getD (f - 2) 0
        = (if p.bowls.getD (2 * (f - 1)) NUL = 'X' ∧ p.bowls.getD (2 * (f - 2)) NUL = 'X'
            then to_int (p.frame_s.getD (f - 2) 0 + pins) else p.frame_s.getD (f - 2) 0))
    ∧ (update_score_int f p pins 1).total_s
        = to_int (p.total_s + pins + (if p.frame_s.getD (f - 1) 0 = 10 then pins else 0)
          + (if 2 ≤ f ∧ p.bowls.getD (2 * (f - 1)) NUL = 'X'
                ∧ p.bowls.getD (2 * (f - 2)) NUL = 'X' then pins else 0))
    ∧ ((∀ i, is_int (p.frame_s.getD i 0 + pins)) → is_int (p.total_s + pins) →
        is_int (p.total_s + pins + pins) → is_int (p.total_s + pins + pins + pins) →
        update_score_int f p pins 1 = update_score f p pins 1)
    ∧ (∀ (name : String) (rnd : Nat → Nat → Nat), (bowl (rnd (f - 1) 0) 10 true).2 = 10 →
        (play_frames_int f (Player.fresh name) rnd).1.frame_s.getD (f - 1) 0 = 10) := by
  have hg := fun i => update_score_int_getD f p pins 1 i hl (by omega)
  have ht := update_score_int_total f p pins 1
  have c1 : credits_prev f p 1 ↔ p.frame_s.getD (f - 1) 0 = 10 := by
    unfold credits_prev
    constructor
    · rintro ⟨_, h | h⟩
      · exact h.2
      · exact absurd rfl h.1
    · intro h
      exact ⟨by omega, Or.inl ⟨rfl, h⟩⟩
  have c2 : credits_prev2 f p 1
      ↔ (2 ≤ f ∧ p.bowls.getD (2 * (f - 1)) NUL = 'X'
          ∧ p.bowls.getD (2 * (f - 2)) NUL = 'X') := by
    unfold credits_prev2
    constructor
    · rintro ⟨_, h, hx⟩
      exact ⟨h, hx⟩
    · rintro ⟨h, hx⟩
      exact ⟨rfl, h, hx⟩
  refine ⟨?_, ?_, ?_, ?_, update_score_int_exact f p pins 1, ?_⟩
  · rw [hg f, if_pos (Or.inl rfl)]
  · rw [hg (f - 1)]
    have n0 : ¬ f - 1 = f := by omega
    have n1 : f - 1 + 1 = f := by omega
    have n2 : ¬ f - 1 + 2 = f := by omega
    simp only [n0, n1, n2, c1, false_and, true_and, false_or, or_false]
  · intro h2
    rw [hg (f - 2)]
    have n0 : ¬ f - 2 = f := by omega
    have n1 : ¬ f - 2 + 1 = f := by omega
    have n2 : f - 2 + 2 = f := by omega
    simp only [n0, n1, n2, c2, h2, false_and, true_and, false_or]
  · rw [ht]
    simp only [c1, c2]
  · intro name rnd hs
    have e : f = (f - 1) + 1 := by omega
    have h := strike_shows_ten name rnd (f - 1) (by omega) hs
    rw [← e] at h
    rw [(play_frames_int_eq name rnd f (by omega)).1]
    exact h

/-- C24, on a player with `frame_s[0] = 10` and the strike mark in frame 0: the
first ball of frame 1, with 7 pins, makes `frame_s[0]` 17. -/
theorem C24_first_ball_bonus_witness :
    (update_score_int 1 ((Player.fresh "Ann").mark 0 'X' |>.credit 0 10) 7 1).frame_s.getD
        (1 - 1) 0 = 17 :=
  ((C24_first_ball_bonus ((Player.fresh "Ann").mark 0 'X' |>.credit 0 10) 1 7 (by decide)
    (by decide) (by decide)).2.1).trans (by decide)

theorem fill_balls_first (bowler : Player) (rnd : Nat → Nat) :
    (fill_balls bowler true rnd).2.head?
      = some ⟨9, 2, (bowl (rnd 0) 10 true).2,
          update_score 9 (bowler.mark 19 (bowl (rnd 0) 10 true).1) (bowl (rnd 0) 10 true).2 2⟩ := by
  unfold fill_balls
  simp only [if_true, List.head?_cons, FINAL_FRAME]

theorem second_ball_prev (f : Nat) (q : Player) (d : Char) (y : Int)
    (hq : q.frame_s.length = 10) (h1 : 1 ≤ f) (h9 : f ≤ 9) :
    (update_score f (q.mark (2 * f + 1) d) y 2).frame_s.getD (f - 1) 0
      = q.frame_s.getD (f - 1) 0 + (if q.bowls.getD (2 * (f - 1)) NUL = 'X' then y else 0) := by
  rw [update_score_getD f _ _ 2 (f - 1) (by rw [mark_frame_s]; exact hq) (by omega)]
  have cc : credits_prev f (q.mark (2 * f + 1) d) 2 ↔ q.bowls.getD (2 * (f - 1)) NUL = 'X' := by
    unfold credits_prev
    have e : (q.mark (2 * f + 1) d).bowls.getD (2 * (f - 1)) NUL
        = q.bowls.getD (2 * (f - 1)) NUL := by
      rw [mark_getD, if_neg (by omega)]
    rw [e]
    constructor
    · rintro ⟨_, h | h⟩
      · exact absurd h.1 (by decide)
      · exact h.2.2
    · intro h
      exact ⟨by omega, Or.inr ⟨by decide, rfl, h⟩⟩
  have cc2 : ¬ credits_prev2 f (q.mark (2 * f + 1) d) 2 := fun h => absurd h.1 (by decide)
  have n0 : ¬ f - 1 = f := by omega
  have n1 : f - 1 + 1 = f := by omega
  simp only [cc, cc2, n0, n1, mark_frame_s, and_false, if_false, add_zero, true_and]

theorem bowl_frame_last_strike_log (f : Nat) (hf : f = FINAL_FRAME) (bowler : Player)
    (rnd : Nat → Nat) (hl : bowler.frame_s.length = 10) (hb : bowler.bowls.length = 21)
    (h0 : bowler.frame_s.getD f 0 = 0) (hs : (bowl (rnd 0) 10 true).2 = 10) :
    ∃ e1 e2 e3, (bowl_frame f bowler rnd).2 = [e1, e2, e3]
      ∧ e1.board.frame_s.length = 10
      ∧ e1.board.bowls.getD (2 * (f - 1)) NUL = bowler.bowls.getD (2 * (f - 1)) NUL
      ∧ e2.frame = f ∧ e2.ball_number = 2 ∧ e2.pins = ((bowl (rnd 1) 10 true).2 : Int)
      ∧ e2.board = update_score f (e1.board.mark (2 * f + 1) (bowl (rnd 1) 10 true).1) e2.pins 2
      := by
  have hF : f = 9 := hf
  rw [bowl_frame_last_strike f hf bowler rnd (bowl (rnd 1) 10 true).2 (bowl (rnd 0) 10 true).1
    (bowl (rnd 1) 10 true).1 _ hl hb h0 (Prod.ext rfl hs) rfl rfl]
  refine ⟨_, _, _, rfl, ?_, ?_, rfl, rfl, rfl, rfl⟩
  · simp only [update_score_length, mark_frame_s, hl]
  · simp only [update_score_bowls]
    rw [mark_getD, if_neg (by omega)]

theorem fill_ball_credit (name : String) (rnd : Nat → Nat → Nat)
    (hs : (bowl (rnd 9 0) 10 true).2 = 10) :
    ∃ e1 e2 e3, game_log name rnd = (play_frames 9 (Player.fresh name) rnd).2 ++ [e1, e2, e3]
      ∧ e2.frame = 9 ∧ e2.ball_number = 2 ∧ e2.pins = ((bowl (rnd 9 1) 10 true).2 : Int)
      ∧ e2.board.frame_s.getD 8 0
          = e1.board.frame_s.getD 8 0
            + (if e1.board.bowls.getD 16 NUL = 'X' then e2.pins else 0)
      ∧ (e1.board.bowls.getD 16 NUL = 'X'
          ↔ (frame_balls (game_log name rnd) 8).head? = some 10) := by
  have inv9 := play_inv name rnd 9 (by omega)
  have h0 := last_frame_fresh name rnd
  have hfb : frame_balls (game_log name rnd) 8
      = frame_balls (play_frames 9 (Player.fresh name) rnd).2 8 := by
    rw [game_log_eq, frame_balls_append,
      frame_balls_of_ne (bowl_frame 9 _ (rnd 9)).2 8 (fun e he => by
        rw [bowl_frame_frames 9 _ _ e he]; decide),
      List.append_nil]
  obtain ⟨e1, e2, e3, hlog, hlen, hmark, hfr, hbn, hpins, hboard⟩ :=
    bowl_frame_last_strike_log 9 rfl _ (rnd 9) inv9.len_s inv9.len_b h0 hs
  refine ⟨e1, e2, e3, ?_, hfr, hbn, hpins, ?_, ?_⟩
  · rw [game_log_eq, hlog]
  · rw [hboard]
    exact second_ball_prev 9 e1.board _ _ hlen (by decide) (by decide)
  · rw [hfb]
    have hm := inv9.marks 8 (by decide)
    have e16 : e1.board.bowls.getD 16 NUL
        = (play_frames 9 (Player.fresh name) rnd).1.bowls.getD 16 NUL := hmark
    rw [e16]
    exact hm

/-- C25: for every player with ten frame scores, every frame `f` in 1..9 and
every pins value, `update_score` with ball number 2, with the `+=` of the code
on `int`s of 32 bits, adds the pins to `frame_s[f]`, adds them to `frame_s[f-1]`
and once more to `total_s` exactly when `bowls[2(f-1)]` is `X`, and leaves
`frame_s[f-2]` as it is. Every sum is the `int` sum `to_int`, and where no sum
leaves the range of `int` the result is the one of `update_score` on unbounded
integers. After a strike in frame 9 `fill_balls` scores its first ball as ball
2 of frame 9; in a game, played with the `int` sums, that ball is added to
`frame_s[8]` exactly when frame 8 has the strike mark, which it has exactly
when frame 8 is a strike. -/
theorem C25_second_ball_bonus (p : Player) (f : Nat) (pins : Int)
    (hl : p.frame_s.length = 10) (h1 : 1 ≤ f) (h9 : f ≤ 9) :
    (update_score_int f p pins 2).frame_s.getD f 0 = to_int (p.frame_s.getD f 0 + pins)
    ∧ (update_score_int f p pins 2).frame_s.getD (f - 1) 0
        = (if p.bowls.getD (2 * (f - 1)) NUL = 'X' then to_int (p.frame_s.getD (f - 1) 0 + pins)
            else p.frame_s.getD (f - 1) 0)
    ∧ (update_score_int f p pins 2).total_s
        = to_int (p.total_s + pins
            + (if p.bowls.getD (2 * (f - 1)) NUL = 'X' then pins else 0))
    ∧ (2 ≤ f →
        (update_score_int f p pins 2).frame_s.getD (f - 2) 0 = p.frame_s.getD (f - 2) 0)
    ∧ ((∀ i, is_int (p.frame_s.getD i 0 + pins)) → is_int (p.total_s + pins) →
        is_int (p.total_s + pins + pins) → is_int (p.total_s + pins + pins + pins) →
        update_score_int f p pins 2 = update_score f p pins 2)
    ∧ (∀ rnd : Nat → Nat,
        ((fill_balls_int p true rnd).2.head?).map (fun b => (b.frame, b.ball_number, b.pins))
          = some (9, 2, ((bowl (rnd 0) 10 true).2 : Int)))
    ∧ (∀ (name : String) (rnd : Nat → Nat → Nat), (bowl (rnd 9 0) 10 true).2 = 10 →
        ∃ e1 e2 e3,
          (play_frames_int 10 (Player.fresh name) rnd).2
            = (play_frames_int 9 (Player.fresh name) rnd).2 ++ [e1, e2, e3]
          ∧ e2.frame = 9 ∧ e2.ball_number = 2 ∧ e2.pins = ((bowl (rnd 9 1) 10 true).2 : Int)
          ∧ e2.board.frame_s.getD 8 0
              = e1.board.frame_s.getD 8 0
                + (if e1.board.bowls.getD 16 NUL = 'X' then e2.pins else 0)
          ∧ (e1.board.bowls.getD 16 NUL = 'X'
              ↔ (frame_balls (play_frames_int 10 (Player.fresh name) rnd).2 8).head?
                  = some 10)) := by
  have hg := fun i => update_score_int_getD f p pins 2 i hl (by omega)
  have ht := update_score_int_total f p pins 2
  have c1 : credits_prev f p 2 ↔ p.bowls.getD (2 * (f - 1)) NUL = 'X' := by
    unfold credits_prev
    constructor
    · rintro ⟨_, h | h⟩
      · exact absurd h.1 (by decide)
      · exact h.2.2
    · intro h
      exact ⟨by omega, Or.inr ⟨by decide, rfl, h⟩⟩
  have c2 : ¬ credits_prev2 f p 2 := fun h => absurd h.1 (by decide)
  refine ⟨?_, ?_, ?_, ?_, update_score_int_exact f p pins 2, ?_, ?_⟩
  · rw [hg f, if_pos (Or.inl rfl)]
  · rw [hg (f - 1)]
    have n0 : ¬ f - 1 = f := by omega
    have n1 : f - 1 + 1 = f := by omega
    simp only [n0, n1, c1, c2, and_false, true_and, false_or, or_false]
  · rw [ht]
    simp only [c1, c2, if_false, add_zero]
  · intro h2
    rw [hg (f - 2)]
    have n0 : ¬ f - 2 = f := by omega
    have n1 : ¬ f - 2 + 1 = f := by omega
    simp only [n0, n1, c2, false_and, and_false, or_self, if_false]
  · intro rnd
    unfold fill_balls_int
    simp only [if_true, List.head?_cons, Option.map_some', FINAL_FRAME]
  · intro name rnd hs
    rw [(play_frames_int_eq name rnd 10 (le_refl _)).1,
      (play_frames_int_eq name rnd 9 (by decide)).1]
    exact fill_ball_credit name rnd hs

/-- C25, on a player with the strike mark in frame 0 and `frame_s[0] = 13`: the
second ball of frame 1, with 4 pins, makes `frame_s[0]` 17. -/
theorem C25_second_ball_bonus_witness :
    (update_score_int 1 ((Player.fresh "Ann").mark 0 'X' |>.credit 0 13) 4 2).frame_s.getD
        (1 - 1) 0 = 17 :=
  ((C25_second_ball_bonus ((Player.fresh "Ann").mark 0 'X' |>.credit 0 13) 1 4 (by decide)
    (by decide) (by decide)).2.1).trans (by decide)

/-! ## The scoreboard after every ball -/

/-- C26: in every game, after every ball `e` (the log being `pre ++ e :: suf`)
each `frame_s[i]` on the scoreboard is the sum of the pins of the balls of
frame `i` bowled so far and of those of its bonus balls bowled so far, the
bonus balls being the first two later balls after a strike and the first later
ball after a spare. So a frame that stands at ten pins shows exactly 10 while
no later ball is bowled, and from the ball on with which the frame and its
bonus balls are complete `frame_s[i]` has the value it has at the end of the
game. -/
theorem C26_scores_after_every_ball (name : String) (rnd : Nat → Nat → Nat)
    (pre : List Ball) (e : Ball) (suf : List Ball)
    (h : game_log name rnd = pre ++ e :: suf) (i : Nat) (hi : i < 10) :
    e.board.frame_s.getD i 0
        = (frame_balls (pre ++ [e]) i).sum
          + ((balls_after (pre ++ [e]) i).take (bonus_balls (pre ++ [e]) i)).sum
    ∧ (i < 9 → (frame_balls (pre ++ [e]) i).head? = some 10 →
        bonus_balls (pre ++ [e]) i = 2)
    ∧ (i < 9 → (frame_balls (pre ++ [e]) i).sum = 10 →
        (frame_balls (pre ++ [e]) i).head? ≠ some 10 → bonus_balls (pre ++ [e]) i = 1)
    ∧ ((frame_balls (pre ++ [e]) i).sum ≠ 10 → bonus_balls (pre ++ [e]) i = 0)
    ∧ ((frame_balls (pre ++ [e]) i).sum = 10 → balls_after (pre ++ [e]) i = [] →
        e.board.frame_s.getD i 0 = 10)
    ∧ (frame_balls (pre ++ [e]) i = frame_balls (game_log name rnd) i →
        bonus_balls (game_log name rnd) i ≤ (balls_after (pre ++ [e]) i).length →
        e.board.frame_s.getD i 0 = (final_player name rnd).frame_s.getD i 0) := by
  have inv := game_inv name rnd
  have ag : e.board.frame_s.getD i 0 = expected_score (pre ++ [e]) i :=
    (inv.hist pre e suf h).1 i hi
  rw [expected_score] at ag
  refine ⟨ag, ?_, ?_, ?_, ?_, ?_⟩
  · intro h9 hh
    have hshape := inv.shape i (by omega)
    have hfull : (frame_balls (game_log name rnd) i).head? = some 10 := by
      rw [h] at hshape ⊢
      have e1 : frame_balls (pre ++ e :: suf) i
          = frame_balls (pre ++ [e]) i ++ frame_balls suf i := by
        rw [← frame_balls_append]; simp
      rw [e1]
      cases hfb : frame_balls (pre ++ [e]) i with
      | nil => rw [hfb] at hh; simp at hh
      | cons x t => rw [hfb] at hh; simpa using hh
    have h10 : frame_balls (game_log name rnd) i = [10] := by
      have h9' : i < FINAL_FRAME := h9
      simp only [frame_shape, h9', if_true] at hshape
      rcases hshape with hsh | ⟨a, b, hab, _, ha, _⟩
      · exact hsh
      · rw [hab] at hfull
        simp only [List.head?_cons, Option.some.injEq] at hfull
        omega
    have hpre : frame_balls (pre ++ [e]) i = [10] := by
      have e1 : frame_balls (game_log name rnd) i
          = frame_balls (pre ++ [e]) i ++ frame_balls suf i := by
        rw [h, ← frame_balls_append]; simp
      rw [h10] at e1
      cases hfb : frame_balls (pre ++ [e]) i with
      | nil => rw [hfb] at hh; simp at hh
      | cons x t =>
        rw [hfb] at hh e1
        simp only [List.head?_cons, Option.some.injEq] at hh
        simp only [List.cons_append, List.cons.injEq] at e1
        have ht : t = [] := by
          have := e1.2
          rcases t with _ | ⟨y, t2⟩
          · rfl
          · simp at this
        rw [hh, ht]
    have h9' : i < FINAL_FRAME := h9
    simp [bonus_balls, hpre, h9']
  · intro h9 hs hh
    have h9' : i < FINAL_FRAME := h9
    simp only [bonus_balls, h9', hs, and_self, if_true, hh, if_false]
  · intro hs
    simp only [bonus_balls, hs, and_false, if_false]
  · intro hs hnil
    rw [ag, hs, hnil]
    simp
  · intro hfb hlen
    rw [ag, inv.agree i hi, expected_score, hfb, bonus_balls_congr _ _ i hfb]
    have e2 : balls_after (game_log name rnd) i
        = balls_after (pre ++ [e]) i ++ balls_after suf i := by
      rw [h]; exact balls_after_split pre suf e i
    rw [e2, List.take_append_of_le_length hlen]

set_option maxRecDepth 100000 in
/-- C26, on the game of twelve strikes: after the second ball the scoreboard
shows `frame_s[0] = 20`. -/
theorem C26_scores_after_every_ball_witness :
    ((game_log "Ann" (fun _ _ => 10)).get ⟨1, by decide⟩).board.frame_s.getD 0 0 = 20 :=
  ((C26_scores_after_every_ball "Ann" (fun _ _ => 10)
    ((game_log "Ann" (fun _ _ => 10)).take 1)
    ((game_log "Ann" (fun _ _ => 10)).get ⟨1, by decide⟩)
    ((game_log "Ann" (fun _ _ => 10)).drop 2) (by decide) 0 (by decide)).1).trans (by decide)

/-! ## Array indices -/

theorem update_score_traced_fst (frame : Nat) (bowler : Player) (pins : Int) (n : Nat) :
    (update_score_traced frame bowler pins n).1 = update_score frame bowler pins n := by
  unfold update_score_traced update_score
  simp only []
  split_ifs <;> first | rfl | tauto

theorem fill_balls_traced_fst (bowler : Player) (strike : Bool) (rnd : Nat → Nat) :
    (fill_balls_traced bowler strike rnd).1 = (fill_balls bowler strike rnd).1 := by
  unfold fill_balls_traced fill_balls
  simp only [update_score_traced_fst]
  split_ifs <;> rfl

theorem bowl_frame_traced_fst (frame : Nat) (bowler : Player) (rnd : Nat → Nat) :
    (bowl_frame_traced frame bowler rnd).1 = (bowl_frame frame bowler rnd).1 := by
  unfold bowl_frame_traced bowl_frame
  simp only [update_score_traced_fst, fill_balls_traced_fst]
  split_ifs <;> first | rfl | tauto

theorem of_frame_in_range (frame : Nat) (hf : frame ≤ 9) (a : Access)
    (h : a.of_frame frame) : a.in_range := by
  cases a <;> simp only [Access.of_frame, Access.in_range, FINAL_FRAME] at h ⊢ <;> omega

theorem update_score_trace (frame : Nat) (bowler : Player) (pins : Int) (n : Nat) :
    ∀ a, a ∈ (update_score_traced frame bowler pins n).2 → a.of_frame frame := by
  unfold update_score_traced
  simp only []
  have k1 : frame ≠ 0 → 1 ≤ frame := fun h => by omega
  have k2 : frame > 1 → 2 ≤ frame := fun h => h
  split_ifs <;>
    simp only [List.mem_append, List.mem_cons, List.mem_singleton, List.not_mem_nil,
      or_false, forall_eq_or_imp, forall_eq, or_imp, forall_and, Access.of_frame] <;>
    tauto

theorem fill_balls_trace (bowler : Player) (strike : Bool) (rnd : Nat → Nat) :
    ∀ a, a ∈ (fill_balls_traced bowler strike rnd).2 → a.of_frame FINAL_FRAME := by
  intro a ha
  unfold fill_balls_traced at ha
  cases strike
  · simp only [Bool.false_eq_true, if_false, List.mem_append, List.mem_singleton] at ha
    rcases ha with ha | ha
    · subst ha; simp [Access.of_frame]
    · exact update_score_trace _ _ _ _ a ha
  · simp only [if_true, List.mem_append, List.mem_singleton] at ha
    rcases ha with ((ha | ha) | ha) | ha
    · subst ha; simp [Access.of_frame]
    · exact update_score_trace _ _ _ _ a ha
    · subst ha; simp [Access.of_frame]
    · exact update_score_trace _ _ _ _ a ha

theorem bowl_frame_trace (frame : Nat) (bowler : Player) (rnd : Nat → Nat) :
    ∀ a, a ∈ (bowl_frame_traced frame bowler rnd).2 → a.of_frame frame := by
  have hw1 : (Access.write_bowls (2 * (frame : Int))).of_frame frame := by
    simp [Access.of_frame]
  have hw2 : (Access.write_bowls (2 * (frame : Int) + 1)).of_frame frame := by
    simp [Access.of_frame]
  have hr1 : frame = FINAL_FRAME → (Access.read_frame_s (frame : Int)).of_frame frame := by
    intro h9
    simp [Access.of_frame, h9]
  have hr2 : frame = FINAL_FRAME → (Access.read_bowls (2 * (frame : Int))).of_frame frame := by
    intro h9
    simp [Access.of_frame, h9]
  have hfill : frame = FINAL_FRAME → ∀ b s r a, a ∈ (fill_balls_traced b s r).2 →
      a.of_frame frame := by
    intro h9 b s r
    rw [h9]
    exact fill_balls_trace b s r
  unfold bowl_frame_traced
  simp only []
  by_cases h9 : frame = FINAL_FRAME
  · rw [if_pos h9]
    split_ifs <;>
      simp only [List.mem_append, List.mem_cons, List.mem_singleton, List.not_mem_nil,
        or_false, or_imp, forall_and, forall_eq] <;>
      and_intros <;>
      first
        | exact update_score_trace _ _ _ _
        | exact hfill h9 _ _ _
        | exact hw1
        | exact hw2
        | exact hr1 h9
        | exact hr2 h9
  · rw [if_neg h9]
    split_ifs <;>
      simp only [List.mem_append, List.mem_cons, List.mem_singleton, List.not_mem_nil,
        or_false, or_imp, forall_and, forall_eq] <;>
      and_intros <;>
      first
        | exact update_score_trace _ _ _ _
        | exact hw1
        | exact hw2

/-- C27: for every frame in 0..9, every bowler and every sequence of random
draws, every element of `bowls` that `bowl_frame`, `fill_balls` and
`update_score` use has an index in 0..20 and every element of `frame_s` an
index in 0..9. `bowls` is written only at `2 * frame`, `2 * frame + 1` and, by
the last fill ball, at 20; it is read only at `2 * (frame - 1)` when
`frame ≥ 1`, at `2 * (frame - 2)` when `frame ≥ 2` and at 18 in frame 9.
`frame_s` is used only at `frame`, at `frame - 1` when `frame ≥ 1` and at
`frame - 2` when `frame ≥ 2`. The functions with the list of uses compute the
same bowler as `bowl_frame`, `fill_balls` and `update_score`. -/
theorem C27_indices_in_range (frame : Nat) (bowler : Player) (rnd : Nat → Nat)
    (hf : frame ≤ 9) :
    (∀ a, a ∈ (bowl_frame_traced frame bowler rnd).2 → a.in_range)
    ∧ (∀ pins n a, a ∈ (update_score_traced frame bowler pins n).2 → a.in_range)
    ∧ (∀ strike a, a ∈ (fill_balls_traced bowler strike rnd).2 → a.in_range)
    ∧ (∀ i, Access.write_bowls i ∈ (bowl_frame_traced frame bowler rnd).2 →
        i = 2 * (frame : Int) ∨ i = 2 * (frame : Int) + 1 ∨ (frame = 9 ∧ i = 20))
    ∧ (∀ i, Access.read_bowls i ∈ (bowl_frame_traced frame bowler rnd).2 →
        (frame = 9 ∧ i = 18) ∨ (1 ≤ frame ∧ i = 2 * ((frame : Int) - 1))
          ∨ (2 ≤ frame ∧ i = 2 * ((frame : Int) - 2)))
    ∧ (∀ i, (Access.read_frame_s i ∈ (bowl_frame_traced frame bowler rnd).2
          ∨ Access.write_frame_s i ∈ (bowl_frame_traced frame bowler rnd).2) →
        i = (frame : Int) ∨ (1 ≤ frame ∧ i = (frame : Int) - 1)
          ∨ (2 ≤ frame ∧ i = (frame : Int) - 2))
    ∧ (bowl_frame_traced frame bowler rnd).1 = (bowl_frame frame bowler rnd).1
    ∧ (∀ pins n, (update_score_traced frame bowler pins n).1 = update_score frame bowler pins n)
    ∧ (∀ strike, (fill_balls_traced bowler strike rnd).1 = (fill_balls bowler strike rnd).1) := by
  refine ⟨?_, ?_, ?_, ?_, ?_, ?_, bowl_frame_traced_fst frame bowler rnd,
    fun pins n => update_score_traced_fst frame bowler pins n,
    fun strike => fill_balls_traced_fst bowler strike rnd⟩
  · intro a ha
    exact of_frame_in_range frame hf a (bowl_frame_trace frame bowler rnd a ha)
  · intro pins n a ha
    exact of_frame_in_range frame hf a (update_score_trace frame bowler pins n a ha)
  · intro strike a ha
    exact of_frame_in_range FINAL_FRAME (by decide) a (fill_balls_trace bowler strike rnd a ha)
  · intro i hi
    have h := bowl_frame_trace frame bowler rnd _ hi
    simp only [Access.of_frame, FINAL_FRAME] at h
    omega
  · intro i hi
    have h := bowl_frame_trace frame bowler rnd _ hi
    simp only [Access.of_frame, FINAL_FRAME] at h
    omega
  · rintro i (hi | hi)
    · have h := bowl_frame_trace frame bowler rnd _ hi
      simp only [Access.of_frame, FINAL_FRAME] at h
      omega
    · have h := bowl_frame_trace frame bowler rnd _ hi
      simp only [Access.of_frame, FINAL_FRAME] at h
      omega

set_option maxRecDepth 100000 in
/-- C27, on frame 9 of a fresh bowler with three strikes: the last fill ball
is written to `bowls[20]`. -/
theorem C27_indices_in_range_witness :
    Access.write_bowls 20 ∈ (bowl_frame_traced 9 (Player.fresh "Ann") (fun _ => 10)).2
    ∧ (Access.write_bowls 20).in_range :=
  ⟨by decide,
    (C27_indices_in_range 9 (Player.fresh "Ann") (fun _ => 10) (by decide)).1
      (Access.write_bowls 20) (by decide)⟩

end Bowling
